import Mathlib

/-!
Verification of the FlowState planning core.

This file gives a shallow embedding, in Lean 4, of the deterministic
scheduler (`suggestSchedule`), the cascade mover (`cascadeTaskMove`), the
conflict resolver (`resolveOverlaps`) and the shared 15-minute grid helpers
of the FlowState repository, together with theorems settling the frozen
claims about them.

Modelling conventions:
* a JavaScript `Date` is its timestamp, an `Int` number of milliseconds;
  the civil-time operations of date-fns (`startOfDay`, `setHours`, ...) are
  modelled in a fixed UTC-like timezone whose offset is zero;
* `Date` arithmetic helpers follow date-fns v2 semantics:
  `differenceInMinutes` truncates toward zero, `isBefore`/`isAfter` are
  strict, `areIntervalsOverlapping` (no options) is strict half-open
  interval intersection (the date-fns exception on an empty interval is not
  modelled; theorems that depend on fixed events assume well-formed ones);
* ISO strings stored on tasks (`scheduledStart`, `deadline`, ...) are
  modelled by their parsed timestamps (`Option Int`); JavaScript truthiness
  of such an optional string field is `Option.isSome`, truthiness of an
  optional boolean is equality with `some true`, and an optional array is
  truthy whenever present;
* `Array.prototype.sort` (stable since ES2019) is modelled by the stable
  `List.insertionSort`, a `Map` by an association list with
  overwrite-on-set semantics, and a `Set` by a list without duplicates;
* the `while` loops of the source are modelled by structural recursion on
  an explicit fuel argument that provably dominates the number of
  iterations of the corresponding loop.
-/

namespace FS

/-! ## Time grid primitives (date-fns model) -/

def startOfDay (t : Int) : Int := (t / 86400000) * 86400000

def endOfDay (t : Int) : Int := startOfDay t + 86400000 - 1

def addDays (t n : Int) : Int := t + n * 86400000

def addMinutes (t m : Int) : Int := t + m * 60000

def subMinutes (t m : Int) : Int := t - m * 60000

/-- Model of date-fns `differenceInMinutes`: millisecond difference divided
by 60000 and truncated toward zero. -/
def differenceInMinutes (a b : Int) : Int := (a - b).tdiv 60000

def getMinutes (t : Int) : Int := (t / 60000) % 60

def getHours (t : Int) : Int := (t / 3600000) % 24

/-- Day of week, 0 = Sunday; the epoch (1970-01-01) was a Thursday (= 4). -/
def getDay (t : Int) : Int := (t / 86400000 + 4) % 7

def setHours (t h : Int) : Int := startOfDay t + h * 3600000 + t % 3600000

def setMinutes (t m : Int) : Int := (t / 3600000) * 3600000 + m * 60000 + t % 60000

/-- Model of `setSeconds(setMilliseconds(t, 0), 0)`: zero the sub-minute
fields. -/
def zeroSub (t : Int) : Int := (t / 60000) * 60000

/-- Strict half-open interval intersection, date-fns
`areIntervalsOverlapping` with no options. -/
def areIntervalsOverlapping (aS aE bS bE : Int) : Bool :=
  decide (aS < bE) && decide (bS < aE)

/-- Source (`src/unnamed/part_005` and the shared helpers): round a number
of minutes to the nearest multiple of 15, with a floor of 15. -/
def roundToNearest15 (m : Int) : Int :=
  if ((2 * m + 15) / 30) * 15 < 15 then 15 else ((2 * m + 15) / 30) * 15

/-- Source: round a date forward to the next 15-minute boundary; when the
minute count is already a multiple of 15 the sub-minute fields are zeroed
and the date is returned. -/
def ceilTo15 (t : Int) : Int :=
  if (getMinutes t) % 15 = 0 then zeroSub t
  else zeroSub (addMinutes t (15 - (getMinutes t) % 15))

/-- Source: round a date back to the previous 15-minute boundary. -/
def floorTo15 (t : Int) : Int :=
  zeroSub (subMinutes t ((getMinutes t) % 15))

/-! ## Data model (src/types.ts) -/

inductive Priority
  | high
  | medium
  | low
deriving DecidableEq, Repr

inductive TaskStatus
  | todo
  | inProgress
  | done
deriving DecidableEq, Repr

inductive EnergyLevel
  | low
  | medium
  | high
deriving DecidableEq, Repr

/-- The `Task` record of src/types.ts, restricted to the fields that the
planning core reads or writes.  Optional ISO date strings are modelled by
their parsed timestamps. -/
structure Task where
  id : String
  title : String
  durationMinutes : Int
  priority : Priority
  status : TaskStatus
  deadline : Option Int := none
  projectId : Option String := none
  description : Option String := none
  isFixed : Option Bool := none
  scheduledStart : Option Int := none
  scheduledEnd : Option Int := none
  dependencies : Option (List String) := none
  schedulingReason : Option String := none
  energy : Option EnergyLevel := none
  earliestStart : Option Int := none
  latestEnd : Option Int := none
  isTodoList : Option Bool := none
  originalTaskId : Option String := none
  partIndex : Option Int := none
deriving DecidableEq, Repr

structure UserSettings where
  workStartHour : Int
  workEndHour : Int
  workDays : List Int
  enableChunking : Bool
  workChunkMinutes : Int
  shortBreakMinutes : Int
  longBreakMinutes : Int
  longBreakInterval : Int
  autoRescheduleOverdue : Bool := false
  defaultTaskDuration : Int := 30
  planningBufferMinutes : Int := 0
deriving DecidableEq, Repr

/-- The scheduler's `Slot`; the source field `end` is called `stop` here
because `end` is a Lean keyword. -/
structure Slot where
  start : Int
  stop : Int
  duration : Int
deriving DecidableEq, Repr

/-! ## JavaScript Map and Set model -/

/-- Lookup in a JavaScript `Map` modelled as an association list. -/
def mapGet {κ α : Type} [BEq κ] (m : List (κ × α)) (k : κ) : Option α :=
  (m.find? (fun p => p.1 == k)).map (fun p => p.2)

/-- `Map.prototype.set`: overwrite the value at an existing key in place,
or append a new entry. -/
def mapSet {κ α : Type} [BEq κ] (m : List (κ × α)) (k : κ) (v : α) : List (κ × α) :=
  if (m.find? (fun p => p.1 == k)).isSome then
    m.map (fun p => if p.1 == k then (k, v) else p)
  else m ++ [(k, v)]

/-! ## Conflict resolver (shared helpers, `resolveOverlaps`) -/

/-- The filter of `resolveOverlaps`: scheduled and not Done. -/
def hasSchedule (t : Task) : Bool :=
  t.scheduledStart.isSome && t.scheduledEnd.isSome && decide (t.status ≠ TaskStatus.done)

/-- The scheduled start used in comparisons (`new Date(s!).getTime()`);
only evaluated on tasks whose field is present. -/
def startMs (t : Task) : Int := t.scheduledStart.getD 0

def endMs (t : Task) : Int := t.scheduledEnd.getD 0

/-- The JavaScript sort comparator of `resolveOverlaps` (ascending by
scheduled start), as the relation handed to the stable sort. -/
def byStart (a b : Task) : Prop := startMs a ≤ startMs b

instance : DecidableRel byStart := fun a b => by unfold byStart; infer_instance

instance : IsTotal Task byStart := ⟨fun a b => le_total (startMs a) (startMs b)⟩

instance : IsTrans Task byStart := ⟨fun _ _ _ => le_trans⟩

/-- The overlap push of `resolveOverlaps`: move `next` to `newStart`,
recompute its end from its `durationMinutes` field, mark it fixed. -/
def pushTask (next : Task) (newStart : Int) : Task :=
  { next with scheduledStart := some newStart,
              scheduledEnd := some (addMinutes newStart next.durationMinutes),
              isFixed := some true,
              schedulingReason := some "Auto-resolved conflict" }

/-- The pair loop of `resolveOverlaps`.  `current` is the array cell at the
previous index (updated in place by the source when pushed), `m` is
`modifiedMap`.  Returns the final `modifiedMap` together with the final
contents of the `sortedTasks` array. -/
def resolveLoop (m : List (String × Task)) (current : Task) :
    List Task → List (String × Task) × List Task
  | [] => (m, [current])
  | next :: rest =>
    let cur := (mapGet m current.id).getD current
    let nxt := (mapGet m next.id).getD next
    if endMs cur > startMs nxt then
      let updated := pushTask nxt (endMs cur)
      let res := resolveLoop (mapSet m next.id updated) updated rest
      (res.1, current :: res.2)
    else
      let res := resolveLoop m next rest
      (res.1, current :: res.2)

/-- Source `resolveOverlaps`: sort the incomplete scheduled tasks by start,
iterate adjacent pairs pushing an overlapped successor to start at the
predecessor's end, and merge the modified tasks back into the original
list by id. -/
def resolveOverlaps (tasks : List Task) : List Task :=
  match (tasks.filter hasSchedule).insertionSort byStart with
  | [] => tasks
  | c :: rest =>
    let m := (resolveLoop [] c rest).1
    tasks.map (fun t => (mapGet m t.id).getD t)

/-! ## Cascade mover (shared helpers, `cascadeTaskMove`) -/

/-- State of the cascade traversal: the cloned task map (insertion order
preserved, values mutated in place) and the visited set. -/
structure CascadeState where
  taskMap : List (String × Task)
  visited : List String
deriving DecidableEq, Repr

/-- The in-place update performed on each visited node. -/
def cascadeUpdate (t : Task) (start : Int) : Task :=
  { t with scheduledStart := some start,
           scheduledEnd := some (addMinutes start t.durationMinutes),
           isFixed := some true,
           schedulingReason := some "Manually moved by user" }

/-- The recursive `moveRecursively` of `cascadeTaskMove`.  The fuel
argument dominates the recursion depth (each nested call marks a fresh
identifier visited, so the depth is bounded by the number of identifiers in
the map plus all dependency identifiers). -/
def moveRec : Nat → CascadeState → String → Int → CascadeState
  | 0, st, _, _ => st
  | Nat.succ n, st, tid, start =>
    if tid ∈ st.visited then st
    else
      let visited1 := st.visited ++ [tid]
      match mapGet st.taskMap tid with
      | none => ⟨st.taskMap, visited1⟩
      | some task =>
        let updated := cascadeUpdate task start
        let taskEnd := addMinutes start task.durationMinutes
        let st2 : CascadeState := ⟨mapSet st.taskMap tid updated, visited1⟩
        -- Push successors (snapshot of the map values, re-read on use
        -- because the source array holds live object references).
        let successors := (st2.taskMap.map (fun p => p.2)).filter
            (fun t => (t.dependencies.getD []).contains tid)
        let st3 := successors.foldl (fun (acc : CascadeState) succ =>
          match mapGet acc.taskMap succ.id with
          | none => acc
          | some succCur =>
            match succCur.scheduledStart with
            | none => acc
            | some succStart =>
              if succStart < taskEnd then moveRec n acc succCur.id taskEnd
              else acc) st2
        -- Pull predecessors.
        (task.dependencies.getD []).foldl (fun (acc : CascadeState) depId =>
          match mapGet acc.taskMap depId with
          | none => acc
          | some dep =>
            match dep.scheduledEnd with
            | none => acc
            | some depEnd =>
              if depEnd > start then
                moveRec n acc depId (subMinutes start dep.durationMinutes)
              else acc) st3

/-- Fuel that dominates the depth of the cascade recursion. -/
def cascadeFuel (allTasks : List Task) : Nat :=
  allTasks.length + (allTasks.map (fun t => (t.dependencies.getD []).length)).sum + 2

/-- Source `cascadeTaskMove`: clone all tasks into a map, run the
recursive move from the target, and return the map values. -/
def cascadeTaskMove (allTasks : List Task) (taskId : String) (newStart : Int) :
    List Task :=
  let taskMap := allTasks.foldl (fun m t => mapSet m t.id t) []
  (moveRec (cascadeFuel allTasks) ⟨taskMap, []⟩ taskId newStart).taskMap.map
    (fun p => p.2)

/-! ## Concrete instances used by counterexamples -/

/-- A single scheduled, movable task whose scheduled end matches its
duration; used to refute claim C6. -/
def c6Task : Task :=
  { id := "a", title := "A", durationMinutes := 60, priority := .high,
    status := .todo, scheduledStart := some 0, scheduledEnd := some 3600000 }

/-- The same task already carrying every field the cascade update writes;
used as the witness input for the amended claim C6. -/
def c6FixedTask : Task :=
  { id := "a", title := "A", durationMinutes := 60, priority := .high,
    status := .todo, scheduledStart := some 0, scheduledEnd := some 3600000,
    isFixed := some true, schedulingReason := some "Manually moved by user" }


/-! ## Proof-support relations for the conflict resolver -/

/-- One push step or no change, with the matching final-map entry. -/
def evolveStep (mf : List (String × Task)) (x y : Task) : Prop :=
  (y = x ∧ mapGet mf x.id = none) ∨
  (∃ e, startMs x < e ∧ y = pushTask x e ∧ mapGet mf x.id = some y)


/-- The value a task maps to in the merge-back step of `resolveOverlaps`. -/
def applyResolved (mf : List (String × Task)) (t : Task) : Task :=
  (mapGet mf t.id).getD t

/-- Adjacent relation satisfied by the array after one resolver pass. -/
def resolvedRel (a b : Task) : Prop :=
  endMs a ≤ startMs b ∧ startMs a ≤ startMs b

instance : IsTrans Task resolvedRel :=
  ⟨fun _ _ _ h1 h2 => ⟨le_trans h1.1 h2.2, le_trans h1.2 h2.2⟩⟩


/-- Tasks used to refute claim C7: a zero-duration task pushed to a tied
start makes a second resolver pass shift it again. -/
def c7W : Task :=
  { id := "w", title := "W", durationMinutes := 10, priority := .medium,
    status := .todo, scheduledStart := some 0, scheduledEnd := some 600000 }

def c7X : Task :=
  { id := "x", title := "X", durationMinutes := 0, priority := .medium,
    status := .todo, scheduledStart := some 300000, scheduledEnd := some 300000 }

def c7Y : Task :=
  { id := "y", title := "Y", durationMinutes := 40, priority := .medium,
    status := .todo, scheduledStart := some 600000, scheduledEnd := some 3000000 }

/-- Tasks used to refute claim C10: a Done task sharing its identifier with
a pushed task is replaced in the merge-back step. -/
def c10A : Task :=
  { id := "a", title := "A", durationMinutes := 100, priority := .medium,
    status := .todo, scheduledStart := some 0, scheduledEnd := some 6000000 }

def c10B : Task :=
  { id := "b", title := "B", durationMinutes := 10, priority := .medium,
    status := .todo, scheduledStart := some 600000, scheduledEnd := some 1200000 }

def c10BDone : Task :=
  { id := "b", title := "B2", durationMinutes := 5, priority := .medium,
    status := .done, scheduledStart := some 0, scheduledEnd := some 300000 }

/-- A small well-formed input (distinct ids, positive durations) used by
the witnesses of the amended resolver claims. -/
def resolverWitnessTasks : List Task := [c10A, c10B]


/-! ## The deterministic scheduler (src/unnamed/part_005, suggestSchedule) -/

def pad2 (n : Int) : String :=
  if n < 10 then "0" ++ toString n else toString n

def pad3 (n : Int) : String :=
  if n < 10 then "00" ++ toString n
  else if n < 100 then "0" ++ toString n
  else toString n

/-- Model of Date.prototype.toISOString via the standard civil-from-days
conversion (valid for years 1000 to 9999, which padding assumes). -/
def isoString (t : Int) : String :=
  let days := t / 86400000
  let ms := t % 86400000
  let z := days + 719468
  let era := z / 146097
  let doe := z % 146097
  let yoe := (doe - doe / 1460 + doe / 36524 - doe / 146096) / 365
  let y0 := yoe + era * 400
  let doy := doe - (365 * yoe + yoe / 4 - yoe / 100)
  let mp := (5 * doy + 2) / 153
  let d := doy - (153 * mp + 2) / 5 + 1
  let m := mp + (if mp < 10 then 3 else -9)
  let y := y0 + (if m ≤ 2 then 1 else 0)
  toString y ++ "-" ++ pad2 m ++ "-" ++ pad2 d ++ "T" ++
    pad2 (ms / 3600000) ++ ":" ++ pad2 ((ms / 60000) % 60) ++ ":" ++
    pad2 ((ms / 1000) % 60) ++ "." ++ pad3 (ms % 1000) ++ "Z"

def priorityText : Priority → String
  | .high => "High"
  | .medium => "Medium"
  | .low => "Low"

def energyText : EnergyLevel → String
  | .low => "low"
  | .medium => "medium"
  | .high => "high"

/-- The result record of suggestSchedule; an unscheduled entry is the task
together with its reason string. -/
structure PlanResult where
  scheduled : List Task
  breaks : List Task
  unscheduled : List (Task × String)
  warnings : List String
deriving DecidableEq, Repr

/-- Lines 33-49: energy score of a start instant.  The source computes the
fractional hour (hours + minutes/60) and compares it against integer
bounds, which is equivalent to comparing the integer hour. -/
def getEnergyScore (energy : Option EnergyLevel) (start : Int) : Int :=
  match energy with
  | none => 1
  | some EnergyLevel.high =>
    if getHours start < 11 then 3
    else if getHours start < 15 then 2
    else 1
  | some EnergyLevel.medium =>
    if 10 ≤ getHours start ∧ getHours start < 16 then 3
    else if 8 ≤ getHours start ∧ getHours start < 18 then 2
    else 1
  | some EnergyLevel.low =>
    if 15 ≤ getHours start then 3
    else if 12 ≤ getHours start then 2
    else 1

/-- Lines 69-79: index the fixed tasks by the day of their start. -/
def fixedTasksByDay (fixedTasks : List Task) : List (Int × List Task) :=
  fixedTasks.foldl (fun m t =>
    match t.scheduledStart, t.scheduledEnd with
    | some s, some _ =>
      if t.status ≠ TaskStatus.done then
        match mapGet m (startOfDay s) with
        | some l => mapSet m (startOfDay s) (l ++ [t])
        | none => mapSet m (startOfDay s) [t]
      else m
    | _, _ => m) []

/-- Lines 127-147: subtract one fixed event from the windows of a day. -/
def subtractFixed (dayWindows : List Slot) (fStart fEnd : Int) : List Slot :=
  dayWindows.foldl (fun acc win =>
    if ¬ (areIntervalsOverlapping win.start win.stop fStart fEnd = true) then
      acc ++ [win]
    else
      (acc ++ (if win.start < fStart then
          [{ start := win.start, stop := fStart,
             duration := differenceInMinutes fStart win.start }]
        else []))
        ++ (if win.stop > fEnd then
          [{ start := fEnd, stop := win.stop,
             duration := differenceInMinutes win.stop fEnd }]
        else [])) []

/-- Lines 104-163: the windows of one day given the (possibly clamped)
work interval: seed one window, subtract the overlapping fixed events of
the day, then re-align each window to the grid and keep those of at least
15 minutes. -/
def dayWindowsCore (fixedByDay : List (Int × List Task))
    (iterDate workStart workEnd : Int) : List Slot :=
  if workStart > workEnd ∨ workStart = workEnd then []
  else
    let dayWindows0 : List Slot :=
      [{ start := workStart, stop := workEnd,
         duration := differenceInMinutes workEnd workStart }]
    let dayFixedTasks := (mapGet fixedByDay (startOfDay iterDate)).getD []
    let overlappingFixed := dayFixedTasks.filter (fun t =>
      decide (t.scheduledStart.getD 0 < workEnd) &&
      decide (t.scheduledEnd.getD 0 > workStart))
    let subtracted := overlappingFixed.foldl (fun ws f =>
      subtractFixed ws (f.scheduledStart.getD 0) (f.scheduledEnd.getD 0))
      dayWindows0
    (subtracted.filterMap (fun win =>
      if ¬ (ceilTo15 win.start < floorTo15 win.stop) then none
      else some { start := ceilTo15 win.start, stop := floorTo15 win.stop,
                  duration :=
                    differenceInMinutes (floorTo15 win.stop) (ceilTo15 win.start) }))
      |>.filter (fun w => decide (w.duration ≥ 15))

/-- Lines 88-164: one day of the availability loop, including the
today-clamp and the skip conditions. -/
def dayWindowsFor (settings : UserSettings) (currentDate : Int)
    (fixedByDay : List (Int × List Task)) (iterDate : Int) : List Slot :=
  if settings.workDays.contains (getDay iterDate) then
    let workStart0 := ceilTo15 (setMinutes (setHours iterDate settings.workStartHour) 0)
    let workEnd := floorTo15 (setMinutes (setHours iterDate settings.workEndHour) 0)
    if workStart0 < currentDate ∧ currentDate < workEnd then
      dayWindowsCore fixedByDay iterDate (ceilTo15 currentDate) workEnd
    else if currentDate > workStart0 ∧ currentDate > workEnd then []
    else dayWindowsCore fixedByDay iterDate workStart0 workEnd
  else []

/-- Lines 84-166: the 180-day availability loop; the source advances
iterDate by one day per iteration, so the loop runs exactly 180 times. -/
def availableWindowsLoop (settings : UserSettings) (currentDate : Int)
    (fixedByDay : List (Int × List Task)) : Nat → Int → List Slot
  | 0, _ => []
  | Nat.succ n, iterDate =>
    dayWindowsFor settings currentDate fixedByDay iterDate ++
      availableWindowsLoop settings currentDate fixedByDay n (addDays iterDate 1)

/-- Lines 176-220: the chunking walk through one window.  Each iteration
advances the cursor by at least 15 minutes, so the fuel (window duration
in minutes, plus one) dominates the iteration count. -/
def chunkLoop (settings : UserSettings) (windowStop : Int) :
    Nat → Int → Int → (List Slot × List Task × Int)
  | 0, _, counter => ([], [], counter)
  | Nat.succ n, cursor, counter =>
    if cursor < windowStop then
      if differenceInMinutes windowStop cursor < 15 then ([], [], counter)
      else
        let workDuration := min (roundToNearest15 settings.workChunkMinutes)
          ((differenceInMinutes windowStop cursor / 15) * 15)
        if workDuration < 15 then ([], [], counter)
        else
          let workEnd := addMinutes cursor workDuration
          let slot : Slot :=
            { start := cursor, stop := workEnd, duration := workDuration }
          let counter1 := counter + 1
          if differenceInMinutes windowStop workEnd ≥ 15 then
            let isLongBreak := counter1 % settings.longBreakInterval = 0
            let breakDuration := min
              (roundToNearest15 (if isLongBreak then settings.longBreakMinutes
                else settings.shortBreakMinutes))
              ((differenceInMinutes windowStop workEnd / 15) * 15)
            if breakDuration ≥ 15 then
              let breakEnd := addMinutes workEnd breakDuration
              let breakTask : Task :=
                { id := "break-" ++ toString workEnd,
                  title := if isLongBreak then "Long Break" else "Short Break",
                  durationMinutes := breakDuration,
                  priority := .low, status := .todo, isFixed := some true,
                  scheduledStart := some workEnd, scheduledEnd := some breakEnd,
                  projectId := some "system-break",
                  description := some "Auto-generated break." }
              let next := chunkLoop settings windowStop n breakEnd counter1
              (slot :: next.1, breakTask :: next.2.1, next.2.2)
            else
              let next := chunkLoop settings windowStop n workEnd counter1
              (slot :: next.1, next.2.1, next.2.2)
          else
            let next := chunkLoop settings windowStop n workEnd counter1
            (slot :: next.1, next.2.1, next.2.2)
    else ([], [], counter)

/-- Lines 170-224: the chunking phase over all windows, threading the
global chunk counter. -/
def chunkWindows (settings : UserSettings) (windows : List Slot) :
    List Slot × List Task :=
  let res := windows.foldl (fun (acc : List Slot × List Task × Int) w =>
    let r := chunkLoop settings w.stop (w.duration.toNat + 1) w.start acc.2.2
    (acc.1 ++ r.1, acc.2.1 ++ r.2.1, r.2.2)) ([], [], 0)
  (res.1, res.2.1)

/-- Lines 245-251: priority and constraint score of a task. -/
def getTaskScore (t : Task) : Int :=
  (match t.priority with
    | .high => 3
    | .medium => 2
    | .low => 1) * 100 +
  (if t.deadline.isSome then 50 else 0) +
  (if t.latestEnd.isSome then 60 else 0)

/-- Lines 267-273: the JavaScript sort comparator of sortByScore. -/
def scoreCmp (a b : Task) : Int :=
  if getTaskScore b ≠ getTaskScore a then getTaskScore b - getTaskScore a
  else
    match a.deadline, b.deadline with
    | some da, some db => da - db
    | _, _ => b.durationMinutes - a.durationMinutes

/-- The relation handed to the stable sort modelling Array.sort with the
scoreCmp comparator. -/
def scoreLe (a b : Task) : Prop := scoreCmp a b ≤ 0

instance : DecidableRel scoreLe := fun a b => by unfold scoreLe; infer_instance

def sortByScore (l : List Task) : List Task := l.insertionSort scoreLe

/-- Lines 296-310: the earliest instant a task may start (now, dependency
completion times, explicit earliest start). -/
def dependencyConstraint (completion : List (String × Int)) (currentDate : Int)
    (task : Task) : Int :=
  let d0 := (task.dependencies.getD []).foldl (fun acc depId =>
    match mapGet completion depId with
    | some e => if e > acc then e else acc
    | none => acc) currentDate
  match task.earliestStart with
  | some e => if e > d0 then e else d0
  | none => d0

/-- Lines 312-319: the latest-end ceiling (end of deadline day and explicit
latest end, whichever is earlier). -/
def latestConstraint (task : Task) : Option Int :=
  match task.deadline.map endOfDay, task.latestEnd with
  | some d, some e => some (if d < e then d else e)
  | some d, none => some d
  | none, some e => some e
  | none, none => none

/-- Lines 331-334 and 366-369: usable start within a slot. -/
def usableStartIn (slot : Slot) (depC : Int) : Int :=
  if slot.start < depC then ceilTo15 depC else slot.start

/-- Lines 338 and 373: slot end clipped by the latest-end ceiling. -/
def slotStopIn (slot : Slot) (latestC : Option Int) : Int :=
  match latestC with
  | some l => if l < slot.stop then l else slot.stop
  | none => slot.stop

def latestBlocks (latestC : Option Int) (u : Int) : Bool :=
  match latestC with
  | some l => decide (l < u)
  | none => false

/-- Lines 363-377: the guard sequence applied to one slot during the
fitting walk; none when the slot is skipped. -/
def slotFit (slot : Slot) (depC : Int) (latestC : Option Int) :
    Option (Int × Int × Int) :=
  if slot.duration < 15 then none
  else
    if latestBlocks latestC (usableStartIn slot depC) then none
    else
      if usableStartIn slot depC > slotStopIn slot latestC ∨
          usableStartIn slot depC = slotStopIn slot latestC then none
      else
        if differenceInMinutes (slotStopIn slot latestC) (usableStartIn slot depC)
            < 15 then none
        else some (usableStartIn slot depC, slotStopIn slot latestC,
          differenceInMinutes (slotStopIn slot latestC) (usableStartIn slot depC))

/-- Lines 321-355: the energy scan for the start slot index. -/
def energyStartIndex (slots : List Slot) (task : Task) (depC : Int)
    (latestC : Option Int) : Nat :=
  if task.energy.isSome then
    let best := slots.enum.foldl
      (fun (acc : Option (Nat × Int × Int)) p =>
        match slotFit p.2 depC latestC with
        | none => acc
        | some (usableStart, _, _) =>
          let score := getEnergyScore task.energy usableStart
          match acc with
          | none => some (p.1, score, usableStart)
          | some (_, bs, bst) =>
            if score > bs ∨ (score = bs ∧ usableStart < bst) then
              some (p.1, score, usableStart)
            else acc) none
    match best with
    | some (bi, _, _) => bi
    | none => 0
  else 0

/-- Lines 383-388: the scheduling reason attached to every placed part. -/
def schedulingReasonFor (settings : UserSettings) (task : Task) : String :=
  (if settings.enableChunking then
      "Optimized for " ++ toString settings.workChunkMinutes ++ "m flow."
    else "Scheduled with priority-first order.") ++
  " Priority " ++ priorityText task.priority ++ " placed ahead of lower levels." ++
  (match task.energy with
    | some e => " Energy " ++ energyText e ++ "."
    | none => "") ++
  (if task.earliestStart.isSome ∨ task.latestEnd.isSome then " Window applied."
    else "")

/-- Lines 390-402: one placed part record. -/
def mkPart (settings : UserSettings) (task : Task) (partsSoFar : Nat)
    (remaining fit partStart : Int) : Task :=
  { task with
    id := if partsSoFar = 0 then task.id
          else task.id ++ "-part-" ++ toString (partsSoFar + 1),
    originalTaskId := some task.id,
    partIndex := some ((partsSoFar : Int) + 1),
    title := if remaining = task.durationMinutes ∧ fit = remaining then task.title
             else task.title ++ " (" ++ toString (partsSoFar + 1) ++ ")",
    durationMinutes := fit,
    scheduledStart := some partStart,
    scheduledEnd := some (addMinutes partStart fit),
    schedulingReason := some (schedulingReasonFor settings task) }

/-- State of the fitting walk over the slot array, as a zipper: processed
cells (done, with the mark the source would push onto slotsToRemove) and
the cells still ahead of the index. -/
structure WalkState where
  done : List (Slot × Bool)
  todo : List Slot
  remaining : Int
  parts : List Task
  lastEnd : Option Int
deriving DecidableEq, Repr

/-- Lines 362-435: the fitting walk.  The source iterates an index over
the (in-place spliced) array; here a processed cell moves from todo to
done with its final value, and a mid-slot split pushes the right piece onto
the front of todo, which is exactly where the source splices it (i+1).
The fuel dominates the iteration count: every iteration pops one cell, and
an iteration that pushes a new cell also consumes at least 15 minutes of
the remaining duration. -/
def fitWalk (settings : UserSettings) (task : Task) (depC : Int)
    (latestC : Option Int) : Nat → WalkState → WalkState
  | 0, st => st
  | Nat.succ n, st =>
    match st.todo with
    | [] => st
    | slot :: rest =>
      match slotFit slot depC latestC with
      | none =>
        fitWalk settings task depC latestC n
          { st with done := st.done ++ [(slot, false)], todo := rest }
      | some (usableStart, _, avail) =>
        let fit := min avail st.remaining
        let partEnd := addMinutes usableStart fit
        let part := mkPart settings task st.parts.length st.remaining fit usableStart
        let st2 : WalkState :=
          if usableStart = slot.start then
            if fit = avail then
              { done := st.done ++ [(slot, true)], todo := rest,
                remaining := st.remaining - fit, parts := st.parts ++ [part],
                lastEnd := some partEnd }
            else
              { done := st.done ++
                  [((⟨partEnd, slot.stop, differenceInMinutes slot.stop partEnd⟩ :
                    Slot), false)],
                todo := rest,
                remaining := st.remaining - fit, parts := st.parts ++ [part],
                lastEnd := some partEnd }
          else
            if partEnd < slot.stop then
              { done := st.done ++
                  [((⟨slot.start, usableStart,
                    differenceInMinutes usableStart slot.start⟩ : Slot), false)],
                todo := (⟨partEnd, slot.stop,
                  differenceInMinutes slot.stop partEnd⟩ : Slot) :: rest,
                remaining := st.remaining - fit, parts := st.parts ++ [part],
                lastEnd := some partEnd }
            else
              { done := st.done ++
                  [((⟨slot.start, usableStart,
                    differenceInMinutes usableStart slot.start⟩ : Slot), false)],
                todo := rest,
                remaining := st.remaining - fit, parts := st.parts ++ [part],
                lastEnd := some partEnd }
        if st.remaining - fit ≤ 0 then st2
        else fitWalk settings task depC latestC n st2

/-- State of the task-fitting loop (lines 227-238). -/
structure FitState where
  slots : List Slot
  scheduled : List Task
  completion : List (String × Int)
  unscheduled : List (Task × String)
  processed : List String
  alternateTodo : Bool
  scheduledHighTodo : Bool
deriving DecidableEq, Repr

/-- Lines 296-450: process one picked task (constraints, energy start
index, fitting walk, then commit or report). -/
def placeTask (settings : UserSettings) (currentDate : Int) (st : FitState)
    (task : Task) : FitState :=
  let depC := dependencyConstraint st.completion currentDate task
  let latestC := latestConstraint task
  let startIdx := energyStartIndex st.slots task depC latestC
  let w := fitWalk settings task depC latestC
    (st.slots.length + task.durationMinutes.toNat + 2)
    { done := (st.slots.take startIdx).map (fun s => (s, false)),
      todo := st.slots.drop startIdx,
      remaining := task.durationMinutes, parts := [], lastEnd := none }
  if w.remaining ≤ 0 ∧ w.lastEnd.isSome then
    { st with
      slots := ((w.done.filter (fun p => ¬ p.2 = true)).map (fun p => p.1)) ++ w.todo,
      scheduled := st.scheduled ++ w.parts,
      completion := mapSet st.completion task.id (w.lastEnd.getD 0),
      scheduledHighTodo := st.scheduledHighTodo ∨
        (task.isTodoList = some true ∧ task.priority = Priority.high) }
  else
    { st with
      slots := (w.done.map (fun p => p.1)) ++ w.todo,
      unscheduled := st.unscheduled ++ [(task,
        match latestC with
        | some l => "No slot before deadline/window (" ++ isoString l ++ ")"
        | none => "Insufficient availability")] }

/-- Lines 256-294: compute the ready set and pick the next task, or none
when the loop breaks. -/
def pickTask (pending : List Task) (pendingIds : List String) (st : FitState) :
    Option Task :=
  let readyTasks := pending.filter (fun t =>
    decide (t.id ∉ st.processed) &&
    (match t.dependencies with
     | none => true
     | some deps => deps.all (fun depId =>
        (mapGet st.completion depId).isSome || decide (depId ∉ pendingIds))))
  if readyTasks.isEmpty then none
  else
    let readyTodos := sortByScore (readyTasks.filter
      (fun t => decide (t.isTodoList = some true)))
    let readyProjects := sortByScore (readyTasks.filter
      (fun t => decide (¬ t.isTodoList = some true)))
    let urgentTodos := readyTodos.filter (fun t => t.deadline.isSome)
    match urgentTodos.head? with
    | some t => some t
    | none =>
      if st.alternateTodo ∧ ¬ readyTodos.isEmpty then readyTodos.head?
      else if ¬ st.alternateTodo ∧ ¬ readyProjects.isEmpty then readyProjects.head?
      else if ¬ readyTodos.isEmpty then readyTodos.head?
      else readyProjects.head?

/-- Lines 256-451: the task-fitting while loop.  Each iteration marks a
fresh identifier processed, so the pending count dominates the iteration
count. -/
def fitLoop (settings : UserSettings) (currentDate : Int)
    (pending : List Task) (pendingIds : List String) :
    Nat → FitState → FitState
  | 0, st => st
  | Nat.succ n, st =>
    if st.processed.length < pending.length then
      match pickTask pending pendingIds st with
      | none => st
      | some task =>
        fitLoop settings currentDate pending pendingIds n
          (placeTask settings currentDate
            { st with alternateTodo := ¬ st.alternateTodo,
                      processed := st.processed ++ [task.id] } task)
    else st

/-- Source suggestSchedule (src/unnamed/part_005): the full deterministic
scheduling pass.  The unused energyProfile parameter of the source is kept
for fidelity. -/
def suggestSchedule (unscheduledTasks fixedTasks : List Task)
    (currentDate : Int) (energyProfile : String) (settings : UserSettings) :
    PlanResult :=
  let fixedByDay := fixedTasksByDay fixedTasks
  let availableWindows :=
    availableWindowsLoop settings currentDate fixedByDay 180
      (startOfDay currentDate)
  let chunked :=
    if settings.enableChunking then chunkWindows settings availableWindows
    else (availableWindows, [])
  let completion0 := fixedTasks.foldl (fun m t =>
    match t.scheduledEnd with
    | some e => mapSet m t.id e
    | none => m) []
  let pending := unscheduledTasks.map (fun t =>
    { t with durationMinutes := roundToNearest15 t.durationMinutes })
  let stF := fitLoop settings currentDate pending (pending.map Task.id)
    (pending.length + 1)
    { slots := chunked.1, scheduled := [], completion := completion0,
      unscheduled := [], processed := [], alternateTodo := true,
      scheduledHighTodo := false }
  let warnings :=
    if stF.scheduledHighTodo then
      let slipped := stF.scheduled.filter (fun t =>
        decide (¬ t.isTodoList = some true) && t.deadline.isSome &&
        t.scheduledEnd.isSome &&
        decide (t.scheduledEnd.getD 0 > t.deadline.getD 0))
      if slipped.length > 0 then
        ["High-priority to-dos pushed " ++ toString slipped.length ++
          " project task(s) past their deadlines."]
      else []
    else []
  { scheduled := stF.scheduled, breaks := chunked.2,
    unscheduled := stF.unscheduled, warnings := warnings }

/-! ### Concrete inputs for the chunk-cadence claim -/

def c8Settings : UserSettings :=
  { workStartHour := 9, workEndHour := 17, workDays := [1],
    enableChunking := true, workChunkMinutes := 30,
    shortBreakMinutes := 15, longBreakMinutes := 30, longBreakInterval := 2 }

/-- Two free windows: one 30-minute window holding a single chunk, then a
120-minute window holding further chunks. -/
def c8Windows : List Slot :=
  [⟨0, 1800000, 30⟩, ⟨3600000, 10800000, 120⟩]

def c8Slot : Slot := ⟨0, 1800000, 30⟩

/-! ### Concrete inputs for the input-validation claim -/

def c3Settings : UserSettings :=
  { workStartHour := 9, workEndHour := 17, workDays := [1],
    enableChunking := false, workChunkMinutes := 25, shortBreakMinutes := 5,
    longBreakMinutes := 15, longBreakInterval := 4 }

/-- Settings violating the spec precondition work_end_hour > work_start_hour. -/
def c3BadSettings : UserSettings :=
  { workStartHour := 9, workEndHour := 9, workDays := [1],
    enableChunking := false, workChunkMinutes := 25, shortBreakMinutes := 5,
    longBreakMinutes := 15, longBreakInterval := 4 }

/-- 2024-01-01T00:00:00Z, a Monday. -/
def c3Now : Int := 1704067200000

/-- A task whose duration, 20 minutes, is not a multiple of 15. -/
def c3Task : Task :=
  { id := "t3", title := "T3", durationMinutes := 20, priority := .high,
    status := .todo }

/-! ### Concrete inputs for the revert-on-failure claim -/

/-- A task that can only partially fit before its latest end: 60 minutes
wanted, but only 10:00-10:30 available inside the window. -/
def c2A : Task :=
  { id := "a", title := "A", durationMinutes := 60, priority := .high,
    status := .todo, earliestStart := some (c3Now + 36000000),
    latestEnd := some (c3Now + 37800000) }

/-- A task wanting 30 minutes from 10:00. -/
def c2B : Task :=
  { id := "b", title := "B", durationMinutes := 30, priority := .high,
    status := .todo, earliestStart := some (c3Now + 36000000) }

/-! ### Grid and day invariants used by the alignment claims -/

/-- Both bounds on a 15-minute boundary and the whole slot inside the
first 23 hours of its civil day. -/
def SlotOK (s : Slot) : Prop :=
  (900000 : Int) ∣ s.start ∧ (900000 : Int) ∣ s.stop ∧
  s.stop ≤ (s.start / 86400000) * 86400000 + 82800000

/-- A scheduled part with both endpoints on the 15-minute grid and a
positive 15-multiple duration tying them together. -/
def gridPart (p : Task) : Prop :=
  ∃ s e : Int, p.scheduledStart = some s ∧ p.scheduledEnd = some e ∧
    (900000 : Int) ∣ s ∧ (900000 : Int) ∣ e ∧
    e = s + p.durationMinutes * 60000 ∧
    (15 : Int) ∣ p.durationMinutes ∧ 0 < p.durationMinutes


/-- A 60-minute task whose latest end, 10:37, is off the 15-minute grid. -/
def c4A : Task :=
  { id := "a", title := "A", durationMinutes := 60, priority := .high,
    status := .todo, earliestStart := some (c3Now + 36000000),
    latestEnd := some (c3Now + 38220000) }

/-- Part property for the dependency claim: tagged with its source task,
whole-minute endpoints, and a start no earlier than any whole-minute
instant below the dependency constraint. -/
def depPart (taskId : String) (depC : Int) (p : Task) : Prop :=
  p.originalTaskId = some taskId ∧
  ∃ s e : Int, p.scheduledStart = some s ∧ p.scheduledEnd = some e ∧
    (60000 : Int) ∣ s ∧ (60000 : Int) ∣ e ∧
    (∀ c : Int, (60000 : Int) ∣ c → c ≤ depC → c ≤ s)

/-- A fixed event occupying 9:00-9:15 under the id "d". -/
def c5F : Task :=
  { id := "d", title := "F", durationMinutes := 15, priority := .medium,
    status := .todo, isFixed := some true,
    scheduledStart := some (c3Now + 32400000),
    scheduledEnd := some (c3Now + 33300000) }

/-- A pending task that reuses the fixed event id "d". -/
def c5D : Task :=
  { id := "d", title := "D", durationMinutes := 30, priority := .high,
    status := .todo }

/-- A task depending on id "d". -/
def c5T : Task :=
  { id := "t", title := "T", durationMinutes := 60, priority := .high,
    status := .todo, dependencies := some ["d"] }

/-! ### Interval separation for the non-overlap claim -/

/-- Half-open intervals that do not intersect. -/
def IvDisj (a b : Int × Int) : Prop := a.2 ≤ b.1 ∨ b.2 ≤ a.1

def slotIv (s : Slot) : Int × Int := (s.start, s.stop)

def taskIv (t : Task) : Int × Int := (startMs t, endMs t)

/-- A fixed input event the scheduler treats as occupying time: both
endpoints present and not marked done (lines 69-79). -/
def activeFixed (t : Task) : Prop :=
  t.scheduledStart.isSome = true ∧ t.scheduledEnd.isSome = true ∧
  t.status ≠ TaskStatus.done

instance (a b : Int × Int) : Decidable (IvDisj a b) := by
  unfold IvDisj; infer_instance

instance : DecidablePred activeFixed := fun t => by
  unfold activeFixed; infer_instance

/-- Slots listed in time order with no overlap. -/
def SepSlots (l : List Slot) : Prop :=
  l.Pairwise (fun a b => a.stop ≤ b.start)

/-- Tasks listed in interval order with no overlap. -/
def SepTasks (l : List Task) : Prop :=
  l.Pairwise (fun a b => endMs a ≤ startMs b)

/-- A fixed event spanning Sunday 23:00 to Monday 09:30; the day index
files it under Sunday only. -/
def c1F : Task :=
  { id := "f1", title := "F1", durationMinutes := 630, priority := .medium,
    status := .todo, isFixed := some true,
    scheduledStart := some (c3Now - 3600000),
    scheduledEnd := some (c3Now + 34200000) }

/-- A plain 30-minute task. -/
def c1T : Task :=
  { id := "t1", title := "T1", durationMinutes := 30, priority := .high,
    status := .todo }

/-! # Theorems -/

/-! ### Basic grid lemmas -/

theorem zeroSub_of_dvd {t : Int} (h : (60000 : Int) ∣ t) : zeroSub t = t := by
  obtain ⟨k, rfl⟩ := h
  unfold zeroSub
  rw [Int.mul_ediv_cancel_left _ (by norm_num : (60000:Int) ≠ 0), mul_comm]

theorem zeroSub_le (t : Int) : zeroSub t ≤ t := by
  unfold zeroSub
  have := Int.emod_nonneg t (show (60000 : Int) ≠ 0 by norm_num)
  have := Int.ediv_add_emod t 60000
  omega

theorem dvd_zeroSub (t : Int) : (60000 : Int) ∣ zeroSub t := ⟨t / 60000, mul_comm _ _⟩

theorem getMinutes_emod (t : Int) : (getMinutes t) % 15 = (t / 60000) % 15 := by
  unfold getMinutes
  exact Int.emod_emod_of_dvd _ (by norm_num)

/-- A timestamp lies on the 15-minute grid (grid-aligned boundary with zero
sub-minute fields) exactly when it is a multiple of 900000 ms. -/
def aligned15 (t : Int) : Prop := (900000 : Int) ∣ t

instance (t : Int) : Decidable (aligned15 t) := by unfold aligned15; infer_instance

theorem aligned15_iff (t : Int) :
    aligned15 t ↔ (60000 : Int) ∣ t ∧ (15 : Int) ∣ t / 60000 := by
  unfold aligned15
  constructor
  · rintro ⟨k, rfl⟩
    refine ⟨⟨15 * k, by ring⟩, ?_⟩
    have : (900000 : Int) * k = 60000 * (15 * k) := by ring
    rw [this, Int.mul_ediv_cancel_left _ (by norm_num)]
    exact ⟨k, rfl⟩
  · rintro ⟨⟨a, rfl⟩, hb⟩
    rw [Int.mul_ediv_cancel_left _ (by norm_num : (60000:Int) ≠ 0)] at hb
    obtain ⟨k, rfl⟩ := hb
    exact ⟨k, by ring⟩

theorem ceilTo15_aligned (t : Int) : aligned15 (ceilTo15 t) := by
  unfold ceilTo15
  by_cases h : (getMinutes t) % 15 = 0
  · rw [if_pos h]
    rw [getMinutes_emod] at h
    rw [aligned15_iff]
    refine ⟨dvd_zeroSub t, ?_⟩
    unfold zeroSub
    rw [Int.mul_ediv_cancel _ (by norm_num : (60000:Int) ≠ 0)]
    exact Int.dvd_of_emod_eq_zero h
  · rw [if_neg h]
    rw [getMinutes_emod] at h
    rw [aligned15_iff]
    refine ⟨dvd_zeroSub _, ?_⟩
    unfold zeroSub addMinutes
    rw [Int.mul_ediv_cancel _ (by norm_num : (60000:Int) ≠ 0)]
    have : (t + (15 - (getMinutes t) % 15) * 60000) / 60000
        = t / 60000 + (15 - (getMinutes t) % 15) := by
      rw [Int.add_mul_ediv_right _ _ (by norm_num : (60000:Int) ≠ 0)]
    rw [this, getMinutes_emod]
    have : (t / 60000 + (15 - (t / 60000) % 15)) % 15 = 0 := by omega
    exact Int.dvd_of_emod_eq_zero this

theorem ceilTo15_ge {t : Int} (h : (60000 : Int) ∣ t) : t ≤ ceilTo15 t := by
  unfold ceilTo15
  by_cases hr : (getMinutes t) % 15 = 0
  · rw [if_pos hr, zeroSub_of_dvd h]
  · rw [if_neg hr]
    have hd : (60000 : Int) ∣ addMinutes t (15 - (getMinutes t) % 15) := by
      unfold addMinutes
      exact dvd_add h ⟨15 - (getMinutes t) % 15, by ring⟩
    rw [zeroSub_of_dvd hd]
    unfold addMinutes
    have h1 : (getMinutes t) % 15 < 15 :=
      Int.emod_lt_of_pos _ (by norm_num)
    nlinarith [h1]

theorem ceilTo15_of_aligned {t : Int} (h : aligned15 t) : ceilTo15 t = t := by
  rw [aligned15_iff] at h
  have hr : (getMinutes t) % 15 = 0 := by
    rw [getMinutes_emod]
    exact Int.emod_eq_zero_of_dvd h.2
  unfold ceilTo15
  rw [if_pos hr, zeroSub_of_dvd h.1]

theorem ceilTo15_eq_iff (t : Int) : ceilTo15 t = t ↔ aligned15 t := by
  constructor
  · intro h
    have := ceilTo15_aligned t
    rwa [h] at this
  · exact ceilTo15_of_aligned

/-! ### Map lemmas -/

theorem mapGet_nil {κ α : Type} [BEq κ] (k : κ) :
    mapGet ([] : List (κ × α)) k = none := rfl

theorem mapGet_cons {κ α : Type} [BEq κ] (p : κ × α) (m : List (κ × α)) (k : κ) :
    mapGet (p :: m) k = if p.1 == k then some p.2 else mapGet m k := by
  unfold mapGet
  by_cases h : (p.1 == k) = true
  · rw [show List.find? (fun q => q.1 == k) (p :: m) = some p from
      List.find?_cons_of_pos _ h, if_pos h]
    rfl
  · rw [show List.find? (fun q => q.1 == k) (p :: m)
        = List.find? (fun q => q.1 == k) m from
      List.find?_cons_of_neg _ h, if_neg h]

theorem mapGet_append {κ α : Type} [BEq κ] (m₁ m₂ : List (κ × α)) (k : κ) :
    mapGet (m₁ ++ m₂) k = (mapGet m₁ k).or (mapGet m₂ k) := by
  unfold mapGet
  rw [List.find?_append]
  cases List.find? (fun p => p.1 == k) m₁ <;> rfl

theorem mapGet_isSome_iff_find {κ α : Type} [BEq κ] (m : List (κ × α)) (k : κ) :
    (List.find? (fun p => p.1 == k) m).isSome = (mapGet m k).isSome := by
  unfold mapGet
  cases List.find? (fun p => p.1 == k) m <;> rfl

theorem mapSet_of_none {κ α : Type} [BEq κ] (m : List (κ × α)) (k : κ) (v : α)
    (h : mapGet m k = none) : mapSet m k v = m ++ [(k, v)] := by
  unfold mapSet
  have h2 : (List.find? (fun p => p.1 == k) m).isSome = false := by
    rw [mapGet_isSome_iff_find, h]
    rfl
  rw [h2]
  simp

/-- Building a map from tasks with fresh identifiers appends literal
entries. -/
theorem foldl_mapSet_eq (tasks : List Task) (acc : List (String × Task))
    (h : ∀ t ∈ tasks, (mapGet acc t.id : Option Task) = none)
    (hn : (tasks.map Task.id).Nodup) :
    tasks.foldl (fun m t => mapSet m t.id t) acc
      = acc ++ tasks.map (fun t => (t.id, t)) := by
  induction tasks generalizing acc with
  | nil => simp
  | cons t ts ih =>
    simp only [List.foldl_cons]
    rw [mapSet_of_none _ _ _ (h t (List.mem_cons_self t ts))]
    rw [List.map_cons, List.nodup_cons] at hn
    rw [ih _ ?_ hn.2]
    · simp
    · intro u hu
      have hne : ¬ ((t.id : String) == u.id) = true := by
        simp only [beq_iff_eq]
        intro hid
        exact hn.1 (hid ▸ List.mem_map_of_mem Task.id hu)
      rw [mapGet_append, h u (List.mem_cons_of_mem _ hu), mapGet_cons, mapGet_nil,
        if_neg hne]
      rfl

theorem mapGet_tasksMap_some {tasks : List Task} {t : Task}
    (hn : (tasks.map Task.id).Nodup) (ht : t ∈ tasks) :
    mapGet (tasks.map (fun u => (u.id, u))) t.id = some t := by
  induction tasks with
  | nil => cases ht
  | cons u us ih =>
    rw [List.map_cons, List.nodup_cons] at hn
    rw [List.map_cons, mapGet_cons]
    rcases List.mem_cons.mp ht with rfl | hmem
    · rw [if_pos (by simp)]
    · rw [if_neg ?_]
      · exact ih hn.2 hmem
      · simp only [beq_iff_eq]
        intro hid
        exact hn.1 (hid ▸ List.mem_map_of_mem Task.id hmem)

theorem mapGet_tasksMap_mem {tasks : List Task} {k : String} {u : Task}
    (h : mapGet (tasks.map (fun v => (v.id, v))) k = some u) :
    u ∈ tasks ∧ u.id = k := by
  induction tasks with
  | nil => cases h
  | cons v vs ih =>
    rw [List.map_cons, mapGet_cons] at h
    by_cases hv : (v.id == k) = true
    · rw [if_pos hv] at h
      cases h
      exact ⟨List.mem_cons_self _ _, eq_of_beq hv⟩
    · rw [if_neg hv] at h
      obtain ⟨h1, h2⟩ := ih h
      exact ⟨List.mem_cons_of_mem _ h1, h2⟩

theorem mapGet_tasksMap_isSome {tasks : List Task} {t : Task} (ht : t ∈ tasks) :
    (mapGet (tasks.map (fun u => (u.id, u))) t.id).isSome = true := by
  induction tasks with
  | nil => cases ht
  | cons v vs ih =>
    rw [List.map_cons, mapGet_cons]
    by_cases hv : (v.id == t.id) = true
    · rw [if_pos hv]
      rfl
    · rw [if_neg hv]
      rcases List.mem_cons.mp ht with rfl | hmem
      · simp at hv
      · exact ih hmem

theorem mapSet_tasksMap_self {tasks : List Task} {t : Task}
    (hn : (tasks.map Task.id).Nodup) (ht : t ∈ tasks) :
    mapSet (tasks.map (fun u => (u.id, u))) t.id t
      = tasks.map (fun u => (u.id, u)) := by
  unfold mapSet
  rw [if_pos]
  · rw [List.map_map]
    apply List.map_congr_left
    intro u hu
    simp only [Function.comp_apply]
    by_cases hid : (u.id == t.id) = true
    · rw [if_pos hid]
      have : u = t := List.inj_on_of_nodup_map hn hu ht (eq_of_beq hid)
      rw [this]
    · rw [if_neg hid]
  · rw [mapGet_isSome_iff_find]
    exact mapGet_tasksMap_isSome ht

theorem foldl_fixed {α β : Type} (f : β → α → β) (init : β) (l : List α)
    (h : ∀ x ∈ l, f init x = init) : l.foldl f init = init := by
  induction l with
  | nil => rfl
  | cons x xs ih =>
    rw [List.foldl_cons, h x (List.mem_cons_self x xs)]
    exact ih (fun y hy => h y (List.mem_cons_of_mem _ hy))

/-! ### Claim C9: behaviour of ceilTo15 -/

/-- Claim C9, counterexample: at t = 930000 ms (00:15:30) the minute count
is already a multiple of 15, so ceilTo15 zeroes the seconds and returns
900000 < t.  ceilTo15 therefore does not satisfy ceil15(t) ≥ t on every
instant, refuting the claim as stated. -/
theorem C9_counterexample :
    ceilTo15 930000 = 900000 ∧ ¬ ((930000 : Int) ≤ ceilTo15 930000) := by
  decide

/-- Claim C9, amended: for every instant t whose sub-minute fields are zero
(60000 ∣ t), ceilTo15 t lies on the 15-minute grid with zero sub-minute
fields, satisfies ceilTo15 t ≥ t, and equals t exactly when t is already
aligned.  (When t carries nonzero seconds or milliseconds and its minute
count is a multiple of 15, the result precedes t.) -/
theorem C9_amended (t : Int) (h : (60000 : Int) ∣ t) :
    aligned15 (ceilTo15 t) ∧ t ≤ ceilTo15 t ∧ (ceilTo15 t = t ↔ aligned15 t) :=
  ⟨ceilTo15_aligned t, ceilTo15_ge h, ceilTo15_eq_iff t⟩

/-- Witness for C9_amended at the concrete instant t = 960000 (00:16:00). -/
theorem C9_amended_witness :
    (60000 : Int) ∣ 960000 ∧
      (aligned15 (ceilTo15 960000) ∧ (960000 : Int) ≤ ceilTo15 960000 ∧
        (ceilTo15 960000 = 960000 ↔ aligned15 960000)) :=
  ⟨⟨16, by norm_num⟩, C9_amended 960000 ⟨16, by norm_num⟩⟩

/-! ### Claim C6: cascade move at the existing start -/

/-- Claim C6, counterexample: applying cascadeTaskMove to a task at its own
existing scheduled start is not the identity on the task set; the target is
marked fixed and given the manual-move scheduling reason even though
nothing moves. -/
theorem C6_counterexample :
    cascadeTaskMove [c6Task] "a" 0 ≠ [c6Task] := by
  decide

/-! ### Claim C6, amended version -/


theorem tasksMap_snd (tasks : List Task) :
    (tasks.map (fun u => (u.id, u))).map (fun p => p.2) = tasks := by
  rw [List.map_map]
  exact List.map_id tasks

theorem C6_amended (tasks : List Task) (t : Task) (s : Int)
    (hmem : t ∈ tasks)
    (hn : (tasks.map Task.id).Nodup)
    (hstart : t.scheduledStart = some s)
    (hend : t.scheduledEnd = some (addMinutes s t.durationMinutes))
    (hfix : t.isFixed = some true)
    (hreason : t.schedulingReason = some "Manually moved by user")
    (hsucc : ∀ u ∈ tasks, t.id ∈ u.dependencies.getD [] →
      ∀ us, u.scheduledStart = some us → addMinutes s t.durationMinutes ≤ us)
    (hdep : ∀ d ∈ tasks, d.id ∈ t.dependencies.getD [] →
      ∀ de, d.scheduledEnd = some de → de ≤ s) :
    cascadeTaskMove tasks t.id s = tasks := by
  have hupd : cascadeUpdate t s = t := by
    unfold cascadeUpdate
    obtain ⟨i, ti, d, p, st, dl, pj, ds, fx, ss, se, dp, sr, en, es, le, itl, oi, pi⟩ := t
    simp only at hstart hend hfix hreason
    rw [← hstart, ← hend, ← hfix, ← hreason]
  obtain ⟨n, hfn⟩ : ∃ n, cascadeFuel tasks = n + 1 :=
    ⟨cascadeFuel tasks - 1, by unfold cascadeFuel; omega⟩
  unfold cascadeTaskMove
  rw [foldl_mapSet_eq tasks [] (fun _ _ => rfl) hn, List.nil_append, hfn]
  simp only [moveRec]
  rw [if_neg (List.not_mem_nil t.id)]
  rw [mapGet_tasksMap_some hn hmem]
  dsimp only
  rw [hupd, mapSet_tasksMap_self hn hmem, tasksMap_snd]
  rw [foldl_fixed _ _
    (List.filter (fun u => (u.dependencies.getD []).contains t.id) tasks) ?_]
  rotate_left
  · intro succ hsm
    obtain ⟨hst, hsf⟩ := List.mem_filter.mp hsm
    have hdeps : t.id ∈ succ.dependencies.getD [] := by simpa using hsf
    dsimp only
    rw [mapGet_tasksMap_some hn hst]
    dsimp only
    cases hss : succ.scheduledStart with
    | none => rfl
    | some us =>
      dsimp only
      rw [if_neg (not_lt.mpr (hsucc succ hst hdeps us hss))]
  rw [foldl_fixed _ _ (t.dependencies.getD []) ?_]
  rotate_left
  · intro depId hdm
    dsimp only
    cases hd : mapGet (List.map (fun u => (u.id, u)) tasks) depId with
    | none => rfl
    | some dep =>
      obtain ⟨dmem, did⟩ := mapGet_tasksMap_mem hd
      dsimp only
      cases hde : dep.scheduledEnd with
      | none => rfl
      | some de =>
        dsimp only
        rw [if_neg (not_lt.mpr (hdep dep dmem (did ▸ hdm) de hde))]
  exact tasksMap_snd tasks


/-- Witness for C6_amended: a task already fixed at its own slot with the
manual-move reason and no dependency pressure is returned unchanged. -/
theorem C6_amended_witness :
    cascadeTaskMove [c6FixedTask] c6FixedTask.id 0 = [c6FixedTask] :=
  C6_amended [c6FixedTask] c6FixedTask 0 (by decide) (by decide) rfl (by decide)
    rfl rfl (by decide) (by decide)


theorem pushTask_id (x : Task) (e : Int) : (pushTask x e).id = x.id := rfl

theorem pushTask_dur (x : Task) (e : Int) :
    (pushTask x e).durationMinutes = x.durationMinutes := rfl

theorem pushTask_status (x : Task) (e : Int) : (pushTask x e).status = x.status := rfl

theorem startMs_pushTask (x : Task) (e : Int) : startMs (pushTask x e) = e := rfl

theorem endMs_pushTask (x : Task) (e : Int) :
    endMs (pushTask x e) = addMinutes e x.durationMinutes := rfl

theorem mapGet_mapUpd_other {κ α : Type} [BEq κ] [LawfulBEq κ]
    (m : List (κ × α)) (k k2 : κ) (v : α) (h : k2 ≠ k) :
    mapGet (m.map (fun p => if p.1 == k then (k, v) else p)) k2 = mapGet m k2 := by
  induction m with
  | nil => rfl
  | cons p t ih =>
    rw [List.map_cons, mapGet_cons, mapGet_cons]
    by_cases hp : (p.1 == k) = true
    · rw [if_pos hp]
      have h1 : ((k, v).1 == k2) = false := by
        simp only [beq_eq_false_iff_ne, ne_eq]
        exact fun hk => h hk.symm
      have h2 : (p.1 == k2) = false := by
        simp only [beq_eq_false_iff_ne, ne_eq]
        intro hk
        exact h (hk ▸ (eq_of_beq hp))
      rw [h1, h2]
      simpa using ih
    · rw [if_neg hp]
      by_cases hpk : (p.1 == k2) = true
      · rw [if_pos hpk, if_pos hpk]
      · rw [if_neg hpk, if_neg hpk]
        exact ih

theorem mapGet_mapUpd_self {κ α : Type} [BEq κ] [LawfulBEq κ]
    (m : List (κ × α)) (k : κ) (v : α)
    (h : (List.find? (fun p => p.1 == k) m).isSome = true) :
    mapGet (m.map (fun p => if p.1 == k then (k, v) else p)) k = some v := by
  induction m with
  | nil => simp at h
  | cons p t ih =>
    rw [List.map_cons, mapGet_cons]
    by_cases hp : (p.1 == k) = true
    · rw [if_pos hp]
      simp
    · rw [if_neg hp, if_neg hp]
      apply ih
      have h2 : List.find? (fun q => q.1 == k) (p :: t)
          = List.find? (fun q => q.1 == k) t := List.find?_cons_of_neg _ hp
      rwa [h2] at h

theorem mapGet_mapSet_self {κ α : Type} [BEq κ] [LawfulBEq κ]
    (m : List (κ × α)) (k : κ) (v : α) : mapGet (mapSet m k v) k = some v := by
  unfold mapSet
  by_cases h : (List.find? (fun p => p.1 == k) m).isSome = true
  · rw [if_pos h]
    exact mapGet_mapUpd_self m k v h
  · rw [if_neg h, mapGet_append]
    have hnone : mapGet m k = none := by
      rw [Bool.not_eq_true, mapGet_isSome_iff_find] at h
      cases hg : mapGet m k with
      | none => rfl
      | some p => rw [hg] at h; simp at h
    rw [hnone, mapGet_cons]
    simp

theorem mapGet_mapSet_other {κ α : Type} [BEq κ] [LawfulBEq κ]
    (m : List (κ × α)) (k k2 : κ) (v : α) (h : k2 ≠ k) :
    mapGet (mapSet m k v) k2 = mapGet m k2 := by
  unfold mapSet
  by_cases hs : (List.find? (fun p => p.1 == k) m).isSome = true
  · rw [if_pos hs]
    exact mapGet_mapUpd_other m k k2 v h
  · rw [if_neg hs, mapGet_append, mapGet_cons, mapGet_nil]
    have h1 : ((k, v).1 == k2) = false := by
      simp only [beq_eq_false_iff_ne, ne_eq]
      exact fun hk => h hk.symm
    rw [h1]
    simp only [Bool.false_eq_true, if_false]
    cases mapGet m k2 <;> rfl

/-- Unfolding of the pair loop when the map carries no surprises (the
array cell equals its map image and the successor is unkeyed). -/
theorem resolveLoop_cons (m : List (String × Task)) (current next : Task)
    (tl : List Task)
    (hc : (mapGet m current.id).getD current = current)
    (hx : mapGet m next.id = none) :
    resolveLoop m current (next :: tl) =
      if endMs current > startMs next then
        ((resolveLoop (mapSet m next.id (pushTask next (endMs current)))
            (pushTask next (endMs current)) tl).1,
          current :: (resolveLoop (mapSet m next.id (pushTask next (endMs current)))
            (pushTask next (endMs current)) tl).2)
      else
        ((resolveLoop m next tl).1, current :: (resolveLoop m next tl).2) := by
  simp only [resolveLoop, hc, hx, Option.getD_some, Option.getD_none]

/-- Master description of the pair loop of `resolveOverlaps`, under
distinct identifiers: the final array is the original sorted list with
each element either untouched or pushed once to a strictly later start,
the final array is chained (no adjacent overlap, nondecreasing starts),
and the modified map records exactly the pushed elements. -/
theorem resolveLoop_master :
    ∀ (rest : List Task) (m : List (String × Task)) (current : Task),
    (∀ x ∈ rest, mapGet m x.id = none) →
    (mapGet m current.id = none ∨ mapGet m current.id = some current) →
    (((current :: rest).map Task.id).Nodup) →
    ((∀ x ∈ rest, startMs current ≤ startMs x) ∨
      (endMs current = addMinutes (startMs current) current.durationMinutes ∧
        0 < current.durationMinutes)) →
    List.Pairwise byStart rest →
    (∀ x ∈ rest, 0 < x.durationMinutes) →
    ∃ mf F₂, resolveLoop m current rest = (mf, current :: F₂) ∧
      List.Forall₂ (evolveStep mf) rest F₂ ∧
      List.Chain' (fun a b => endMs a ≤ startMs b ∧ startMs a ≤ startMs b)
        (current :: F₂) ∧
      (∀ k, k ∉ rest.map Task.id → mapGet mf k = mapGet m k) := by
  intro rest
  induction rest with
  | nil =>
    intro m current _ _ _ _ _ _
    exact ⟨m, [], rfl, List.Forall₂.nil, List.chain'_singleton current,
      fun k _ => rfl⟩
  | cons next tl ih =>
    intro m current Hrest Hcur Hnodup Hinv Hpair Hdur
    have hc : (mapGet m current.id).getD current = current := by
      rcases Hcur with h | h <;> rw [h] <;> rfl
    have hx : mapGet m next.id = none := Hrest next (List.mem_cons_self _ _)
    have hnextid : next.id ∉ tl.map Task.id := by
      simp only [List.map_cons, List.nodup_cons] at Hnodup
      exact Hnodup.2.1
    rw [resolveLoop_cons m current next tl hc hx]
    by_cases hpush : endMs current > startMs next
    · rw [if_pos hpush]
      set u := pushTask next (endMs current) with hu
      set m1 := mapSet m next.id u with hm1
      have hcur_lt : startMs current ≤ startMs u := by
        rw [hu, startMs_pushTask]
        rcases Hinv with h | h
        · exact le_of_lt (lt_of_le_of_lt (h next (List.mem_cons_self _ _)) hpush)
        · rw [h.1]
          unfold addMinutes
          nlinarith [h.2]
      obtain ⟨mf, F₂, heq, hfa, hchain, hkeys⟩ :=
        ih m1 u
          (fun x hxm => by
            rw [hm1, mapGet_mapSet_other]
            · exact Hrest x (List.mem_cons_of_mem _ hxm)
            · intro hcontra
              exact hnextid (hcontra ▸ List.mem_map_of_mem Task.id hxm))
          (Or.inr (by rw [hm1, hu, pushTask_id]; exact mapGet_mapSet_self m next.id u))
          (by
            have : ((next :: tl).map Task.id).Nodup := by
              simp only [List.map_cons, List.nodup_cons] at Hnodup ⊢
              exact Hnodup.2
            simpa only [List.map_cons, hu, pushTask_id] using this)
          (Or.inr ⟨by rw [hu, endMs_pushTask, startMs_pushTask, pushTask_dur],
            by rw [hu, pushTask_dur]; exact Hdur next (List.mem_cons_self _ _)⟩)
          ((List.pairwise_cons.mp Hpair).2)
          (fun x hxm => Hdur x (List.mem_cons_of_mem _ hxm))
      refine ⟨mf, u :: F₂, by rw [heq], ?_, ?_, ?_⟩
      · refine List.Forall₂.cons (Or.inr ⟨endMs current, hpush, hu, ?_⟩) hfa
        rw [hkeys next.id hnextid, hm1]
        exact mapGet_mapSet_self m next.id u
      · exact List.Chain'.cons ⟨le_of_eq (by rw [hu, startMs_pushTask]), hcur_lt⟩ hchain
      · intro k hk
        simp only [List.map_cons, List.mem_cons, not_or] at hk
        rw [hkeys k hk.2, hm1, mapGet_mapSet_other m next.id k u hk.1]
    · rw [if_neg hpush]
      have hle : endMs current ≤ startMs next := not_lt.mp hpush
      have hcs : startMs current ≤ startMs next := by
        rcases Hinv with h | h
        · exact h next (List.mem_cons_self _ _)
        · refine le_trans (le_of_lt ?_) hle
          rw [h.1]
          unfold addMinutes
          nlinarith [h.2]
      obtain ⟨mf, F₂, heq, hfa, hchain, hkeys⟩ :=
        ih m next
          (fun x hxm => Hrest x (List.mem_cons_of_mem _ hxm))
          (Or.inl hx)
          (by
            simp only [List.map_cons, List.nodup_cons] at Hnodup ⊢
            exact Hnodup.2)
          (Or.inl (fun x hxm => (List.pairwise_cons.mp Hpair).1 x hxm))
          ((List.pairwise_cons.mp Hpair).2)
          (fun x hxm => Hdur x (List.mem_cons_of_mem _ hxm))
      refine ⟨mf, next :: F₂, by rw [heq], ?_, ?_, ?_⟩
      · exact List.Forall₂.cons (Or.inl ⟨rfl, by rw [hkeys next.id hnextid]; exact hx⟩) hfa
      · exact List.Chain'.cons ⟨hle, hcs⟩ hchain
      · intro k hk
        simp only [List.map_cons, List.mem_cons, not_or] at hk
        exact hkeys k hk.2

/-- Light version of the loop description: no ordering facts, no duration
hypotheses; enough for the frame properties of claim C10. -/
theorem resolveLoop_light :
    ∀ (rest : List Task) (m : List (String × Task)) (current : Task),
    (∀ x ∈ rest, mapGet m x.id = none) →
    ((mapGet m current.id).getD current = current) →
    (((current :: rest).map Task.id).Nodup) →
    ∃ mf F₂, resolveLoop m current rest = (mf, current :: F₂) ∧
      List.Forall₂ (evolveStep mf) rest F₂ ∧
      (∀ k, k ∉ rest.map Task.id → mapGet mf k = mapGet m k) := by
  intro rest
  induction rest with
  | nil =>
    intro m current _ _ _
    exact ⟨m, [], rfl, List.Forall₂.nil, fun k _ => rfl⟩
  | cons next tl ih =>
    intro m current Hrest hc Hnodup
    have hx : mapGet m next.id = none := Hrest next (List.mem_cons_self _ _)
    have hnextid : next.id ∉ tl.map Task.id := by
      simp only [List.map_cons, List.nodup_cons] at Hnodup
      exact Hnodup.2.1
    rw [resolveLoop_cons m current next tl hc hx]
    by_cases hpush : endMs current > startMs next
    · rw [if_pos hpush]
      obtain ⟨mf, F₂, heq, hfa, hkeys⟩ :=
        ih (mapSet m next.id (pushTask next (endMs current)))
          (pushTask next (endMs current))
          (fun x hxm => by
            rw [mapGet_mapSet_other]
            · exact Hrest x (List.mem_cons_of_mem _ hxm)
            · intro hcontra
              exact hnextid (hcontra ▸ List.mem_map_of_mem Task.id hxm))
          (by rw [pushTask_id, mapGet_mapSet_self]; rfl)
          (by
            simp only [List.map_cons, List.nodup_cons, pushTask_id] at Hnodup ⊢
            exact Hnodup.2)
      refine ⟨mf, pushTask next (endMs current) :: F₂, by rw [heq], ?_, ?_⟩
      · refine List.Forall₂.cons (Or.inr ⟨endMs current, hpush, rfl, ?_⟩) hfa
        rw [hkeys next.id hnextid, mapGet_mapSet_self]
      · intro k hk
        simp only [List.map_cons, List.mem_cons, not_or] at hk
        rw [hkeys k hk.2, mapGet_mapSet_other m next.id k _ hk.1]
    · rw [if_neg hpush]
      obtain ⟨mf, F₂, heq, hfa, hkeys⟩ :=
        ih m next
          (fun x hxm => Hrest x (List.mem_cons_of_mem _ hxm))
          (by rw [hx]; rfl)
          (by
            simp only [List.map_cons, List.nodup_cons] at Hnodup ⊢
            exact Hnodup.2)
      refine ⟨mf, next :: F₂, by rw [heq], ?_, ?_⟩
      · exact List.Forall₂.cons (Or.inl ⟨rfl, by rw [hkeys next.id hnextid]; exact hx⟩) hfa
      · intro k hk
        simp only [List.map_cons, List.mem_cons, not_or] at hk
        exact hkeys k hk.2

/-- When the incoming array is already free of adjacent overlaps, the pair
loop modifies nothing. -/
theorem resolveLoop_noop :
    ∀ (rest : List Task) (m : List (String × Task)) (current : Task),
    (∀ x ∈ rest, mapGet m x.id = none) →
    ((mapGet m current.id).getD current = current) →
    List.Chain' (fun a b => endMs a ≤ startMs b) (current :: rest) →
    resolveLoop m current rest = (m, current :: rest) := by
  intro rest
  induction rest with
  | nil => intro m current _ _ _; rfl
  | cons next tl ih =>
    intro m current Hrest hc hchain
    have hx : mapGet m next.id = none := Hrest next (List.mem_cons_self _ _)
    rw [resolveLoop_cons m current next tl hc hx]
    have hle : endMs current ≤ startMs next :=
      (List.chain'_cons.mp hchain).1
    rw [if_neg (not_lt.mpr hle)]
    rw [ih m next (fun x hxm => Hrest x (List.mem_cons_of_mem _ hxm))
      (by rw [hx]; rfl) (List.chain'_cons.mp hchain).2]

/-! ### Small list helper lemmas -/

theorem pair_sublist_or {α : Type} {a b : α} {l : List α}
    (ha : a ∈ l) (hb : b ∈ l) (hne : a ≠ b) :
    [a, b].Sublist l ∨ [b, a].Sublist l := by
  induction l with
  | nil => cases ha
  | cons h t ih =>
    rcases List.mem_cons.mp ha with rfl | hat
    · left
      have hbt : b ∈ t := by
        rcases List.mem_cons.mp hb with rfl | hbt
        · exact absurd rfl hne
        · exact hbt
      exact List.Sublist.cons₂ _ (List.singleton_sublist.mpr hbt)
    · rcases List.mem_cons.mp hb with rfl | hbt
      · right
        exact List.Sublist.cons₂ _ (List.singleton_sublist.mpr hat)
      · rcases ih hat hbt with h1 | h1
        · exact Or.inl (List.Sublist.cons _ h1)
        · exact Or.inr (List.Sublist.cons _ h1)

theorem pair_sublist_antisymm {α : Type} :
    ∀ {l : List α}, l.Nodup → ∀ {a b : α}, [a, b].Sublist l → [b, a].Sublist l → a = b := by
  intro l
  induction l with
  | nil => intro _ a b h1 _; cases h1
  | cons x t ih =>
    intro hl a b h1 h2
    rw [List.nodup_cons] at hl
    cases h1 with
    | cons _ h1t =>
      cases h2 with
      | cons _ h2t => exact ih hl.2 h1t h2t
      | cons₂ _ h2t => exact absurd (h1t.subset (by simp)) hl.1
    | cons₂ _ h1t =>
      cases h2 with
      | cons _ h2t => exact absurd (h2t.subset (by simp)) hl.1
      | cons₂ _ h2t => rfl

theorem not_pair_self_sublist {α : Type} :
    ∀ {l : List α}, l.Nodup → ∀ {a : α}, ¬ [a, a].Sublist l := by
  intro l
  induction l with
  | nil => intro _ a h; cases h
  | cons x t ih =>
    intro hl a h
    rw [List.nodup_cons] at hl
    cases h with
    | cons _ ht => exact ih hl.2 ht
    | cons₂ _ ht => exact hl.1 (ht.subset (by simp))

theorem chain'_of_pairs {α : Type} {r : α → α → Prop} :
    ∀ {l : List α}, (∀ a b, [a, b].Sublist l → r a b) → List.Chain' r l := by
  intro l
  induction l with
  | nil => intro _; exact List.chain'_nil
  | cons x t ih =>
    intro h
    cases t with
    | nil => exact List.chain'_singleton x
    | cons y t2 =>
      refine List.Chain'.cons (h x y ?_) (ih ?_)
      · exact List.Sublist.cons₂ _ (List.Sublist.cons₂ _ (List.nil_sublist _))
      · intro a b hab
        exact h a b (List.Sublist.cons _ hab)

theorem pairwise_pair {α : Type} {r : α → α → Prop} {a b : α} {l : List α}
    (hp : List.Pairwise r l) (h : [a, b].Sublist l) : r a b := by
  have := hp.sublist h
  exact (List.pairwise_cons.mp this).1 b (List.mem_singleton.mpr rfl)

theorem forall₂_exists_mem {α β : Type} {R : α → β → Prop} :
    ∀ {l₁ : List α} {l₂ : List β}, List.Forall₂ R l₁ l₂ → ∀ x ∈ l₁, ∃ y ∈ l₂, R x y := by
  intro l₁ l₂ h
  induction h with
  | nil => intro x hx; cases hx
  | cons hr ht ih =>
    intro x hx
    rcases List.mem_cons.mp hx with rfl | hxm
    · exact ⟨_, List.mem_cons_self _ _, hr⟩
    · obtain ⟨y, hy, hry⟩ := ih x hxm
      exact ⟨y, List.mem_cons_of_mem _ hy, hry⟩

theorem forall₂_eq_map {α β : Type} {f : α → β} :
    ∀ {l₁ : List α} {l₂ : List β}, List.Forall₂ (fun x y => y = f x) l₁ l₂ →
      l₂ = l₁.map f := by
  intro l₁ l₂ h
  induction h with
  | nil => rfl
  | cons hr _ ih => rw [List.map_cons, hr, ih]

/-- Unfolding `resolveOverlaps` when the sorted list is empty. -/
theorem resolveOverlaps_eq_of_nil (tasks : List Task)
    (hs : (tasks.filter hasSchedule).insertionSort byStart = []) :
    resolveOverlaps tasks = tasks := by
  unfold resolveOverlaps
  rw [hs]

/-- Unfolding `resolveOverlaps` when the sorted list is nonempty. -/
theorem resolveOverlaps_eq_of_sort (tasks : List Task) (c : Task) (rest : List Task)
    (hs : (tasks.filter hasSchedule).insertionSort byStart = c :: rest) :
    resolveOverlaps tasks = tasks.map (applyResolved (resolveLoop [] c rest).1) := by
  unfold resolveOverlaps
  rw [hs]
  rfl

/-- Identifiers of the sorted filtered list are distinct when the input
identifiers are. -/
theorem sorted_filter_nodup (tasks : List Task) (hn : (tasks.map Task.id).Nodup)
    (c : Task) (rest : List Task)
    (hs : (tasks.filter hasSchedule).insertionSort byStart = c :: rest) :
    ((c :: rest).map Task.id).Nodup := by
  have h1 : ((tasks.filter hasSchedule).map Task.id).Nodup :=
    ((List.filter_sublist tasks).map Task.id).nodup hn
  have hperm := List.perm_insertionSort byStart (tasks.filter hasSchedule)
  rw [hs] at hperm
  exact ((hperm.map Task.id).nodup_iff).mpr h1

/-- Membership transfer from the sorted list back to the input list. -/
theorem sorted_mem_tasks (tasks : List Task) (c : Task) (rest : List Task)
    (hs : (tasks.filter hasSchedule).insertionSort byStart = c :: rest)
    {x : Task} (hx : x ∈ c :: rest) :
    x ∈ tasks ∧ hasSchedule x = true := by
  have hperm := List.perm_insertionSort byStart (tasks.filter hasSchedule)
  rw [hs] at hperm
  have hx1 : x ∈ tasks.filter hasSchedule := hperm.mem_iff.mp hx
  exact ⟨List.mem_of_mem_filter hx1, List.of_mem_filter hx1⟩

/-- What the merge-back map of a resolver pass can do to each input task:
leave it alone, or (when it is a schedulable task) push it to a strictly
later start. -/
theorem resolved_dichotomy (tasks : List Task) (hn : (tasks.map Task.id).Nodup)
    {c : Task} {rest : List Task} {mf : List (String × Task)} {F₂ : List Task}
    (hs : (tasks.filter hasSchedule).insertionSort byStart = c :: rest)
    (hfa : List.Forall₂ (evolveStep mf) rest F₂)
    (hkeys : ∀ k, k ∉ rest.map Task.id → mapGet mf k = none) :
    ∀ t ∈ tasks, mapGet mf t.id = none ∨
      (hasSchedule t = true ∧ ∃ e, startMs t < e ∧
        mapGet mf t.id = some (pushTask t e)) := by
  intro t ht
  cases hg : mapGet mf t.id with
  | none => exact Or.inl rfl
  | some y =>
    right
    have hid : t.id ∈ rest.map Task.id := by
      by_contra hcon
      rw [hkeys t.id hcon] at hg
      cases hg
    obtain ⟨x, hx_rest, hx_id⟩ := List.mem_map.mp hid
    obtain ⟨hx_tasks, hx_has⟩ :=
      sorted_mem_tasks tasks c rest hs (List.mem_cons_of_mem _ hx_rest)
    have hxt : x = t := List.inj_on_of_nodup_map hn hx_tasks ht hx_id
    subst hxt
    refine ⟨hx_has, ?_⟩
    obtain ⟨y₂, _, hstep⟩ := forall₂_exists_mem hfa x hx_rest
    rcases hstep with ⟨_, hnone⟩ | ⟨e, hlt, hpush, hsome⟩
    · rw [hnone] at hg
      cases hg
    · rw [hg] at hsome
      exact ⟨e, hlt, by rw [Option.some_inj.mp hsome, hpush]⟩

/-- Unpacking of the boolean resolver filter. -/
theorem hasSchedule_iff (t : Task) :
    hasSchedule t = true ↔
      t.scheduledStart.isSome ∧ t.scheduledEnd.isSome ∧ t.status ≠ TaskStatus.done := by
  unfold hasSchedule
  simp [Bool.and_assoc]

/-- Claim C10, amended: for task lists with pairwise-distinct identifiers,
resolveOverlaps preserves (positionally) every task's identifier and
duration, never moves a scheduled start earlier, and returns every task
that is Done or lacks a scheduled endpoint unchanged. -/
theorem C10_amended (tasks : List Task) (hn : (tasks.map Task.id).Nodup) :
    List.Forall₂ (fun t o =>
      o.id = t.id ∧ o.durationMinutes = t.durationMinutes ∧
      (∀ s, t.scheduledStart = some s →
        ∃ s2, o.scheduledStart = some s2 ∧ s ≤ s2) ∧
      ((t.status = TaskStatus.done ∨ t.scheduledStart = none ∨
        t.scheduledEnd = none) → o = t))
      tasks (resolveOverlaps tasks) := by
  cases hs : (tasks.filter hasSchedule).insertionSort byStart with
  | nil =>
    rw [resolveOverlaps_eq_of_nil tasks hs]
    rw [List.forall₂_same]
    intro t _
    exact ⟨rfl, rfl, fun s hss => ⟨s, hss, le_refl s⟩, fun _ => rfl⟩
  | cons c rest =>
    obtain ⟨mf, F₂, heq, hfa, hkeys⟩ :=
      resolveLoop_light rest [] c (fun _ _ => rfl) rfl
        (sorted_filter_nodup tasks hn c rest hs)
    have hkeys0 : ∀ k, k ∉ rest.map Task.id → mapGet mf k = none :=
      fun k hk => hkeys k hk
    have hout : resolveOverlaps tasks = tasks.map (applyResolved mf) := by
      rw [resolveOverlaps_eq_of_sort tasks c rest hs, heq]
    rw [hout, List.forall₂_map_right_iff, List.forall₂_same]
    intro t ht
    rcases resolved_dichotomy tasks hn hs hfa hkeys0 t ht with hnone | ⟨hhas, e, hlt, hsome⟩
    · have : applyResolved mf t = t := by
        unfold applyResolved
        rw [hnone]
        rfl
      rw [this]
      exact ⟨rfl, rfl, fun s hss => ⟨s, hss, le_refl s⟩, fun _ => rfl⟩
    · have ho : applyResolved mf t = pushTask t e := by
        unfold applyResolved
        rw [hsome]
        rfl
      rw [ho]
      obtain ⟨hss, hse, hst⟩ := (hasSchedule_iff t).mp hhas
      refine ⟨rfl, rfl, ?_, ?_⟩
      · intro s hs2
        refine ⟨e, rfl, ?_⟩
        have : startMs t = s := by
          unfold startMs
          rw [hs2]
          rfl
        omega
      · intro hcon
        rcases hcon with h | h | h
        · exact absurd h hst
        · rw [h] at hss
          cases hss
        · rw [h] at hse
          cases hse

theorem map_pair_inv {α β : Type} {f : α → β} {l : List α} {a b : β}
    (h : [a, b] = l.map f) : ∃ x y, l = [x, y] ∧ f x = a ∧ f y = b := by
  cases l with
  | nil => simp at h
  | cons x t1 =>
    cases t1 with
    | nil => simp at h
    | cons y t2 =>
      cases t2 with
      | nil =>
        simp only [List.map_cons, List.map_nil, List.cons.injEq, and_true] at h
        exact ⟨x, y, rfl, h.1.symm, h.2.symm⟩
      | cons z t3 => simp at h

/-- Pointwise field preservation of the merge-back mapping. -/
theorem ev_fields (tasks : List Task) (hn : (tasks.map Task.id).Nodup)
    {c : Task} {rest : List Task} {mf : List (String × Task)} {F₂ : List Task}
    (hs : (tasks.filter hasSchedule).insertionSort byStart = c :: rest)
    (hfa : List.Forall₂ (evolveStep mf) rest F₂)
    (hkeys : ∀ k, k ∉ rest.map Task.id → mapGet mf k = none) :
    ∀ t ∈ tasks, (applyResolved mf t).id = t.id ∧
      hasSchedule (applyResolved mf t) = hasSchedule t ∧
      startMs t ≤ startMs (applyResolved mf t) := by
  intro t ht
  rcases resolved_dichotomy tasks hn hs hfa hkeys t ht with hnone | ⟨hhas, e, hlt, hsome⟩
  · have hev : applyResolved mf t = t := by
      unfold applyResolved
      rw [hnone]
      rfl
    rw [hev]
    exact ⟨rfl, rfl, le_refl _⟩
  · have hev : applyResolved mf t = pushTask t e := by
      unfold applyResolved
      rw [hsome]
      rfl
    rw [hev]
    refine ⟨rfl, ?_, le_of_lt (by rw [startMs_pushTask]; exact hlt)⟩
    rw [hhas]
    rw [hasSchedule_iff]
    obtain ⟨_, _, hst⟩ := (hasSchedule_iff t).mp hhas
    exact ⟨rfl, rfl, hst⟩

/-- Claim C7, amended: for task lists with pairwise-distinct identifiers
and positive durations, the conflict resolver is idempotent. -/
theorem C7_amended (tasks : List Task)
    (hn : (tasks.map Task.id).Nodup)
    (hdur : ∀ t ∈ tasks, 0 < t.durationMinutes) :
    resolveOverlaps (resolveOverlaps tasks) = resolveOverlaps tasks := by
  cases hs : (tasks.filter hasSchedule).insertionSort byStart with
  | nil =>
    rw [resolveOverlaps_eq_of_nil tasks hs]
    exact resolveOverlaps_eq_of_nil tasks hs
  | cons c rest =>
    have hnodup_s := sorted_filter_nodup tasks hn c rest hs
    have hsorted : List.Sorted byStart (c :: rest) := by
      have := List.sorted_insertionSort byStart (tasks.filter hasSchedule)
      rwa [hs] at this
    obtain ⟨mf, F₂, heq, hfa, hchain, hkeys⟩ :=
      resolveLoop_master rest [] c (fun _ _ => rfl) (Or.inl rfl) hnodup_s
        (Or.inl (fun x hx => (List.pairwise_cons.mp hsorted).1 x hx))
        ((List.pairwise_cons.mp hsorted).2)
        (fun x hx =>
          hdur x (sorted_mem_tasks tasks c rest hs (List.mem_cons_of_mem _ hx)).1)
    have hkeys0 : ∀ k, k ∉ rest.map Task.id → mapGet mf k = none :=
      fun k hk => hkeys k hk
    have hout : resolveOverlaps tasks = tasks.map (applyResolved mf) := by
      rw [resolveOverlaps_eq_of_sort tasks c rest hs, heq]
    have hdich := resolved_dichotomy tasks hn hs hfa hkeys0
    have hfields := ev_fields tasks hn hs hfa hkeys0
    have hF₂ : F₂ = rest.map (applyResolved mf) := by
      apply forall₂_eq_map
      refine hfa.imp ?_
      intro x y hstep
      rcases hstep with ⟨hyx, hnone⟩ | ⟨e, _, hpush, hsome⟩
      · rw [hyx]
        unfold applyResolved
        rw [hnone]
        rfl
      · rw [hpush]
        unfold applyResolved
        rw [hsome, hpush]
        rfl
    have hcEv : applyResolved mf c = c := by
      unfold applyResolved
      rw [hkeys0 c.id ?_]
      · rfl
      · simp only [List.map_cons, List.nodup_cons] at hnodup_s
        exact hnodup_s.1
    have hF : c :: F₂ = (c :: rest).map (applyResolved mf) := by
      rw [List.map_cons, hcEv, hF₂]
    have hl₂ : (tasks.map (applyResolved mf)).filter hasSchedule
        = (tasks.filter hasSchedule).map (applyResolved mf) := by
      rw [List.filter_map]
      congr 1
      apply List.filter_congr
      intro x hx
      exact (hfields x hx).2.1
    have hperm : (c :: rest).Perm (tasks.filter hasSchedule) := by
      have := List.perm_insertionSort byStart (tasks.filter hasSchedule)
      rwa [hs] at this
    have hpermF : (c :: F₂).Perm
        ((tasks.map (applyResolved mf)).filter hasSchedule) := by
      rw [hF, hl₂]
      exact hperm.map (applyResolved mf)
    have hidsF : ((c :: F₂).map Task.id).Nodup := by
      rw [hF]
      have hmm : ((c :: rest).map (applyResolved mf)).map Task.id
          = (c :: rest).map Task.id := by
        rw [List.map_map]
        apply List.map_congr_left
        intro x hx
        exact (hfields x (sorted_mem_tasks tasks c rest hs hx).1).1
      rw [hmm]
      exact hnodup_s
    have hndF : (c :: F₂).Nodup := hidsF.of_map
    have hpairF : List.Pairwise resolvedRel (c :: F₂) :=
      List.chain'_iff_pairwise.mp hchain
    have hQ : ∀ a b, [a, b].Sublist
        (((tasks.map (applyResolved mf)).filter hasSchedule).insertionSort byStart) →
        endMs a ≤ startMs b := by
      intro a b hab
      have hsorted₂ :=
        List.sorted_insertionSort byStart
          ((tasks.map (applyResolved mf)).filter hasSchedule)
      have hperm₂ :=
        List.perm_insertionSort byStart
          ((tasks.map (applyResolved mf)).filter hasSchedule)
      have hstart_le : startMs a ≤ startMs b :=
        (pairwise_pair (r := byStart) hsorted₂ hab : byStart a b)
      have hnd₂ : (((tasks.map (applyResolved mf)).filter hasSchedule).insertionSort
          byStart).Nodup :=
        hperm₂.nodup_iff.mpr (hpermF.nodup_iff.mp hndF)
      have hamem : a ∈ c :: F₂ :=
        hpermF.mem_iff.mpr (hperm₂.mem_iff.mp (hab.subset (by simp)))
      have hbmem : b ∈ c :: F₂ :=
        hpermF.mem_iff.mpr (hperm₂.mem_iff.mp (hab.subset (by simp)))
      have hne : a ≠ b := fun h => not_pair_self_sublist hnd₂ (h ▸ hab)
      rcases lt_or_eq_of_le hstart_le with hlt | heqs
      · rcases pair_sublist_or hamem hbmem hne with hF1 | hF1
        · exact (pairwise_pair hpairF hF1).1
        · exact absurd (pairwise_pair hpairF hF1).2 (not_le.mpr hlt)
      · -- tie on the new starts
        have hal₂ : a ∈ (tasks.map (applyResolved mf)).filter hasSchedule :=
          hperm₂.mem_iff.mp (hab.subset (by simp))
        have hbl₂ : b ∈ (tasks.map (applyResolved mf)).filter hasSchedule :=
          hperm₂.mem_iff.mp (hab.subset (by simp))
        have hl2ab : [a, b].Sublist
            ((tasks.map (applyResolved mf)).filter hasSchedule) := by
          rcases pair_sublist_or hal₂ hbl₂ hne with h1 | h1
          · exact h1
          · exfalso
            have hba : byStart b a := le_of_eq heqs.symm
            have h2 := List.pair_sublist_insertionSort hba h1
            exact hne (pair_sublist_antisymm hnd₂ hab h2)
        rw [hl₂] at hl2ab
        obtain ⟨l3, hl3s, hl3eq⟩ := List.sublist_map_iff.mp hl2ab
        obtain ⟨x, y2, rfl, hxa, hyb⟩ := map_pair_inv hl3eq
        have hx_l₁ : x ∈ tasks.filter hasSchedule := hl3s.subset (by simp)
        have hy_l₁ : y2 ∈ tasks.filter hasSchedule := hl3s.subset (by simp)
        have hx_tasks : x ∈ tasks := List.mem_of_mem_filter hx_l₁
        have hy_tasks : y2 ∈ tasks := List.mem_of_mem_filter hy_l₁
        rcases pair_sublist_or hamem hbmem hne with hFab | hFba
        · exact (pairwise_pair hpairF hFab).1
        · exfalso
          have hFba0 := hFba
          rw [hF] at hFba
          obtain ⟨l4, hl4s, hl4eq⟩ := List.sublist_map_iff.mp hFba
          obtain ⟨u, v, rfl, hub, hva⟩ := map_pair_inv hl4eq
          have hu_tasks : u ∈ tasks := (sorted_mem_tasks tasks c rest hs (hl4s.subset (by simp))).1
          have hv_tasks : v ∈ tasks := (sorted_mem_tasks tasks c rest hs (hl4s.subset (by simp))).1
          have huy : u = y2 := by
            apply List.inj_on_of_nodup_map hn hu_tasks hy_tasks
            have h1 : (applyResolved mf u).id = u.id := (hfields u hu_tasks).1
            have h2 : (applyResolved mf y2).id = y2.id := (hfields y2 hy_tasks).1
            rw [← h1, ← h2, hub, hyb]
          have hvx : v = x := by
            apply List.inj_on_of_nodup_map hn hv_tasks hx_tasks
            have h1 : (applyResolved mf v).id = v.id := (hfields v hv_tasks).1
            have h2 : (applyResolved mf x).id = x.id := (hfields x hx_tasks).1
            rw [← h1, ← h2, hva, hxa]
          rw [huy, hvx] at hl4s
          -- hl4s : [y2, x] <+ c :: rest
          by_cases hbs : byStart x y2
          · have h3 := List.pair_sublist_insertionSort hbs hl3s
            rw [hs] at h3
            have hxy : x = y2 := pair_sublist_antisymm hnodup_s.of_map h3 hl4s
            exact hne (by rw [← hxa, ← hyb, hxy])
          · have hylt : startMs y2 < startMs x := not_le.mp hbs
            have hax : startMs x ≤ startMs a := by
              rw [← hxa]
              exact (hfields x hx_tasks).2.2
            have hby2 : startMs y2 < startMs b := by
              omega
            rcases hdich y2 hy_tasks with hnone | ⟨_, e, hlt2, hsome⟩
            · have : applyResolved mf y2 = y2 := by
                unfold applyResolved
                rw [hnone]
                rfl
              rw [this] at hyb
              rw [← hyb] at hby2
              exact absurd hby2 (lt_irrefl _)
            · have hbpush : b = pushTask y2 e := by
                rw [← hyb]
                unfold applyResolved
                rw [hsome]
                rfl
              have hdy : 0 < y2.durationMinutes := hdur y2 hy_tasks
              have hendb : startMs b < endMs b := by
                rw [hbpush, endMs_pushTask, startMs_pushTask]
                unfold addMinutes
                nlinarith
              have hrel : endMs b ≤ startMs a := (pairwise_pair hpairF hFba0).1
              omega
    -- run the second pass
    rw [hout]
    cases hs₂ : ((tasks.map (applyResolved mf)).filter hasSchedule).insertionSort
        byStart with
    | nil => exact resolveOverlaps_eq_of_nil _ hs₂
    | cons c₂ rest₂ =>
      have hchain₂ : List.Chain' (fun a b => endMs a ≤ startMs b) (c₂ :: rest₂) := by
        apply chain'_of_pairs
        intro a b hab
        exact hQ a b (hs₂ ▸ hab)
      rw [resolveOverlaps_eq_of_sort (tasks.map (applyResolved mf)) c₂ rest₂ hs₂]
      rw [resolveLoop_noop rest₂ [] c₂ (fun _ _ => rfl) rfl hchain₂]
      have hid2 : (tasks.map (applyResolved mf)).map
          (applyResolved ([] : List (String × Task)))
          = (tasks.map (applyResolved mf)).map id :=
        List.map_congr_left (fun u _ => rfl)
      rw [hid2, List.map_id]


/-! ### Claims C7 and C10: conflict resolver -/

/-- Claim C7, counterexample: resolveOverlaps is not idempotent on every
task list.  With a zero-duration task X pushed to a start tied with task Y,
the second pass sorts Y before X (stable sort on the input order) and
pushes X again. -/
theorem C7_counterexample :
    resolveOverlaps (resolveOverlaps [c7Y, c7X, c7W])
      ≠ resolveOverlaps [c7Y, c7X, c7W] := by
  decide

/-- Witness for C7_amended on a concrete two-task list. -/
theorem C7_amended_witness :
    resolveOverlaps (resolveOverlaps resolverWitnessTasks)
      = resolveOverlaps resolverWitnessTasks :=
  C7_amended resolverWitnessTasks (by decide) (by decide)

/-- Claim C10, counterexample: with duplicate identifiers the merge-back
step replaces a Done task by the pushed record of the other task with the
same id, so a Done task is not returned unchanged. -/
theorem C10_counterexample :
    c10BDone.status = TaskStatus.done ∧
      (resolveOverlaps [c10A, c10B, c10BDone])[2]? ≠ some c10BDone := by
  decide

/-- Witness for C10_amended on a concrete two-task list. -/
theorem C10_amended_witness :
    List.Forall₂ (fun t o =>
      o.id = t.id ∧ o.durationMinutes = t.durationMinutes ∧
      (∀ s, t.scheduledStart = some s →
        ∃ s2, o.scheduledStart = some s2 ∧ s ≤ s2) ∧
      ((t.status = TaskStatus.done ∨ t.scheduledStart = none ∨
        t.scheduledEnd = none) → o = t))
      resolverWitnessTasks (resolveOverlaps resolverWitnessTasks) :=
  C10_amended resolverWitnessTasks (by decide)

/-! ### Claim C8: break cadence of the Rhythm Engine -/

theorem roundToNearest15_ge (m : Int) : 15 ≤ roundToNearest15 m := by
  unfold roundToNearest15
  by_cases h : ((2 * m + 15) / 30) * 15 < 15
  · rw [if_pos h]
  · rw [if_neg h]
    omega

theorem ediv15_mul_ge {d : Int} (h : 15 ≤ d) : 15 ≤ (d / 15) * 15 := by
  omega

/-- The chunk walk emits nothing when fewer than 15 minutes remain. -/
theorem chunkLoop_nil (settings : UserSettings) (wStop : Int) (fuel : Nat)
    (cursor c : Int) (h : differenceInMinutes wStop cursor < 15) :
    chunkLoop settings wStop fuel cursor c = ([], [], c) := by
  cases fuel with
  | zero => rfl
  | succ n =>
    simp only [chunkLoop]
    by_cases hc : cursor < wStop
    · rw [if_pos hc, if_pos h]
    · rw [if_neg hc]

/-- Claim C8, counterexample: the long-break cadence counts focus chunks,
not emitted breaks.  With long_break_interval = 2 and a first window that
holds exactly one chunk (emitting no break), the first break of the next
window follows global chunk number 2 and is long, and the second break
ever emitted — the Nth break with N = 2, which the spec says must be a
Long Break — is a Short Break. -/
theorem C8_counterexample :
    (2 : Int) % c8Settings.longBreakInterval = 0 ∧
    ((chunkWindows c8Settings c8Windows).2.map Task.title)
      = ["Long Break", "Short Break"] := by
  decide

/-- Claim C8, amended: for every walk of the Rhythm Engine through one
free window starting from incoming global chunk counter c, (1) the final
counter is c plus the number of focus slots emitted, so the counter
threaded through chunkWindows counts focus chunks; (2) at most the last
focus slot lacks a following break, so between any two consecutive focus
slots of a window exactly one break is emitted; (3) break i starts exactly
where focus slot i ends and the next focus slot starts exactly where
break i ends; and (4) break i is a Long Break precisely when the global
number of focus chunks emitted up to and including slot i, namely
c + i + 1, is a multiple of long_break_interval — the cadence counts
chunks, not breaks. -/
theorem C8_amended (settings : UserSettings) (wStop : Int) (fuel : Nat)
    (cursor c : Int) (slots : List Slot) (breaks : List Task) (c2 : Int)
    (h : chunkLoop settings wStop fuel cursor c = (slots, breaks, c2)) :
    c2 = c + slots.length ∧
    (breaks.length = slots.length ∨ breaks.length + 1 = slots.length) ∧
    (∀ h0 : 0 < slots.length, (slots.get ⟨0, h0⟩).start = cursor) ∧
    (∀ i, ∀ hi : i < breaks.length,
      ∃ hs : i < slots.length,
        (breaks.get ⟨i, hi⟩).scheduledStart = some (slots.get ⟨i, hs⟩).stop ∧
        ((breaks.get ⟨i, hi⟩).title = "Long Break" ↔
          (c + (i : Int) + 1) % settings.longBreakInterval = 0) ∧
        (∀ hs2 : i + 1 < slots.length,
          (slots.get ⟨i + 1, hs2⟩).start = endMs (breaks.get ⟨i, hi⟩))) := by
  induction fuel generalizing cursor c slots breaks c2 with
  | zero =>
    cases h
    exact ⟨by simp, Or.inl rfl, fun h0 => absurd h0 (by simp),
      fun i hi => absurd hi (by simp)⟩
  | succ n ih =>
    simp only [chunkLoop] at h
    split at h
    rotate_left
    · cases h
      exact ⟨by simp, Or.inl rfl, fun h0 => absurd h0 (by simp),
        fun i hi => absurd hi (by simp)⟩
    rename_i hc
    split at h
    · cases h
      exact ⟨by simp, Or.inl rfl, fun h0 => absurd h0 (by simp),
        fun i hi => absurd hi (by simp)⟩
    rename_i hrem
    split at h
    · cases h
      exact ⟨by simp, Or.inl rfl, fun h0 => absurd h0 (by simp),
        fun i hi => absurd hi (by simp)⟩
    rename_i hwd
    set wd := min (roundToNearest15 settings.workChunkMinutes)
      ((differenceInMinutes wStop cursor / 15) * 15) with hwdEq
    set we := addMinutes cursor wd with hweEq
    split at h
    · rename_i hroom
      split at h
      · rename_i hL
        set bd := min (roundToNearest15 settings.longBreakMinutes)
          ((differenceInMinutes wStop we / 15) * 15) with hbdEq
        set be := addMinutes we bd with hbeEq
        split at h
        · rename_i hbd
          injection h with h1 h23
          injection h23 with h2 h3
          subst h1 h2 h3
          obtain ⟨ihA, ihB, ihC, ihD⟩ := ih be (c + 1) _ _ _ rfl
          refine ⟨?_, ?_, ?_, ?_⟩
          · simp only [List.length_cons]
            push_cast
            rw [ihA]
            ring
          · simp only [List.length_cons]
            rcases ihB with hEq | hEq
            · left
              rw [hEq]
            · right
              rw [hEq]
          · intro h0
            rfl
          · intro i hi
            cases i with
            | zero =>
              refine ⟨by simp, rfl, ?_, ?_⟩
              · constructor
                · intro _
                  simpa using hL
                · intro _
                  rfl
              · intro hs2
                exact (ihC (by simpa using hs2)).trans rfl
            | succ j =>
              obtain ⟨hs', hf1, hf2, hf3⟩ := ihD j (by simpa using hi)
              refine ⟨by simpa using hs', hf1, ?_, ?_⟩
              · push_cast
                rw [show c + ((j : Int) + 1) + 1 = c + 1 + (j : Int) + 1 from
                  by ring]
                exact hf2
              · intro hs2
                exact hf3 (by simpa using hs2)
        · -- break duration below 15: impossible when 15 minutes remain
          exfalso
          rename_i hbd
          have h1 := roundToNearest15_ge settings.longBreakMinutes
          have h2 := ediv15_mul_ge hroom
          omega
      · rename_i hL
        set bd := min (roundToNearest15 settings.shortBreakMinutes)
          ((differenceInMinutes wStop we / 15) * 15) with hbdEq
        set be := addMinutes we bd with hbeEq
        split at h
        · rename_i hbd
          injection h with h1 h23
          injection h23 with h2 h3
          subst h1 h2 h3
          obtain ⟨ihA, ihB, ihC, ihD⟩ := ih be (c + 1) _ _ _ rfl
          refine ⟨?_, ?_, ?_, ?_⟩
          · simp only [List.length_cons]
            push_cast
            rw [ihA]
            ring
          · simp only [List.length_cons]
            rcases ihB with hEq | hEq
            · left
              rw [hEq]
            · right
              rw [hEq]
          · intro h0
            rfl
          · intro i hi
            cases i with
            | zero =>
              refine ⟨by simp, rfl, ?_, ?_⟩
              · constructor
                · intro hbad
                  have hbad2 : ("Short Break" : String) = "Long Break" := hbad
                  exact absurd hbad2 (by decide)
                · intro hz
                  exact absurd (by simpa using hz) hL
              · intro hs2
                exact (ihC (by simpa using hs2)).trans rfl
            | succ j =>
              obtain ⟨hs', hf1, hf2, hf3⟩ := ihD j (by simpa using hi)
              refine ⟨by simpa using hs', hf1, ?_, ?_⟩
              · push_cast
                rw [show c + ((j : Int) + 1) + 1 = c + 1 + (j : Int) + 1 from
                  by ring]
                exact hf2
              · intro hs2
                exact hf3 (by simpa using hs2)
        · -- break duration below 15: impossible when 15 minutes remain
          exfalso
          rename_i hbd
          have h1 := roundToNearest15_ge settings.shortBreakMinutes
          have h2 := ediv15_mul_ge hroom
          omega
    · -- no room for a break: the recursion emits nothing further
      rename_i hroom
      rw [chunkLoop_nil settings wStop n we (c + 1) (by omega)] at h
      injection h with h1 h23
      injection h23 with h2 h3
      subst h1 h2 h3
      refine ⟨by simp, Or.inr (by simp), fun h0 => rfl,
        fun i hi => absurd hi (by simp)⟩

/-- Witness for C8_amended on the single-chunk window of c8Windows. -/
theorem C8_amended_witness :
    chunkLoop c8Settings 1800000 31 0 0 = ([c8Slot], [], 1) ∧
    ((1 : Int) = 0 + ([c8Slot] : List Slot).length ∧
     (([] : List Task).length = ([c8Slot] : List Slot).length ∨
       ([] : List Task).length + 1 = ([c8Slot] : List Slot).length) ∧
     (∀ h0 : 0 < ([c8Slot] : List Slot).length,
        (([c8Slot] : List Slot).get ⟨0, h0⟩).start = 0) ∧
     (∀ i, ∀ hi : i < ([] : List Task).length,
       ∃ hs : i < ([c8Slot] : List Slot).length,
         (([] : List Task).get ⟨i, hi⟩).scheduledStart
             = some ((([c8Slot] : List Slot).get ⟨i, hs⟩).stop) ∧
         ((([] : List Task).get ⟨i, hi⟩).title = "Long Break" ↔
           ((0 : Int) + (i : Int) + 1) % c8Settings.longBreakInterval = 0) ∧
         (∀ hs2 : i + 1 < ([c8Slot] : List Slot).length,
           (([c8Slot] : List Slot).get ⟨i + 1, hs2⟩).start
             = endMs (([] : List Task).get ⟨i, hi⟩)))) :=
  ⟨by decide, C8_amended c8Settings 1800000 31 0 0 [c8Slot] [] 1 (by decide)⟩


/-! ### Claim C3: input validation -/

/-- Setting whole hours then zeroing the minutes lands on the hour for both
grid roundings. -/
theorem ceilTo15_setMinutes_setHours (t h : Int) :
    ceilTo15 (setMinutes (setHours t h) 0) = startOfDay t + h * 3600000 := by
  unfold ceilTo15 setMinutes setHours startOfDay zeroSub getMinutes addMinutes
  have hm : ((((t / 86400000 * 86400000 + h * 3600000 + t % 3600000) / 3600000 *
      3600000 + 0 * 60000 + (t / 86400000 * 86400000 + h * 3600000 + t % 3600000)
      % 60000) / 60000) % 60) % 15 = 0 := by omega
  rw [if_pos hm]
  omega

theorem floorTo15_setMinutes_setHours (t h : Int) :
    floorTo15 (setMinutes (setHours t h) 0) = startOfDay t + h * 3600000 := by
  unfold floorTo15 setMinutes setHours startOfDay zeroSub getMinutes subMinutes
  omega

/-- With work end hour at or before work start hour, no day contributes a
window. -/
theorem dayWindowsFor_inverted (settings : UserSettings)
    (currentDate iterDate : Int) (fb : List (Int × List Task))
    (hse : settings.workEndHour ≤ settings.workStartHour) :
    dayWindowsFor settings currentDate fb iterDate = [] := by
  unfold dayWindowsFor
  by_cases hwd : settings.workDays.contains (getDay iterDate)
  rotate_left
  · rw [if_neg hwd]
  rw [if_pos hwd, ceilTo15_setMinutes_setHours, floorTo15_setMinutes_setHours]
  have hES : startOfDay iterDate + settings.workEndHour * 3600000 ≤
      startOfDay iterDate + settings.workStartHour * 3600000 := by
    have := mul_le_mul_of_nonneg_right hse (by norm_num : (0 : Int) ≤ 3600000)
    omega
  rw [if_neg (by omega :
    ¬ (startOfDay iterDate + settings.workStartHour * 3600000 < currentDate ∧
      currentDate < startOfDay iterDate + settings.workEndHour * 3600000))]
  by_cases hmid : currentDate > startOfDay iterDate +
      settings.workStartHour * 3600000 ∧
      currentDate > startOfDay iterDate + settings.workEndHour * 3600000
  · rw [if_pos hmid]
  · rw [if_neg hmid]
    unfold dayWindowsCore
    rw [if_pos (by omega :
      startOfDay iterDate + settings.workStartHour * 3600000 >
        startOfDay iterDate + settings.workEndHour * 3600000 ∨
      startOfDay iterDate + settings.workStartHour * 3600000 =
        startOfDay iterDate + settings.workEndHour * 3600000)]

/-- With inverted work hours the whole availability loop is empty. -/
theorem availableWindowsLoop_inverted (settings : UserSettings)
    (currentDate : Int) (fb : List (Int × List Task))
    (hse : settings.workEndHour ≤ settings.workStartHour) :
    ∀ (n : Nat) (d : Int),
      availableWindowsLoop settings currentDate fb n d = [] := by
  intro n
  induction n with
  | zero => intro d; rfl
  | succ m ih =>
    intro d
    unfold availableWindowsLoop
    rw [dayWindowsFor_inverted settings currentDate d fb hse, ih]
    rfl


/-- With no slots at all, placing a task only reports it unscheduled. -/
theorem placeTask_no_slots (settings : UserSettings) (currentDate : Int)
    (st : FitState) (task : Task) (hs : st.slots = []) :
    placeTask settings currentDate st task =
      { st with
        slots := [],
        unscheduled := st.unscheduled ++ [(task,
          (match latestConstraint task with
          | some l => "No slot before deadline/window (" ++ isoString l ++ ")"
          | none => "Insufficient availability"))] } := by
  have hfw : ∀ k : Nat, fitWalk settings task
      (dependencyConstraint st.completion currentDate task)
      (latestConstraint task) (k + 2)
      { done := [], todo := [], remaining := task.durationMinutes,
        parts := [], lastEnd := none } =
      { done := [], todo := [], remaining := task.durationMinutes,
        parts := [], lastEnd := none } := by
    intro k
    show fitWalk settings task _ _ (Nat.succ (k + 1)) _ = _
    simp only [fitWalk]
  simp only [placeTask, hs, List.length_nil, Nat.zero_add, List.take_nil,
    List.drop_nil, List.map_nil]
  rw [hfw]
  rw [if_neg (by simp : ¬ (task.durationMinutes ≤ 0 ∧
    Option.isSome (none : Option Int) = true))]
  simp

theorem head_eq_some_mem {α : Type} {l : List α} {x : α}
    (h : l.head? = some x) : x ∈ l := by
  cases l with
  | nil => simp at h
  | cons a as =>
    simp only [List.head?_cons, Option.some.injEq] at h
    rw [← h]
    exact List.mem_cons_self a as

theorem head_eq_none_nil {α : Type} {l : List α} (h : l.head? = none) :
    l = [] := by
  cases l with
  | nil => rfl
  | cons a as => simp at h

theorem sortByScore_eq_nil {l : List Task} (h : sortByScore l = []) :
    l = [] := by
  have hp := List.perm_insertionSort scoreLe l
  unfold sortByScore at h
  rw [h] at hp
  exact hp.symm.eq_nil

theorem mem_of_mem_sortByScore {l : List Task} {x : Task}
    (h : x ∈ sortByScore l) : x ∈ l :=
  (List.perm_insertionSort scoreLe l).mem_iff.mp h

/-- A picked task is a pending task not yet processed. -/
theorem pickTask_some (pending : List Task) (pids : List String) (st : FitState)
    (t : Task) (h : pickTask pending pids st = some t) :
    t ∈ pending ∧ t.id ∉ st.processed := by
  have hready : ∀ (p : Task → Bool) (x : Task),
      x ∈ pending.filter (fun tt => decide (tt.id ∉ st.processed) && p tt) →
      x ∈ pending ∧ x.id ∉ st.processed := by
    intro p x hx
    have hm := List.mem_filter.mp hx
    refine ⟨hm.1, ?_⟩
    have hb := hm.2
    rw [Bool.and_eq_true] at hb
    exact of_decide_eq_true hb.1
  simp only [pickTask] at h
  split at h
  · exact absurd h (by simp)
  split at h
  · rename_i x heq
    rw [Option.some.injEq] at h
    subst h
    exact hready _ x (List.mem_filter.mp (mem_of_mem_sortByScore
      (List.mem_filter.mp (head_eq_some_mem heq)).1)).1
  · split at h
    · exact hready _ t
        (List.mem_filter.mp (mem_of_mem_sortByScore (head_eq_some_mem h))).1
    split at h
    · exact hready _ t
        (List.mem_filter.mp (mem_of_mem_sortByScore (head_eq_some_mem h))).1
    split at h
    · exact hready _ t
        (List.mem_filter.mp (mem_of_mem_sortByScore (head_eq_some_mem h))).1
    · exact hready _ t
        (List.mem_filter.mp (mem_of_mem_sortByScore (head_eq_some_mem h))).1

/-- When picking fails and no pending task has dependencies, every pending
task has already been processed. -/
theorem pickTask_none (pending : List Task) (pids : List String) (st : FitState)
    (hdeps : ∀ t ∈ pending, t.dependencies = none)
    (h : pickTask pending pids st = none) :
    ∀ t ∈ pending, t.id ∈ st.processed := by
  intro t ht
  by_contra hnp
  have hpred : (decide (t.id ∉ st.processed) &&
      (match t.dependencies with
       | none => true
       | some deps => deps.all (fun depId =>
          (mapGet st.completion depId).isSome || decide (depId ∉ pids)))) = true := by
    rw [hdeps t ht]
    simp [hnp]
  simp only [pickTask] at h
  split at h
  · rename_i hempty
    rw [List.isEmpty_iff] at hempty
    have : t ∈ (List.nil : List Task) := by
      rw [← hempty]
      exact List.mem_filter.mpr ⟨ht, hpred⟩
    simp at this
  rename_i hnempty
  split at h
  · exact absurd h (by simp)
  rename_i hurg
  have hmem : t ∈ pending.filter (fun tt => decide (tt.id ∉ st.processed) &&
      (match tt.dependencies with
       | none => true
       | some deps => deps.all (fun depId =>
          (mapGet st.completion depId).isSome || decide (depId ∉ pids)))) :=
    List.mem_filter.mpr ⟨ht, hpred⟩
  split at h
  · rename_i hcond
    exact absurd (head_eq_none_nil h) (by
      intro hnil
      exact hcond.2 (by rw [hnil]; rfl))
  split at h
  · rename_i hc1 hcond
    exact absurd (head_eq_none_nil h) (by
      intro hnil
      exact hcond.2 (by rw [hnil]; rfl))
  split at h
  · rename_i hc1 hc2 hcond
    exact absurd (head_eq_none_nil h) (by
      intro hnil
      exact hcond (by rw [hnil]; rfl))
  · rename_i hc1 hc2 hc3
    have hproj := sortByScore_eq_nil (head_eq_none_nil h)
    have htodos : sortByScore ((pending.filter (fun tt =>
        decide (tt.id ∉ st.processed) &&
        (match tt.dependencies with
         | none => true
         | some deps => deps.all (fun depId =>
            (mapGet st.completion depId).isSome || decide (depId ∉ pids))))).filter
        (fun tt => decide (tt.isTodoList = some true))) = [] := by
      by_contra hne
      exact hc3 (by
        intro hempty
        exact hne (List.isEmpty_iff.mp hempty))
    have htodos2 := sortByScore_eq_nil htodos
    by_cases hq : t.isTodoList = some true
    · have : t ∈ (List.nil : List Task) := by
        rw [← htodos2]
        exact List.mem_filter.mpr ⟨hmem, by simp [hq]⟩
      simp at this
    · have : t ∈ (List.nil : List Task) := by
        rw [← hproj]
        exact List.mem_filter.mpr ⟨hmem, by simp [hq]⟩
      simp at this



/-- The fitting loop over an empty slot list schedules nothing: it only
moves pending tasks into the unscheduled report, one per processed id. -/
theorem fitLoop_no_slots (settings : UserSettings) (currentDate : Int)
    (pending : List Task) (pendingIds : List String)
    (hdeps : ∀ t ∈ pending, t.dependencies = none) :
    ∀ (fuel : Nat) (st : FitState), st.slots = [] →
      st.processed.Nodup → (∀ i ∈ st.processed, i ∈ pending.map Task.id) →
      pending.length < fuel + st.processed.length →
      ∃ new : List String,
        (fitLoop settings currentDate pending pendingIds fuel st).slots = [] ∧
        (fitLoop settings currentDate pending pendingIds fuel st).scheduled
          = st.scheduled ∧
        (fitLoop settings currentDate pending pendingIds fuel st).scheduledHighTodo
          = st.scheduledHighTodo ∧
        (fitLoop settings currentDate pending pendingIds fuel st).processed
          = st.processed ++ new ∧
        (fitLoop settings currentDate pending pendingIds fuel st).unscheduled.map
            (fun p => p.1.id)
          = st.unscheduled.map (fun p => p.1.id) ++ new ∧
        (fitLoop settings currentDate pending pendingIds fuel st).processed.Nodup ∧
        (∀ i ∈ (fitLoop settings currentDate pending pendingIds fuel st).processed,
          i ∈ pending.map Task.id) ∧
        (pending.length
            ≤ (fitLoop settings currentDate pending pendingIds fuel st).processed.length ∨
          ∀ t ∈ pending, t.id ∈
            (fitLoop settings currentDate pending pendingIds fuel st).processed) := by
  intro fuel
  induction fuel with
  | zero =>
    intro st hs hnd hsub hfuel
    have hstep : fitLoop settings currentDate pending pendingIds 0 st = st := rfl
    rw [hstep]
    exact ⟨[], hs, rfl, rfl, by simp, by simp, hnd, hsub, Or.inl (by omega)⟩
  | succ n ih =>
    intro st hs hnd hsub hfuel
    by_cases hguard : st.processed.length < pending.length
    rotate_left
    · have hstep : fitLoop settings currentDate pending pendingIds
          (Nat.succ n) st = st := by
        rw [fitLoop, if_neg hguard]
      rw [hstep]
      exact ⟨[], hs, rfl, rfl, by simp, by simp, hnd, hsub, Or.inl (by omega)⟩
    cases hpick : pickTask pending pendingIds st with
    | none =>
      have hstep : fitLoop settings currentDate pending pendingIds
          (Nat.succ n) st = st := by
        rw [fitLoop, if_pos hguard, hpick]
      rw [hstep]
      exact ⟨[], hs, rfl, rfl, by simp, by simp, hnd, hsub,
        Or.inr (pickTask_none pending pendingIds st hdeps hpick)⟩
    | some task =>
      obtain ⟨htp, htnp⟩ := pickTask_some pending pendingIds st task hpick
      have hstep : fitLoop settings currentDate pending pendingIds (Nat.succ n) st
          = fitLoop settings currentDate pending pendingIds n
              (placeTask settings currentDate
                { st with alternateTodo := ¬ st.alternateTodo,
                          processed := st.processed ++ [task.id] } task) := by
        rw [fitLoop, if_pos hguard, hpick]
      have hPT := placeTask_no_slots settings currentDate
        { st with alternateTodo := ¬ st.alternateTodo,
                  processed := st.processed ++ [task.id] } task hs
      have hPslots : (placeTask settings currentDate
          { st with alternateTodo := ¬ st.alternateTodo,
                    processed := st.processed ++ [task.id] } task).slots = [] := by
        rw [hPT]
      have hPproc : (placeTask settings currentDate
          { st with alternateTodo := ¬ st.alternateTodo,
                    processed := st.processed ++ [task.id] } task).processed
          = st.processed ++ [task.id] := by
        rw [hPT]
      have hPsched : (placeTask settings currentDate
          { st with alternateTodo := ¬ st.alternateTodo,
                    processed := st.processed ++ [task.id] } task).scheduled
          = st.scheduled := by
        rw [hPT]
      have hPhigh : (placeTask settings currentDate
          { st with alternateTodo := ¬ st.alternateTodo,
                    processed := st.processed ++ [task.id] } task).scheduledHighTodo
          = st.scheduledHighTodo := by
        rw [hPT]
      have hPunsch : (placeTask settings currentDate
          { st with alternateTodo := ¬ st.alternateTodo,
                    processed := st.processed ++ [task.id] } task).unscheduled.map
            (fun p => p.1.id)
          = st.unscheduled.map (fun p => p.1.id) ++ [task.id] := by
        rw [hPT]
        simp
      obtain ⟨new, hA, hB, hC, hD, hE, hF, hG, hH⟩ := ih
        (placeTask settings currentDate
          { st with alternateTodo := ¬ st.alternateTodo,
                    processed := st.processed ++ [task.id] } task)
        hPslots
        (by
          rw [hPproc, List.nodup_append]
          refine ⟨hnd, List.nodup_singleton task.id, ?_⟩
          intro a ha hb
          rw [List.mem_singleton] at hb
          subst hb
          exact htnp ha)
        (by
          intro i hi
          rw [hPproc] at hi
          rw [List.mem_append, List.mem_singleton] at hi
          rcases hi with hi | hi
          · exact hsub i hi
          · subst hi
            exact List.mem_map_of_mem Task.id htp)
        (by
          rw [hPproc]
          simp only [List.length_append, List.length_singleton]
          omega)
      rw [hstep]
      refine ⟨task.id :: new, hA, hB.trans hPsched, hC.trans hPhigh, ?_, ?_,
        hF, hG, hH⟩
      · rw [hD, hPproc]
        simp
      · rw [hE, hPunsch]
        simp



/-- Claim C3, amended: the planner performs no input validation and never
surfaces an error.  A duration that is not a positive multiple of 15 is
silently normalized by roundToNearest15, and
settings with work_end_hour at or before work_start_hour do not reject the
pass: the availability of every day is empty, so the plan is produced
normally with no scheduled parts, no breaks, no warnings, and (for tasks
with pairwise-distinct ids and no dependencies) every input task reported
in the unscheduled list. -/
theorem C3_amended (settings : UserSettings) (tasks fixedTasks : List Task)
    (currentDate : Int) (prof : String)
    (hse : settings.workEndHour ≤ settings.workStartHour)
    (hdeps : ∀ t ∈ tasks, t.dependencies = none)
    (hnodup : (tasks.map Task.id).Nodup) :
    (suggestSchedule tasks fixedTasks currentDate prof settings).scheduled = [] ∧
    (suggestSchedule tasks fixedTasks currentDate prof settings).breaks = [] ∧
    (suggestSchedule tasks fixedTasks currentDate prof settings).warnings = [] ∧
    ((suggestSchedule tasks fixedTasks currentDate prof settings).unscheduled.map
      (fun p => p.1.id)).Perm (tasks.map Task.id) := by
  have hPdeps : ∀ t ∈ tasks.map (fun t =>
      { t with durationMinutes := roundToNearest15 t.durationMinutes }),
      t.dependencies = none := by
    intro t ht
    rw [List.mem_map] at ht
    obtain ⟨t0, ht0, rfl⟩ := ht
    exact hdeps t0 ht0
  have hPids : (tasks.map (fun t =>
      { t with durationMinutes := roundToNearest15 t.durationMinutes })).map
      Task.id = tasks.map Task.id := by
    rw [List.map_map]
    exact List.map_congr_left (fun a _ => rfl)
  have hPnodup : ((tasks.map (fun t =>
      { t with durationMinutes := roundToNearest15 t.durationMinutes })).map
      Task.id).Nodup := by
    rw [hPids]
    exact hnodup
  have hFIT : ∀ (pend : List Task) (pids : List String)
      (comp : List (String × Int)),
      (∀ t ∈ pend, t.dependencies = none) → (pend.map Task.id).Nodup →
      (fitLoop settings currentDate pend pids (pend.length + 1)
        { slots := [], scheduled := [], completion := comp, unscheduled := [],
          processed := [], alternateTodo := true,
          scheduledHighTodo := false }).scheduled = [] ∧
      (fitLoop settings currentDate pend pids (pend.length + 1)
        { slots := [], scheduled := [], completion := comp, unscheduled := [],
          processed := [], alternateTodo := true,
          scheduledHighTodo := false }).scheduledHighTodo = false ∧
      ((fitLoop settings currentDate pend pids (pend.length + 1)
        { slots := [], scheduled := [], completion := comp, unscheduled := [],
          processed := [], alternateTodo := true,
          scheduledHighTodo := false }).unscheduled.map
          (fun p => p.1.id)).Perm (pend.map Task.id) := by
    intro pend pids comp hd hn
    obtain ⟨new, hA, hB, hC, hD, hE, hF, hG, hH⟩ :=
      fitLoop_no_slots settings currentDate pend pids hd (pend.length + 1)
        { slots := [], scheduled := [], completion := comp, unscheduled := [],
          processed := [], alternateTodo := true, scheduledHighTodo := false }
        rfl List.nodup_nil (by intro i hi; simp at hi) (by simp)
    have hprocnew : (fitLoop settings currentDate pend pids (pend.length + 1)
        { slots := [], scheduled := [], completion := comp, unscheduled := [],
          processed := [], alternateTodo := true,
          scheduledHighTodo := false }).processed = new := hD.trans (by simp)
    have hunsch : ((fitLoop settings currentDate pend pids (pend.length + 1)
        { slots := [], scheduled := [], completion := comp, unscheduled := [],
          processed := [], alternateTodo := true,
          scheduledHighTodo := false }).unscheduled.map
          (fun p => p.1.id)) = new := hE.trans (by simp)
    refine ⟨hB.trans (by simp), hC.trans (by simp), ?_⟩
    rw [hunsch]
    rw [hprocnew] at hF hG hH
    have hsubnew : new ⊆ pend.map Task.id := fun i hi => hG i hi
    have sp : new.Subperm (pend.map Task.id) :=
      List.subperm_of_subset hF hsubnew
    rcases hH with hH | hH
    · have hlen : (pend.map Task.id).length ≤ new.length := by
        rw [List.length_map]
        exact hH
      exact sp.perm_of_length_le hlen
    · have hsub2 : pend.map Task.id ⊆ new := by
        intro i hi
        rw [List.mem_map] at hi
        obtain ⟨t, ht, rfl⟩ := hi
        exact hH t ht
      have sp2 := List.subperm_of_subset hn hsub2
      exact sp.perm_of_length_le sp2.length_le
  have havail : availableWindowsLoop settings currentDate
      (fixedTasksByDay fixedTasks) 180 (startOfDay currentDate) = [] :=
    availableWindowsLoop_inverted settings currentDate
      (fixedTasksByDay fixedTasks) hse 180 (startOfDay currentDate)
  simp only [suggestSchedule, havail]
  have hcw : chunkWindows settings [] = ([], []) := rfl
  rw [hcw]
  simp only [ite_self]
  refine ⟨?_, ?_, ?_, ?_⟩
  · exact (hFIT _ _ _ hPdeps hPnodup).1
  · trivial
  · rw [(hFIT (tasks.map (fun t =>
        { t with durationMinutes := roundToNearest15 t.durationMinutes }))
        ((tasks.map (fun t =>
          { t with durationMinutes := roundToNearest15 t.durationMinutes })).map
          Task.id)
        (fixedTasks.foldl (fun m t =>
          match t.scheduledEnd with
          | some e => mapSet m t.id e
          | none => m) [])
        hPdeps hPnodup).2.1]
    simp
  · rw [← hPids]
    exact (hFIT _ _ _ hPdeps hPnodup).2.2



/-- Claim C3, counterexample: a task whose duration (20 minutes) is not a
positive multiple of 15 is not rejected: the pass schedules it (with the
duration silently rounded to 15) and reports no error of any kind. -/
theorem C3_counterexample :
    c3Task.durationMinutes % 15 ≠ 0 ∧
    (suggestSchedule [c3Task] [] c3Now "" c3Settings).scheduled ≠ [] ∧
    (suggestSchedule [c3Task] [] c3Now "" c3Settings).unscheduled = [] ∧
    (suggestSchedule [c3Task] [] c3Now "" c3Settings).warnings = [] := by
  decide

/-- Witness for C3_amended on concrete inverted-hours settings. -/
theorem C3_amended_witness :
    c3BadSettings.workEndHour ≤ c3BadSettings.workStartHour ∧
    ((suggestSchedule [c3Task] [] c3Now "" c3BadSettings).scheduled = [] ∧
     (suggestSchedule [c3Task] [] c3Now "" c3BadSettings).breaks = [] ∧
     (suggestSchedule [c3Task] [] c3Now "" c3BadSettings).warnings = [] ∧
     ((suggestSchedule [c3Task] [] c3Now "" c3BadSettings).unscheduled.map
       (fun p => p.1.id)).Perm ([c3Task].map Task.id)) :=
  ⟨by decide, C3_amended c3BadSettings [c3Task] [] c3Now "" (by decide)
    (by decide) (by decide)⟩


/-! ### Claim C2: failed placements must revert their tentative splits -/

/-- Claim C2, code bug: when a picked task cannot be fully placed, the
source only discards the pending full-slot removals (slotsToRemove); the
in-place mid-slot truncations performed during the walk are not reverted.
Here task A consumes 10:00-10:30 tentatively and then fails against its
latest-end, leaving the slot list without that interval, so task B is
scheduled at 10:30 even though 10:00-10:30 is actually free: scheduling B
alone places it at 10:00. -/
theorem C2_code_bug :
    ((suggestSchedule [c2A, c2B] [] c3Now "" c3Settings).unscheduled.map
      (fun p => p.1.id)) = ["a"] ∧
    ((suggestSchedule [c2A, c2B] [] c3Now "" c3Settings).scheduled.map
      (fun t => (t.id, t.scheduledStart))) = [("b", some (c3Now + 37800000))] ∧
    ((suggestSchedule [c2B] [] c3Now "" c3Settings).scheduled.map
      (fun t => (t.id, t.scheduledStart))) = [("b", some (c3Now + 36000000))] := by
  decide


/-! ### Claim C4: 15-minute grid alignment of scheduled parts -/

theorem floorTo15_aligned (t : Int) : (900000 : Int) ∣ floorTo15 t := by
  unfold floorTo15 zeroSub subMinutes getMinutes
  omega

theorem floorTo15_le (t : Int) : floorTo15 t ≤ t := by
  unfold floorTo15 zeroSub subMinutes getMinutes
  omega

theorem zeroSub_mono {a b : Int} (h : a ≤ b) : zeroSub a ≤ zeroSub b := by
  unfold zeroSub
  omega

theorem ceilTo15_ge_zeroSub (t : Int) : zeroSub t ≤ ceilTo15 t := by
  unfold ceilTo15 zeroSub addMinutes getMinutes
  by_cases h : (t / 60000) % 60 % 15 = 0
  · rw [if_pos h]
  · rw [if_neg h]
    omega

theorem ceilTo15_le_add (t : Int) : ceilTo15 t ≤ t + 900000 := by
  unfold ceilTo15 zeroSub addMinutes getMinutes
  by_cases h : (t / 60000) % 60 % 15 = 0
  · rw [if_pos h]
    omega
  · rw [if_neg h]
    omega

theorem ceilTo15_whole (t : Int) : (60000 : Int) ∣ ceilTo15 t := by
  have := ceilTo15_aligned t
  unfold aligned15 at this
  omega

theorem differenceInMinutes_mul_of_dvd {a b : Int}
    (h : (60000 : Int) ∣ (a - b)) :
    differenceInMinutes a b * 60000 = a - b := by
  unfold differenceInMinutes
  rw [Int.tdiv_eq_ediv_of_dvd h]
  exact Int.ediv_mul_cancel h

/-- Every piece produced by subtracting a fixed interval from a window list
is a sub-interval of one of the windows. -/
theorem subtractFixed_sub (ws : List Slot) (a b : Int) :
    ∀ p ∈ subtractFixed ws a b,
      ∃ w ∈ ws, w.start ≤ p.start ∧ p.stop ≤ w.stop := by
  have main : ∀ (l : List Slot) (acc : List Slot),
      ∀ p ∈ l.foldl (fun acc win =>
        if ¬ (areIntervalsOverlapping win.start win.stop a b = true) then
          acc ++ [win]
        else
          (acc ++ (if win.start < a then
              [{ start := win.start, stop := a,
                 duration := differenceInMinutes a win.start }]
            else []))
            ++ (if win.stop > b then
              [{ start := b, stop := win.stop,
                 duration := differenceInMinutes win.stop b }]
            else [])) acc,
      p ∈ acc ∨ ∃ w ∈ l, w.start ≤ p.start ∧ p.stop ≤ w.stop := by
    intro l
    induction l with
    | nil => intro acc p hp; exact Or.inl hp
    | cons w rest ih =>
      intro acc p hp
      rw [List.foldl_cons] at hp
      rcases ih _ p hp with hacc | ⟨w2, hw2, hle⟩
      · by_cases hov : ¬ (areIntervalsOverlapping w.start w.stop a b = true)
        · rw [if_pos hov] at hacc
          rw [List.mem_append] at hacc
          rcases hacc with h1 | h1
          · exact Or.inl h1
          · rw [List.mem_singleton] at h1
            subst h1
            exact Or.inr ⟨p, List.mem_cons_self p rest, le_refl _, le_refl _⟩
        · rw [if_neg hov] at hacc
          rw [not_not] at hov
          unfold areIntervalsOverlapping at hov
          rw [Bool.and_eq_true, decide_eq_true_iff, decide_eq_true_iff] at hov
          rw [List.mem_append, List.mem_append] at hacc
          rcases hacc with (h1 | h1) | h1
          · exact Or.inl h1
          · by_cases hlt : w.start < a
            · rw [if_pos hlt] at h1
              rw [List.mem_singleton] at h1
              subst h1
              refine Or.inr ⟨w, List.mem_cons_self w rest, le_refl _, ?_⟩
              exact le_of_lt hov.2
            · rw [if_neg hlt] at h1
              simp at h1
          · by_cases hgt : w.stop > b
            · rw [if_pos hgt] at h1
              rw [List.mem_singleton] at h1
              subst h1
              refine Or.inr ⟨w, List.mem_cons_self w rest, ?_, le_refl _⟩
              exact le_of_lt hov.1
            · rw [if_neg hgt] at h1
              simp at h1
      · exact Or.inr ⟨w2, List.mem_cons_of_mem w hw2, hle⟩
  intro p hp
  rcases main ws [] p hp with h | h
  · simp at h
  · exact h



theorem ceilTo15_ge_of_whole_le {d t : Int} (hd : (60000 : Int) ∣ d)
    (h : d ≤ t) : d ≤ ceilTo15 t := by
  unfold ceilTo15 zeroSub addMinutes getMinutes
  by_cases hm : (t / 60000) % 60 % 15 = 0
  · rw [if_pos hm]
    omega
  · rw [if_neg hm]
    omega

/-- The windows of ones day's availability, over any subtraction state that
stays inside the work interval. -/
theorem subtractFold_sub (fs : List Task) (ws0 : List Slot) (lo hi : Int)
    (h0 : ∀ w ∈ ws0, lo ≤ w.start ∧ w.stop ≤ hi) :
    ∀ w ∈ fs.foldl (fun ws f =>
        subtractFixed ws (f.scheduledStart.getD 0) (f.scheduledEnd.getD 0)) ws0,
      lo ≤ w.start ∧ w.stop ≤ hi := by
  induction fs generalizing ws0 with
  | nil => exact h0
  | cons f rest ih =>
    intro w hw
    rw [List.foldl_cons] at hw
    refine ih _ ?_ w hw
    intro p hp
    obtain ⟨w2, hw2, h1, h2⟩ := subtractFixed_sub _ _ _ p hp
    have h3 := h0 w2 hw2
    exact ⟨le_trans h3.1 h1, le_trans h2 h3.2⟩

/-- Every window of one day is grid-aligned and single-day. -/
theorem dayWindowsCore_ok (fb : List (Int × List Task))
    (iterDate workStart workEnd : Int)
    (h60 : (60000 : Int) ∣ workStart)
    (hstop : workEnd ≤ (workStart / 86400000) * 86400000 + 82800000) :
    ∀ w ∈ dayWindowsCore fb iterDate workStart workEnd, SlotOK w := by
  intro w hw
  unfold dayWindowsCore at hw
  split at hw
  · simp at hw
  rename_i hguard
  rw [List.mem_filter] at hw
  obtain ⟨hw, hdur⟩ := hw
  rw [List.mem_filterMap] at hw
  obtain ⟨win, hwin, heq⟩ := hw
  split at heq
  · simp at heq
  rename_i hcf
  rw [Option.some.injEq] at heq
  subst heq
  have hcont : workStart ≤ win.start ∧ win.stop ≤ workEnd := by
    refine subtractFold_sub _ _ workStart workEnd ?_ win hwin
    intro w0 hw0
    rw [List.mem_singleton] at hw0
    subst hw0
    exact ⟨le_refl _, le_refl _⟩
  have ha := ceilTo15_aligned win.start
  unfold aligned15 at ha
  have hb := floorTo15_aligned win.stop
  have hc := floorTo15_le win.stop
  have hd : workStart ≤ ceilTo15 win.start :=
    ceilTo15_ge_of_whole_le h60 hcont.1
  unfold SlotOK
  dsimp only
  refine ⟨ha, hb, ?_⟩
  have h2 := hcont.2
  omega

/-- Every window the availability scan emits for one day is grid-aligned
and single-day. -/
theorem dayWindowsFor_ok (settings : UserSettings) (currentDate : Int)
    (fb : List (Int × List Task)) (iterDate : Int)
    (hws : 0 ≤ settings.workStartHour) (hwe : settings.workEndHour ≤ 23) :
    ∀ w ∈ dayWindowsFor settings currentDate fb iterDate, SlotOK w := by
  intro w hw
  simp only [dayWindowsFor] at hw
  split at hw
  rotate_left
  · simp at hw
  rw [ceilTo15_setMinutes_setHours, floorTo15_setMinutes_setHours] at hw
  unfold startOfDay at hw
  split at hw
  · rename_i hclamp
    refine dayWindowsCore_ok fb iterDate _ _ (ceilTo15_whole currentDate) ?_ w hw
    have hA : (iterDate / 86400000) * 86400000 ≤ ceilTo15 currentDate := by
      refine ceilTo15_ge_of_whole_le ⟨(iterDate / 86400000) * 1440, by ring⟩ ?_
      have := hclamp.1
      omega
    have hB := ceilTo15_le_add currentDate
    have h1 := hclamp.1
    have h2 := hclamp.2
    omega
  split at hw
  · simp at hw
  · rename_i h1 h2
    refine dayWindowsCore_ok fb iterDate _ _
      ⟨(iterDate / 86400000) * 1440 + settings.workStartHour * 60, by ring⟩ ?_ w hw
    omega

/-- Every window of the 180-day availability loop is grid-aligned and
single-day. -/
theorem availableWindowsLoop_ok (settings : UserSettings) (currentDate : Int)
    (fb : List (Int × List Task))
    (hws : 0 ≤ settings.workStartHour) (hwe : settings.workEndHour ≤ 23) :
    ∀ (n : Nat) (d : Int),
      ∀ w ∈ availableWindowsLoop settings currentDate fb n d, SlotOK w := by
  intro n
  induction n with
  | zero =>
    intro d w hw
    simp [availableWindowsLoop] at hw
  | succ m ih =>
    intro d w hw
    rw [availableWindowsLoop, List.mem_append] at hw
    rcases hw with hw | hw
    · exact dayWindowsFor_ok settings currentDate fb d hws hwe w hw
    · exact ih _ w hw



theorem roundToNearest15_dvd (m : Int) : (15 : Int) ∣ roundToNearest15 m := by
  unfold roundToNearest15
  by_cases h : ((2 * m + 15) / 30) * 15 < 15
  · rw [if_pos h]
  · rw [if_neg h]
    exact Dvd.intro _ (by ring)

theorem dvd_min15 {a b : Int} (ha : (15 : Int) ∣ a) (hb : (15 : Int) ∣ b) :
    (15 : Int) ∣ min a b := by
  rcases le_total a b with h | h
  · rw [min_eq_left h]
    exact ha
  · rw [min_eq_right h]
    exact hb

/-- The chunk and break amounts are 15-multiples that fit before the window
end. -/
theorem chunkAmount_ok (x wStop cursor : Int) (hlt : cursor ≤ wStop) :
    (15 : Int) ∣ min (roundToNearest15 x)
      ((differenceInMinutes wStop cursor / 15) * 15) ∧
    min (roundToNearest15 x) ((differenceInMinutes wStop cursor / 15) * 15)
      * 60000 ≤ wStop - cursor := by
  have hd : differenceInMinutes wStop cursor * 60000 ≤ wStop - cursor ∧
      0 ≤ differenceInMinutes wStop cursor := by
    unfold differenceInMinutes
    rw [Int.tdiv_eq_ediv (by omega) (by norm_num)]
    omega
  refine ⟨dvd_min15 (roundToNearest15_dvd x) (Dvd.intro _ (by ring)), ?_⟩
  rcases le_total (roundToNearest15 x)
      ((differenceInMinutes wStop cursor / 15) * 15) with h | h
  · rw [min_eq_left h]
    omega
  · rw [min_eq_right h]
    omega

/-- Advancing an aligned cursor by a 15-multiple of minutes inside the
window keeps it aligned and in the same civil day. -/
theorem chunkAdvance_ok {cursor wStop amt : Int}
    (hal : (900000 : Int) ∣ cursor)
    (hday : wStop ≤ (cursor / 86400000) * 86400000 + 82800000)
    (h15 : (15 : Int) ∣ amt) (h0 : 0 ≤ amt)
    (hle : cursor + amt * 60000 ≤ wStop) :
    (900000 : Int) ∣ (cursor + amt * 60000) ∧
    wStop ≤ ((cursor + amt * 60000) / 86400000) * 86400000 + 82800000 := by
  obtain ⟨q, hq⟩ := hal
  obtain ⟨k, hk⟩ := h15
  constructor
  · exact ⟨q + k, by rw [hq, hk]; ring⟩
  · subst hq hk
    omega

/-- Every focus slot the chunk walk emits inside a grid-aligned single-day
window is itself grid-aligned and single-day. -/
theorem chunkLoop_slots_ok (settings : UserSettings) (wStop : Int) :
    ∀ (fuel : Nat) (cursor c : Int),
      (900000 : Int) ∣ cursor →
      wStop ≤ (cursor / 86400000) * 86400000 + 82800000 →
      ∀ s ∈ (chunkLoop settings wStop fuel cursor c).1, SlotOK s := by
  intro fuel
  induction fuel with
  | zero =>
    intro cursor c h1 h2 s hs
    simp [chunkLoop] at hs
  | succ n ih =>
    intro cursor c hal hday s hs
    simp only [chunkLoop] at hs
    split at hs
    rotate_left
    · simp at hs
    rename_i hc
    split at hs
    · simp at hs
    rename_i hrem
    split at hs
    · simp at hs
    rename_i hwd
    obtain ⟨hwd15, hwdle⟩ :=
      chunkAmount_ok settings.workChunkMinutes wStop cursor (le_of_lt hc)
    have hwd0 : 0 ≤ min (roundToNearest15 settings.workChunkMinutes)
        ((differenceInMinutes wStop cursor / 15) * 15) := by omega
    obtain ⟨halwe, hdaywe⟩ := chunkAdvance_ok hal hday hwd15 hwd0 (by omega)
    have hSok : SlotOK
        { start := cursor,
          stop := addMinutes cursor
            (min (roundToNearest15 settings.workChunkMinutes)
              ((differenceInMinutes wStop cursor / 15) * 15)),
          duration := min (roundToNearest15 settings.workChunkMinutes)
            ((differenceInMinutes wStop cursor / 15) * 15) } := by
      unfold SlotOK addMinutes
      dsimp only
      exact ⟨hal, halwe, by omega⟩
    have hstep : ∀ (c2 : Int),
        ∀ s2 ∈ (chunkLoop settings wStop n
          (addMinutes cursor (min (roundToNearest15 settings.workChunkMinutes)
            ((differenceInMinutes wStop cursor / 15) * 15))) c2).1, SlotOK s2 := by
      intro c2 s2 hs2
      exact ih _ c2 halwe hdaywe s2 hs2
    split at hs
    · rename_i hroom
      split at hs
      · rename_i hL
        split at hs
        · rename_i hbd
          rw [List.mem_cons] at hs
          rcases hs with hs | hs
          · subst hs
            exact hSok
          · obtain ⟨hbd15, hbdle⟩ := chunkAmount_ok settings.longBreakMinutes
              wStop (addMinutes cursor
                (min (roundToNearest15 settings.workChunkMinutes)
                  ((differenceInMinutes wStop cursor / 15) * 15)))
              (by unfold addMinutes; omega)
            have hbd0 : 0 ≤ min (roundToNearest15 settings.longBreakMinutes)
                ((differenceInMinutes wStop (addMinutes cursor
                  (min (roundToNearest15 settings.workChunkMinutes)
                    ((differenceInMinutes wStop cursor / 15) * 15))) / 15)
                  * 15) := by omega
            obtain ⟨halbe, hdaybe⟩ := chunkAdvance_ok halwe hdaywe hbd15 hbd0
              (by unfold addMinutes at *; omega)
            exact ih _ (c + 1) halbe hdaybe s hs
        · rename_i hbd
          rw [List.mem_cons] at hs
          rcases hs with hs | hs
          · subst hs
            exact hSok
          · exact hstep (c + 1) s hs
      · rename_i hL
        split at hs
        · rename_i hbd
          rw [List.mem_cons] at hs
          rcases hs with hs | hs
          · subst hs
            exact hSok
          · obtain ⟨hbd15, hbdle⟩ := chunkAmount_ok settings.shortBreakMinutes
              wStop (addMinutes cursor
                (min (roundToNearest15 settings.workChunkMinutes)
                  ((differenceInMinutes wStop cursor / 15) * 15)))
              (by unfold addMinutes; omega)
            have hbd0 : 0 ≤ min (roundToNearest15 settings.shortBreakMinutes)
                ((differenceInMinutes wStop (addMinutes cursor
                  (min (roundToNearest15 settings.workChunkMinutes)
                    ((differenceInMinutes wStop cursor / 15) * 15))) / 15)
                  * 15) := by omega
            obtain ⟨halbe, hdaybe⟩ := chunkAdvance_ok halwe hdaywe hbd15 hbd0
              (by unfold addMinutes at *; omega)
            exact ih _ (c + 1) halbe hdaybe s hs
        · rename_i hbd
          rw [List.mem_cons] at hs
          rcases hs with hs | hs
          · subst hs
            exact hSok
          · exact hstep (c + 1) s hs
    · rename_i hroom
      rw [List.mem_cons] at hs
      rcases hs with hs | hs
      · subst hs
        exact hSok
      · exact hstep (c + 1) s hs

/-- Every focus slot of the Rhythm Engine over grid-aligned single-day
windows is grid-aligned and single-day. -/
theorem chunkWindows_slots_ok (settings : UserSettings) (windows : List Slot)
    (hws : ∀ w ∈ windows, SlotOK w) :
    ∀ s ∈ (chunkWindows settings windows).1, SlotOK s := by
  unfold chunkWindows
  have main : ∀ (l : List Slot), (∀ w ∈ l, SlotOK w) →
      ∀ (acc : List Slot × List Task × Int), (∀ s ∈ acc.1, SlotOK s) →
      ∀ s ∈ (l.foldl (fun (acc : List Slot × List Task × Int) w =>
        let r := chunkLoop settings w.stop (w.duration.toNat + 1) w.start acc.2.2
        (acc.1 ++ r.1, acc.2.1 ++ r.2.1, r.2.2)) acc).1, SlotOK s := by
    intro l
    induction l with
    | nil => intro _ acc hacc s hs; exact hacc s hs
    | cons w rest ih =>
      intro hl acc hacc s hs
      rw [List.foldl_cons] at hs
      refine ih (fun w2 hw2 => hl w2 (List.mem_cons_of_mem w hw2)) _ ?_ s hs
      intro s2 hs2
      rw [List.mem_append] at hs2
      rcases hs2 with hs2 | hs2
      · exact hacc s2 hs2
      · have hok := hl w (List.mem_cons_self w rest)
        unfold SlotOK at hok
        exact chunkLoop_slots_ok settings w.stop (w.duration.toNat + 1)
          w.start acc.2.2 hok.1 hok.2.2 s2 hs2
  intro s hs
  exact main windows hws ([], [], 0) (by intro s2 hs2; simp at hs2) s hs




/-- A successful slot fit inside a grid-aligned single-day slot, against a
latest ceiling that is grid-aligned or an end-of-day instant, yields a
grid-aligned sub-interval of positive 15-multiple length. -/
theorem slotFit_grid {slot : Slot} {depC : Int} {latestC : Option Int}
    {u stop avail : Int}
    (hok : SlotOK slot)
    (hlat : ∀ l, latestC = some l →
      (900000 : Int) ∣ l ∨ l % 86400000 = 86399999)
    (h : slotFit slot depC latestC = some (u, stop, avail)) :
    (900000 : Int) ∣ u ∧ (900000 : Int) ∣ stop ∧ slot.start ≤ u ∧ u < stop ∧
    stop ≤ slot.stop ∧ avail * 60000 = stop - u ∧ (15 : Int) ∣ avail ∧
    15 ≤ avail := by
  obtain ⟨hs1, hs2, hs3⟩ := hok
  have hs60 : (60000 : Int) ∣ slot.start := by
    obtain ⟨k, hk⟩ := hs1
    exact ⟨15 * k, by rw [hk]; ring⟩
  unfold slotFit at h
  split at h
  · simp at h
  rename_i hdur
  split at h
  · simp at h
  rename_i hblock
  split at h
  · simp at h
  rename_i hgt
  split at h
  · simp at h
  rename_i hdiff
  rw [Option.some.injEq, Prod.mk.injEq, Prod.mk.injEq] at h
  obtain ⟨h1, h2, h3⟩ := h
  have hu_al : (900000 : Int) ∣ usableStartIn slot depC := by
    unfold usableStartIn
    split
    · exact ceilTo15_aligned depC
    · exact hs1
  have hu_ge : slot.start ≤ usableStartIn slot depC := by
    unfold usableStartIn
    split
    · rename_i hlt
      exact ceilTo15_ge_of_whole_le hs60 (le_of_lt hlt)
    · exact le_refl _
  have hu_lt : usableStartIn slot depC < slotStopIn slot latestC := by
    rcases lt_trichotomy (usableStartIn slot depC) (slotStopIn slot latestC)
      with hx | hx | hx
    · exact hx
    · exact absurd (Or.inr hx) hgt
    · exact absurd (Or.inl hx) hgt
  have hstop_facts : (900000 : Int) ∣ slotStopIn slot latestC ∧
      slotStopIn slot latestC ≤ slot.stop := by
    unfold slotStopIn
    cases hlc : latestC with
    | none => exact ⟨hs2, le_refl _⟩
    | some l =>
      dsimp only
      rcases hlat l hlc with hl | hl
      · split
        · rename_i hlt
          exact ⟨hl, le_of_lt hlt⟩
        · exact ⟨hs2, le_refl _⟩
      · split
        · rename_i hlt
          exfalso
          have hnb : ¬ (l < usableStartIn slot depC) := by
            intro hcon
            apply hblock
            unfold latestBlocks
            rw [hlc]
            exact decide_eq_true hcon
          obtain ⟨q, hq⟩ := hs1
          omega
        · exact ⟨hs2, le_refl _⟩
  have hdvd : (60000 : Int) ∣ (slotStopIn slot latestC - usableStartIn slot depC) := by
    obtain ⟨k1, hk1⟩ := hu_al
    obtain ⟨k2, hk2⟩ := hstop_facts.1
    exact ⟨15 * (k2 - k1), by rw [hk1, hk2]; ring⟩
  have hmul := differenceInMinutes_mul_of_dvd hdvd
  subst h1 h2 h3
  refine ⟨hu_al, hstop_facts.1, hu_ge, hu_lt, hstop_facts.2, hmul, ?_, by omega⟩
  obtain ⟨k1, hk1⟩ := hu_al
  obtain ⟨k2, hk2⟩ := hstop_facts.1
  omega



/-- The fitting walk preserves grid-aligned single-day slots and emits only
grid-aligned parts. -/
theorem fitWalk_grid (settings : UserSettings) (task : Task) (depC : Int)
    (latestC : Option Int)
    (hlat : ∀ l, latestC = some l →
      (900000 : Int) ∣ l ∨ l % 86400000 = 86399999) :
    ∀ (fuel : Nat) (st : WalkState),
      (∀ p ∈ st.done, SlotOK p.1) → (∀ s ∈ st.todo, SlotOK s) →
      (15 : Int) ∣ st.remaining → 0 < st.remaining →
      (∀ p ∈ st.parts, gridPart p) →
      (∀ p ∈ (fitWalk settings task depC latestC fuel st).done, SlotOK p.1) ∧
      (∀ s ∈ (fitWalk settings task depC latestC fuel st).todo, SlotOK s) ∧
      (∀ p ∈ (fitWalk settings task depC latestC fuel st).parts, gridPart p) := by
  intro fuel
  induction fuel with
  | zero =>
    intro st hdone htodo hrem hpos hparts
    exact ⟨hdone, htodo, hparts⟩
  | succ n ih =>
    intro st hdone htodo hrem hpos hparts
    obtain ⟨done, todo, remaining, parts, lastEnd⟩ := st
    dsimp only at hdone htodo hrem hpos hparts
    cases todo with
    | nil =>
      simp only [fitWalk]
      exact ⟨hdone, htodo, hparts⟩
    | cons slot rest =>
      have hslot : SlotOK slot := htodo slot (List.mem_cons_self slot rest)
      have hrest : ∀ s ∈ rest, SlotOK s :=
        fun s hs => htodo s (List.mem_cons_of_mem slot hs)
      simp only [fitWalk]
      cases hsf : slotFit slot depC latestC with
      | none =>
        dsimp only
        refine ih _ ?_ hrest hrem hpos hparts
        intro p hp
        rw [List.mem_append] at hp
        rcases hp with hp | hp
        · exact hdone p hp
        · rw [List.mem_singleton] at hp
          subst hp
          exact hslot
      | some tup =>
        obtain ⟨u, stop2, avail⟩ := tup
        obtain ⟨hual, hstal, huge, hult, hstle, hmul, havdvd, havge⟩ :=
          slotFit_grid hslot hlat hsf
        dsimp only
        have hf15 : (15 : Int) ∣ min avail remaining := dvd_min15 havdvd hrem
        have hfpos : 0 < min avail remaining := lt_min (by omega) hpos
        have hfle : min avail remaining ≤ avail := min_le_left _ _
        have hrem2 : (15 : Int) ∣ (remaining - min avail remaining) :=
          dvd_sub hrem hf15
        obtain ⟨ku, hku⟩ := hual
        obtain ⟨kf, hkf⟩ := hf15
        have hpe_al : (900000 : Int) ∣ addMinutes u (min avail remaining) := by
          unfold addMinutes
          exact ⟨ku + kf, by rw [hku, hkf]; ring⟩
        have hpe_le : addMinutes u (min avail remaining) ≤ slot.stop := by
          unfold addMinutes
          omega
        have hpe_gt : u < addMinutes u (min avail remaining) := by
          unfold addMinutes
          omega
        have hpart : gridPart (mkPart settings task parts.length remaining
            (min avail remaining) u) := by
          unfold gridPart mkPart
          refine ⟨u, addMinutes u (min avail remaining), rfl, rfl, ⟨ku, hku⟩,
            hpe_al, ?_, ⟨kf, hkf⟩, hfpos⟩
          unfold addMinutes
          rfl
        have hslotKeep := hslot
        obtain ⟨hq1, hq2, hq3⟩ := hslot
        have htrimA : SlotOK (⟨addMinutes u (min avail remaining), slot.stop,
            differenceInMinutes slot.stop
              (addMinutes u (min avail remaining))⟩ : Slot) := by
          unfold SlotOK
          dsimp only
          refine ⟨hpe_al, hq2, ?_⟩
          unfold addMinutes at hpe_gt hpe_le ⊢
          omega
        have htrimB : SlotOK (⟨slot.start, u,
            differenceInMinutes u slot.start⟩ : Slot) := by
          unfold SlotOK
          dsimp only
          refine ⟨hq1, ⟨ku, hku⟩, ?_⟩
          omega
        have hparts2 : ∀ p ∈ parts ++ [mkPart settings task parts.length
            remaining (min avail remaining) u], gridPart p := by
          intro p hp
          rw [List.mem_append] at hp
          rcases hp with hp | hp
          · exact hparts p hp
          · rw [List.mem_singleton] at hp
            subst hp
            exact hpart
        have step : ∀ (st2 : WalkState),
            (∀ p ∈ st2.done, SlotOK p.1) → (∀ s ∈ st2.todo, SlotOK s) →
            ((15 : Int) ∣ st2.remaining) →
            (st2.remaining = remaining - min avail remaining) →
            (∀ p ∈ st2.parts, gridPart p) →
            (∀ p ∈ (if remaining - min avail remaining ≤ 0 then st2
              else fitWalk settings task depC latestC n st2).done, SlotOK p.1) ∧
            (∀ s ∈ (if remaining - min avail remaining ≤ 0 then st2
              else fitWalk settings task depC latestC n st2).todo, SlotOK s) ∧
            (∀ p ∈ (if remaining - min avail remaining ≤ 0 then st2
              else fitWalk settings task depC latestC n st2).parts,
              gridPart p) := by
          intro st2 h1 h2 h3 h4 h5
          split
          · exact ⟨h1, h2, h5⟩
          · rename_i hng
            exact ih st2 h1 h2 h3 (by omega) h5
        refine step _ ?_ ?_ ?_ ?_ ?_
        · split
          · split
            · intro p hp
              dsimp only at hp
              rw [List.mem_append] at hp
              rcases hp with hp | hp
              · exact hdone p hp
              · rw [List.mem_singleton] at hp
                subst hp
                exact hslotKeep
            · intro p hp
              dsimp only at hp
              rw [List.mem_append] at hp
              rcases hp with hp | hp
              · exact hdone p hp
              · rw [List.mem_singleton] at hp
                subst hp
                exact htrimA
          · split
            · intro p hp
              dsimp only at hp
              rw [List.mem_append] at hp
              rcases hp with hp | hp
              · exact hdone p hp
              · rw [List.mem_singleton] at hp
                subst hp
                exact htrimB
            · intro p hp
              dsimp only at hp
              rw [List.mem_append] at hp
              rcases hp with hp | hp
              · exact hdone p hp
              · rw [List.mem_singleton] at hp
                subst hp
                exact htrimB
        · split
          · split
            · exact hrest
            · exact hrest
          · split
            · intro s hs
              dsimp only at hs
              rw [List.mem_cons] at hs
              rcases hs with hs | hs
              · subst hs
                exact htrimA
              · exact hrest s hs
            · exact hrest
        · split
          · split
            · exact hrem2
            · exact hrem2
          · split
            · exact hrem2
            · exact hrem2
        · split
          · split
            · rfl
            · rfl
          · split
            · rfl
            · rfl
        · split
          · split
            · exact hparts2
            · exact hparts2
          · split
            · exact hparts2
            · exact hparts2



/-- The latest ceiling of a task with grid-aligned explicit latest end is
grid-aligned or an end-of-day instant. -/
theorem latestConstraint_shape (task : Task)
    (hlatest : ∀ l, task.latestEnd = some l → (900000 : Int) ∣ l) :
    ∀ l, latestConstraint task = some l →
      (900000 : Int) ∣ l ∨ l % 86400000 = 86399999 := by
  intro l hl
  unfold latestConstraint at hl
  cases hd : task.deadline with
  | none =>
    cases he : task.latestEnd with
    | none =>
      rw [hd, he] at hl
      dsimp only [Option.map] at hl
      simp at hl
    | some e =>
      rw [hd, he] at hl
      dsimp only [Option.map] at hl
      rw [Option.some.injEq] at hl
      subst hl
      exact Or.inl (hlatest e he)
  | some d =>
    cases he : task.latestEnd with
    | none =>
      rw [hd, he] at hl
      dsimp only [Option.map] at hl
      rw [Option.some.injEq] at hl
      subst hl
      right
      unfold endOfDay startOfDay
      omega
    | some e =>
      rw [hd, he] at hl
      dsimp only [Option.map] at hl
      rw [Option.some.injEq] at hl
      subst hl
      split
      · right
        unfold endOfDay startOfDay
        omega
      · exact Or.inl (hlatest e he)

/-- Placing one grid-respecting task preserves the slot invariant and emits
only grid-aligned parts. -/
theorem placeTask_grid (settings : UserSettings) (currentDate : Int)
    (st : FitState) (task : Task)
    (hslots : ∀ s ∈ st.slots, SlotOK s)
    (hsched : ∀ p ∈ st.scheduled, gridPart p)
    (hlatest : ∀ l, task.latestEnd = some l → (900000 : Int) ∣ l)
    (hdur : (15 : Int) ∣ task.durationMinutes)
    (hdpos : 0 < task.durationMinutes) :
    (∀ s ∈ (placeTask settings currentDate st task).slots, SlotOK s) ∧
    (∀ p ∈ (placeTask settings currentDate st task).scheduled, gridPart p) := by
  have hlat := latestConstraint_shape task hlatest
  simp only [placeTask]
  obtain ⟨w1, w2, w3⟩ := fitWalk_grid settings task
    (dependencyConstraint st.completion currentDate task)
    (latestConstraint task) hlat
    (st.slots.length + task.durationMinutes.toNat + 2)
    { done := (st.slots.take (energyStartIndex st.slots task
        (dependencyConstraint st.completion currentDate task)
        (latestConstraint task))).map (fun s => (s, false)),
      todo := st.slots.drop (energyStartIndex st.slots task
        (dependencyConstraint st.completion currentDate task)
        (latestConstraint task)),
      remaining := task.durationMinutes, parts := [], lastEnd := none }
    (by
      intro p hp
      rw [List.mem_map] at hp
      obtain ⟨s0, hs0, rfl⟩ := hp
      exact hslots s0 (List.take_subset _ _ hs0))
    (by
      intro s hs
      exact hslots s (List.drop_subset _ _ hs))
    hdur hdpos
    (by intro p hp; simp at hp)
  split
  · constructor
    · intro s hs
      dsimp only at hs
      rw [List.mem_append] at hs
      rcases hs with hs | hs
      · rw [List.mem_map] at hs
        obtain ⟨p, hpf, rfl⟩ := hs
        exact w1 p (List.mem_of_mem_filter hpf)
      · exact w2 s hs
    · intro p hp
      dsimp only at hp
      rw [List.mem_append] at hp
      rcases hp with hp | hp
      · exact hsched p hp
      · exact w3 p hp
  · constructor
    · intro s hs
      dsimp only at hs
      rw [List.mem_append] at hs
      rcases hs with hs | hs
      · rw [List.mem_map] at hs
        obtain ⟨p, hpf, rfl⟩ := hs
        exact w1 p hpf
      · exact w2 s hs
    · intro p hp
      dsimp only at hp
      exact hsched p hp

/-- The task-fitting loop preserves the slot invariant and schedules only
grid-aligned parts, provided every pending task carries an aligned latest
end and a positive 15-multiple duration. -/
theorem fitLoop_grid (settings : UserSettings) (currentDate : Int)
    (pending : List Task) (pendingIds : List String)
    (hts : ∀ t ∈ pending,
      (∀ l, t.latestEnd = some l → (900000 : Int) ∣ l) ∧
      (15 : Int) ∣ t.durationMinutes ∧ 0 < t.durationMinutes) :
    ∀ (fuel : Nat) (st : FitState),
      (∀ s ∈ st.slots, SlotOK s) → (∀ p ∈ st.scheduled, gridPart p) →
      (∀ s ∈ (fitLoop settings currentDate pending pendingIds fuel st).slots,
        SlotOK s) ∧
      (∀ p ∈ (fitLoop settings currentDate pending pendingIds fuel st).scheduled,
        gridPart p) := by
  intro fuel
  induction fuel with
  | zero =>
    intro st h1 h2
    exact ⟨h1, h2⟩
  | succ n ih =>
    intro st h1 h2
    rw [fitLoop]
    split
    rotate_left
    · exact ⟨h1, h2⟩
    cases hpick : pickTask pending pendingIds st with
    | none => exact ⟨h1, h2⟩
    | some task =>
      have htask := (pickTask_some pending pendingIds st task hpick).1
      obtain ⟨hl, hd, hp⟩ := hts task htask
      obtain ⟨g1, g2⟩ := placeTask_grid settings currentDate
        { st with alternateTodo := ¬ st.alternateTodo,
                  processed := st.processed ++ [task.id] } task h1 h2 hl hd hp
      exact ih _ g1 g2



/-- Claim C4, amended: provided the work hours are sane (start hour
nonnegative, end hour at most 23) and every explicit latest end lies on the
15-minute grid, every scheduled part has both endpoints present, on the
15-minute grid (zero seconds and sub-seconds), with the end exactly
duration minutes after the start and the duration a positive multiple
of 15.  Without the latest-end restriction the claim fails: an off-grid
latest end leaves an off-grid residue slot behind (see the counterexample),
so parts clipped by an arbitrary explicit latest-end constraint are not
grid-aligned in general. -/
theorem C4_amended (settings : UserSettings) (tasks fixedTasks : List Task)
    (currentDate : Int) (prof : String)
    (hws : 0 ≤ settings.workStartHour) (hwe : settings.workEndHour ≤ 23)
    (hlat : ∀ t ∈ tasks, ∀ l, t.latestEnd = some l → (900000 : Int) ∣ l) :
    ∀ p ∈ (suggestSchedule tasks fixedTasks currentDate prof settings).scheduled,
      ∃ s e : Int, p.scheduledStart = some s ∧ p.scheduledEnd = some e ∧
        aligned15 s ∧ aligned15 e ∧ e = s + p.durationMinutes * 60000 ∧
        (15 : Int) ∣ p.durationMinutes ∧ 0 < p.durationMinutes := by
  have key : ∀ (pend : List Task) (pids : List String) (slots0 : List Slot)
      (comp : List (String × Int)),
      (∀ t ∈ pend,
        (∀ l, t.latestEnd = some l → (900000 : Int) ∣ l) ∧
        (15 : Int) ∣ t.durationMinutes ∧ 0 < t.durationMinutes) →
      (∀ s ∈ slots0, SlotOK s) →
      ∀ p ∈ (fitLoop settings currentDate pend pids (pend.length + 1)
        { slots := slots0, scheduled := [], completion := comp,
          unscheduled := [], processed := [], alternateTodo := true,
          scheduledHighTodo := false }).scheduled,
        gridPart p := by
    intro pend pids slots0 comp h1 h2 p hp
    exact (fitLoop_grid settings currentDate pend pids h1 (pend.length + 1)
      { slots := slots0, scheduled := [], completion := comp,
        unscheduled := [], processed := [], alternateTodo := true,
        scheduledHighTodo := false } h2 (by intro q hq; simp at hq)).2 p hp
  have hwin := availableWindowsLoop_ok settings currentDate
    (fixedTasksByDay fixedTasks) hws hwe 180 (startOfDay currentDate)
  have hchunk : ∀ (b : Bool) (av : List Slot), (∀ w ∈ av, SlotOK w) →
      ∀ s ∈ (if b = true then chunkWindows settings av else (av, [])).1,
        SlotOK s := by
    intro b av hav s hs
    cases b with
    | false =>
      rw [if_neg (by simp)] at hs
      exact hav s hs
    | true =>
      rw [if_pos rfl] at hs
      exact chunkWindows_slots_ok settings av hav s hs
  have hts : ∀ t ∈ tasks.map (fun t =>
      { t with durationMinutes := roundToNearest15 t.durationMinutes }),
      (∀ l, t.latestEnd = some l → (900000 : Int) ∣ l) ∧
      (15 : Int) ∣ t.durationMinutes ∧ 0 < t.durationMinutes := by
    intro t ht
    rw [List.mem_map] at ht
    obtain ⟨t0, ht0, rfl⟩ := ht
    dsimp only
    refine ⟨fun l hl => hlat t0 ht0 l hl, roundToNearest15_dvd _, ?_⟩
    have := roundToNearest15_ge t0.durationMinutes
    omega
  intro p hp
  simp only [suggestSchedule] at hp
  exact (key _ _ _ _ hts
    (hchunk settings.enableChunking _ hwin) p hp).elim
    (fun s hrest => hrest.elim (fun e hfacts =>
      ⟨s, e, hfacts.1, hfacts.2.1, hfacts.2.2.1, hfacts.2.2.2.1,
        hfacts.2.2.2.2.1, hfacts.2.2.2.2.2.1, hfacts.2.2.2.2.2.2⟩))



/-- Claim C4, counterexample: an off-grid latest end (10:37) makes a task
fail after tentatively consuming up to 10:37; the truncated slot starting
10:37 persists, and the next task is scheduled at 10:37 — a start that is
not on the 15-minute grid. -/
theorem C4_counterexample :
    ((suggestSchedule [c4A, c2B] [] c3Now "" c3Settings).scheduled.map
      (fun t => t.scheduledStart)) = [some (c3Now + 38220000)] ∧
    ¬ aligned15 (c3Now + 38220000) := by
  decide

/-- Witness for C4_amended on the concrete single-task plan. -/
theorem C4_amended_witness :
    0 ≤ c3Settings.workStartHour ∧ c3Settings.workEndHour ≤ 23 ∧
    (∀ t ∈ [c3Task], ∀ l, t.latestEnd = some l → (900000 : Int) ∣ l) ∧
    (∀ p ∈ (suggestSchedule [c3Task] [] c3Now "" c3Settings).scheduled,
      ∃ s e : Int, p.scheduledStart = some s ∧ p.scheduledEnd = some e ∧
        aligned15 s ∧ aligned15 e ∧ e = s + p.durationMinutes * 60000 ∧
        (15 : Int) ∣ p.durationMinutes ∧ 0 < p.durationMinutes) :=
  ⟨by decide, by decide, by decide,
    C4_amended c3Settings [c3Task] [] c3Now "" (by decide) (by decide)
      (by decide)⟩


/-! ### Claim C5: dependency respect -/

/-! Whole-minute (60000-divisibility) chain, unconditional. -/

theorem dayWindowsCore_wm (fb : List (Int × List Task))
    (iterDate workStart workEnd : Int) :
    ∀ w ∈ dayWindowsCore fb iterDate workStart workEnd,
      (60000 : Int) ∣ w.start := by
  intro w hw
  unfold dayWindowsCore at hw
  split at hw
  · simp at hw
  rw [List.mem_filter] at hw
  obtain ⟨hw, _⟩ := hw
  rw [List.mem_filterMap] at hw
  obtain ⟨win, hwin, heq⟩ := hw
  split at heq
  · simp at heq
  rw [Option.some.injEq] at heq
  subst heq
  exact ceilTo15_whole win.start

theorem dayWindowsFor_wm (settings : UserSettings) (currentDate : Int)
    (fb : List (Int × List Task)) (iterDate : Int) :
    ∀ w ∈ dayWindowsFor settings currentDate fb iterDate,
      (60000 : Int) ∣ w.start := by
  intro w hw
  simp only [dayWindowsFor] at hw
  split at hw
  rotate_left
  · simp at hw
  split at hw
  · exact dayWindowsCore_wm _ _ _ _ w hw
  split at hw
  · simp at hw
  · exact dayWindowsCore_wm _ _ _ _ w hw

theorem availableWindowsLoop_wm (settings : UserSettings) (currentDate : Int)
    (fb : List (Int × List Task)) :
    ∀ (n : Nat) (d : Int),
      ∀ w ∈ availableWindowsLoop settings currentDate fb n d,
        (60000 : Int) ∣ w.start := by
  intro n
  induction n with
  | zero =>
    intro d w hw
    simp [availableWindowsLoop] at hw
  | succ m ih =>
    intro d w hw
    rw [availableWindowsLoop, List.mem_append] at hw
    rcases hw with hw | hw
    · exact dayWindowsFor_wm settings currentDate fb d w hw
    · exact ih _ w hw

theorem chunkLoop_wm (settings : UserSettings) (wStop : Int) :
    ∀ (fuel : Nat) (cursor c : Int), (60000 : Int) ∣ cursor →
      ∀ s ∈ (chunkLoop settings wStop fuel cursor c).1,
        (60000 : Int) ∣ s.start := by
  intro fuel
  induction fuel with
  | zero =>
    intro cursor c h s hs
    simp [chunkLoop] at hs
  | succ n ih =>
    intro cursor c hal s hs
    simp only [chunkLoop] at hs
    split at hs
    rotate_left
    · simp at hs
    split at hs
    · simp at hs
    split at hs
    · simp at hs
    have hwe : ∀ (base amt : Int), (60000 : Int) ∣ base →
        (60000 : Int) ∣ (addMinutes base amt) := by
      intro base amt hb
      unfold addMinutes
      obtain ⟨k, hk⟩ := hb
      exact ⟨k + amt, by rw [hk]; ring⟩
    split at hs
    · split at hs
      · split at hs
        · rw [List.mem_cons] at hs
          rcases hs with hs | hs
          · subst hs
            exact hal
          · exact ih _ (c + 1) (hwe _ _ (hwe _ _ hal)) s hs
        · rw [List.mem_cons] at hs
          rcases hs with hs | hs
          · subst hs
            exact hal
          · exact ih _ (c + 1) (hwe _ _ hal) s hs
      · split at hs
        · rw [List.mem_cons] at hs
          rcases hs with hs | hs
          · subst hs
            exact hal
          · exact ih _ (c + 1) (hwe _ _ (hwe _ _ hal)) s hs
        · rw [List.mem_cons] at hs
          rcases hs with hs | hs
          · subst hs
            exact hal
          · exact ih _ (c + 1) (hwe _ _ hal) s hs
    · rw [List.mem_cons] at hs
      rcases hs with hs | hs
      · subst hs
        exact hal
      · exact ih _ (c + 1) (hwe _ _ hal) s hs

theorem chunkWindows_wm (settings : UserSettings) (windows : List Slot)
    (hws : ∀ w ∈ windows, (60000 : Int) ∣ w.start) :
    ∀ s ∈ (chunkWindows settings windows).1, (60000 : Int) ∣ s.start := by
  unfold chunkWindows
  have main : ∀ (l : List Slot), (∀ w ∈ l, (60000 : Int) ∣ w.start) →
      ∀ (acc : List Slot × List Task × Int),
      (∀ s ∈ acc.1, (60000 : Int) ∣ s.start) →
      ∀ s ∈ (l.foldl (fun (acc : List Slot × List Task × Int) w =>
        let r := chunkLoop settings w.stop (w.duration.toNat + 1) w.start acc.2.2
        (acc.1 ++ r.1, acc.2.1 ++ r.2.1, r.2.2)) acc).1,
        (60000 : Int) ∣ s.start := by
    intro l
    induction l with
    | nil => intro _ acc hacc s hs; exact hacc s hs
    | cons w rest ih =>
      intro hl acc hacc s hs
      rw [List.foldl_cons] at hs
      refine ih (fun w2 hw2 => hl w2 (List.mem_cons_of_mem w hw2)) _ ?_ s hs
      intro s2 hs2
      rw [List.mem_append] at hs2
      rcases hs2 with hs2 | hs2
      · exact hacc s2 hs2
      · exact chunkLoop_wm settings w.stop (w.duration.toNat + 1) w.start
          acc.2.2 (hl w (List.mem_cons_self w rest)) s2 hs2
  intro s hs
  exact main windows hws ([], [], 0) (by intro s2 hs2; simp at hs2) s hs

/-- The dependency constraint dominates every recorded dependency end. -/
theorem dependencyConstraint_ge (completion : List (String × Int))
    (currentDate : Int) (task : Task) :
    ∀ depId ∈ task.dependencies.getD [], ∀ v,
      mapGet completion depId = some v →
      v ≤ dependencyConstraint completion currentDate task := by
  have fold_ge : ∀ (l : List String) (a : Int),
      (∀ d ∈ l, ∀ v, mapGet completion d = some v →
        v ≤ l.foldl (fun acc depId =>
          match mapGet completion depId with
          | some e => if e > acc then e else acc
          | none => acc) a) ∧
      a ≤ l.foldl (fun acc depId =>
        match mapGet completion depId with
        | some e => if e > acc then e else acc
        | none => acc) a := by
    intro l
    induction l with
    | nil =>
      intro a
      exact ⟨by intro d hd; simp at hd, le_refl _⟩
    | cons d rest ih =>
      intro a
      rw [List.foldl_cons]
      constructor
      · intro d2 hd2 v hv
        rw [List.mem_cons] at hd2
        rcases hd2 with hd2 | hd2
        · subst hd2
          have hstep : v ≤ (match mapGet completion d2 with
              | some e => if e > a then e else a
              | none => a) := by
            rw [hv]
            dsimp only
            split
            · exact le_refl _
            · rename_i hng
              omega
          exact le_trans hstep (ih _).2
        · exact (ih _).1 d2 hd2 v hv
      · refine le_trans ?_ (ih _).2
        split
        · rename_i e heq
          split
          · rename_i hgt
            exact le_of_lt hgt
          · exact le_refl _
        · exact le_refl _
  intro depId hdep v hv
  simp only [dependencyConstraint]
  have h1 := (fold_ge (task.dependencies.getD []) currentDate).1 depId hdep v hv
  split
  · rename_i e heq
    split
    · rename_i hgt
      exact le_trans h1 (le_of_lt hgt)
    · exact h1
  · exact h1

/-- An untouched key keeps its value across the fixed-completion fold. -/
theorem mapGet_completion0_none (fixedTasks : List Task) (id : String)
    (hid : ∀ t ∈ fixedTasks, t.id ≠ id) :
    mapGet (fixedTasks.foldl (fun m t =>
      match t.scheduledEnd with
      | some e => mapSet m t.id e
      | none => m) []) id = none := by
  have main : ∀ (l : List Task) (acc : List (String × Int)),
      (∀ t ∈ l, t.id ≠ id) → mapGet acc id = none →
      mapGet (l.foldl (fun m t =>
        match t.scheduledEnd with
        | some e => mapSet m t.id e
        | none => m) acc) id = none := by
    intro l
    induction l with
    | nil => intro acc _ h; exact h
    | cons t rest ih =>
      intro acc hl hacc
      rw [List.foldl_cons]
      refine ih _ (fun t2 ht2 => hl t2 (List.mem_cons_of_mem t ht2)) ?_
      split
      · rw [mapGet_mapSet_other]
        · exact hacc
        · exact (hl t (List.mem_cons_self t rest)).symm
      · exact hacc
  exact main fixedTasks [] hid rfl



theorem slotFit_dep {slot : Slot} {depC : Int} {latestC : Option Int}
    {u stop avail : Int}
    (hwm : (60000 : Int) ∣ slot.start)
    (h : slotFit slot depC latestC = some (u, stop, avail)) :
    (60000 : Int) ∣ u ∧ (∀ c : Int, (60000 : Int) ∣ c → c ≤ depC → c ≤ u) := by
  unfold slotFit at h
  split at h
  · simp at h
  split at h
  · simp at h
  split at h
  · simp at h
  split at h
  · simp at h
  rw [Option.some.injEq, Prod.mk.injEq, Prod.mk.injEq] at h
  obtain ⟨h1, _, _⟩ := h
  subst h1
  unfold usableStartIn
  split
  · rename_i hlt
    exact ⟨ceilTo15_whole depC,
      fun c hc hcle => ceilTo15_ge_of_whole_le hc hcle⟩
  · rename_i hge
    exact ⟨hwm, fun c hc hcle => by omega⟩

theorem getElem_append_sing {α : Type} (l : List α) (x : α) (i : Nat)
    (p : α) (hp : (l ++ [x])[i]? = some p) :
    (i < l.length ∧ l[i]? = some p) ∨ (i = l.length ∧ p = x) := by
  rcases Nat.lt_or_ge i l.length with h | h
  · left
    refine ⟨h, ?_⟩
    rw [List.getElem?_append_left h] at hp
    exact hp
  · right
    rw [List.getElem?_append_right h] at hp
    cases hj : i - l.length with
    | zero =>
      rw [hj] at hp
      simp at hp
      exact ⟨by omega, hp.symm⟩
    | succ m =>
      rw [hj] at hp
      simp at hp

/-- The fitting walk keeps whole-minute slot starts and emits only parts
satisfying the dependency property, positionally indexed, with the walk
last end equal to the final part scheduled end. -/
theorem fitWalk_dep (settings : UserSettings) (task : Task) (depC : Int)
    (latestC : Option Int) :
    ∀ (fuel : Nat) (st : WalkState),
      (∀ p ∈ st.done, (60000 : Int) ∣ p.1.start) →
      (∀ s ∈ st.todo, (60000 : Int) ∣ s.start) →
      (∀ p ∈ st.parts, depPart task.id depC p) →
      (∀ (i : Nat) (p : Task), st.parts[i]? = some p →
        p.partIndex = some ((i : Int) + 1)) →
      (∀ le, st.lastEnd = some le → ∃ q, st.parts.getLast? = some q ∧
        q.scheduledEnd = some le) →
      (∀ p ∈ (fitWalk settings task depC latestC fuel st).done,
        (60000 : Int) ∣ p.1.start) ∧
      (∀ s ∈ (fitWalk settings task depC latestC fuel st).todo,
        (60000 : Int) ∣ s.start) ∧
      (∀ p ∈ (fitWalk settings task depC latestC fuel st).parts,
        depPart task.id depC p) ∧
      (∀ (i : Nat) (p : Task),
        (fitWalk settings task depC latestC fuel st).parts[i]? = some p →
        p.partIndex = some ((i : Int) + 1)) ∧
      (∀ le, (fitWalk settings task depC latestC fuel st).lastEnd = some le →
        ∃ q, (fitWalk settings task depC latestC fuel st).parts.getLast? = some q ∧
        q.scheduledEnd = some le) := by
  intro fuel
  induction fuel with
  | zero =>
    intro st h1 h2 h3 h4 h5
    exact ⟨h1, h2, h3, h4, h5⟩
  | succ n ih =>
    intro st hdone htodo hparts hidx hlast
    obtain ⟨done, todo, remaining, parts, lastEnd⟩ := st
    dsimp only at hdone htodo hparts hidx hlast
    cases todo with
    | nil =>
      simp only [fitWalk]
      exact ⟨hdone, htodo, hparts, hidx, hlast⟩
    | cons slot rest =>
      have hslot : (60000 : Int) ∣ slot.start :=
        htodo slot (List.mem_cons_self slot rest)
      have hrest : ∀ s ∈ rest, (60000 : Int) ∣ s.start :=
        fun s hs => htodo s (List.mem_cons_of_mem slot hs)
      simp only [fitWalk]
      cases hsf : slotFit slot depC latestC with
      | none =>
        dsimp only
        refine ih _ ?_ hrest hparts hidx hlast
        intro p hp
        rw [List.mem_append] at hp
        rcases hp with hp | hp
        · exact hdone p hp
        · rw [List.mem_singleton] at hp
          subst hp
          exact hslot
      | some tup =>
        obtain ⟨u, stop2, avail⟩ := tup
        obtain ⟨hu_wm, hu_ge⟩ := slotFit_dep hslot hsf
        dsimp only
        have hpe_wm : (60000 : Int) ∣ addMinutes u (min avail remaining) := by
          unfold addMinutes
          obtain ⟨k, hk⟩ := hu_wm
          exact ⟨k + min avail remaining, by rw [hk]; ring⟩
        have hpart : depPart task.id depC (mkPart settings task parts.length
            remaining (min avail remaining) u) := by
          unfold depPart mkPart
          exact ⟨rfl, u, addMinutes u (min avail remaining), rfl, rfl, hu_wm,
            hpe_wm, hu_ge⟩
        have hparts2 : ∀ p ∈ parts ++ [mkPart settings task parts.length
            remaining (min avail remaining) u], depPart task.id depC p := by
          intro p hp
          rw [List.mem_append] at hp
          rcases hp with hp | hp
          · exact hparts p hp
          · rw [List.mem_singleton] at hp
            subst hp
            exact hpart
        have hidx2 : ∀ (i : Nat) (p : Task),
            (parts ++ [mkPart settings task parts.length remaining
              (min avail remaining) u])[i]? = some p →
            p.partIndex = some ((i : Int) + 1) := by
          intro i p hp
          rcases getElem_append_sing _ _ _ _ hp with ⟨h, hp2⟩ | ⟨hlen, rfl⟩
          · exact hidx i p hp2
          · subst hlen
            unfold mkPart
            rfl
        have hlast2 : ∀ le2, some (addMinutes u (min avail remaining)) = some le2 →
            ∃ q, (parts ++ [mkPart settings task parts.length remaining
              (min avail remaining) u]).getLast? = some q ∧
            q.scheduledEnd = some le2 := by
          intro le2 hle2
          rw [Option.some.injEq] at hle2
          subst hle2
          refine ⟨mkPart settings task parts.length remaining
            (min avail remaining) u, ?_, rfl⟩
          rw [List.getLast?_concat]
        have step : ∀ (st2 : WalkState),
            (∀ p ∈ st2.done, (60000 : Int) ∣ p.1.start) →
            (∀ s ∈ st2.todo, (60000 : Int) ∣ s.start) →
            (∀ p ∈ st2.parts, depPart task.id depC p) →
            (∀ (i : Nat) (p : Task), st2.parts[i]? = some p →
              p.partIndex = some ((i : Int) + 1)) →
            (∀ le2, st2.lastEnd = some le2 → ∃ q, st2.parts.getLast? = some q ∧
              q.scheduledEnd = some le2) →
            (∀ p ∈ (if remaining - min avail remaining ≤ 0 then st2
              else fitWalk settings task depC latestC n st2).done,
              (60000 : Int) ∣ p.1.start) ∧
            (∀ s ∈ (if remaining - min avail remaining ≤ 0 then st2
              else fitWalk settings task depC latestC n st2).todo,
              (60000 : Int) ∣ s.start) ∧
            (∀ p ∈ (if remaining - min avail remaining ≤ 0 then st2
              else fitWalk settings task depC latestC n st2).parts,
              depPart task.id depC p) ∧
            (∀ (i : Nat) (p : Task),
              (if remaining - min avail remaining ≤ 0 then st2
                else fitWalk settings task depC latestC n st2).parts[i]? = some p →
              p.partIndex = some ((i : Int) + 1)) ∧
            (∀ le2, (if remaining - min avail remaining ≤ 0 then st2
              else fitWalk settings task depC latestC n st2).lastEnd = some le2 →
              ∃ q, (if remaining - min avail remaining ≤ 0 then st2
                else fitWalk settings task depC latestC n st2).parts.getLast?
                = some q ∧ q.scheduledEnd = some le2) := by
          intro st2 h1 h2 h3 h4 h5
          split
          · exact ⟨h1, h2, h3, h4, h5⟩
          · exact ih st2 h1 h2 h3 h4 h5
        refine step _ ?_ ?_ ?_ ?_ ?_
        · split
          · split
            · intro p hp
              dsimp only at hp
              rw [List.mem_append] at hp
              rcases hp with hp | hp
              · exact hdone p hp
              · rw [List.mem_singleton] at hp
                subst hp
                exact hslot
            · intro p hp
              dsimp only at hp
              rw [List.mem_append] at hp
              rcases hp with hp | hp
              · exact hdone p hp
              · rw [List.mem_singleton] at hp
                subst hp
                exact hpe_wm
          · split
            · intro p hp
              dsimp only at hp
              rw [List.mem_append] at hp
              rcases hp with hp | hp
              · exact hdone p hp
              · rw [List.mem_singleton] at hp
                subst hp
                exact hslot
            · intro p hp
              dsimp only at hp
              rw [List.mem_append] at hp
              rcases hp with hp | hp
              · exact hdone p hp
              · rw [List.mem_singleton] at hp
                subst hp
                exact hslot
        · split
          · split
            · exact hrest
            · exact hrest
          · split
            · intro s hs
              dsimp only at hs
              rw [List.mem_cons] at hs
              rcases hs with hs | hs
              · subst hs
                exact hpe_wm
              · exact hrest s hs
            · exact hrest
        · split
          · split
            · exact hparts2
            · exact hparts2
          · split
            · exact hparts2
            · exact hparts2
        · split
          · split
            · exact hidx2
            · exact hidx2
          · split
            · exact hidx2
            · exact hidx2
        · split
          · split
            · exact hlast2
            · exact hlast2
          · split
            · exact hlast2
            · exact hlast2



/-- A picked task is pending, fresh, and satisfies the full readiness
predicate. -/
theorem pickTask_some_pred (pending : List Task) (pids : List String)
    (st : FitState) (t : Task) (h : pickTask pending pids st = some t) :
    t ∈ pending ∧ t.id ∉ st.processed ∧
    (match t.dependencies with
     | none => true
     | some deps => deps.all (fun depId =>
        (mapGet st.completion depId).isSome || decide (depId ∉ pids))) = true := by
  have hready : ∀ (p : Task → Bool) (x : Task),
      x ∈ pending.filter (fun tt => decide (tt.id ∉ st.processed) && p tt) →
      x ∈ pending ∧ x.id ∉ st.processed ∧ p x = true := by
    intro p x hx
    have hm := List.mem_filter.mp hx
    refine ⟨hm.1, ?_, ?_⟩
    · have hb := hm.2
      rw [Bool.and_eq_true] at hb
      exact of_decide_eq_true hb.1
    · have hb := hm.2
      rw [Bool.and_eq_true] at hb
      exact hb.2
  simp only [pickTask] at h
  split at h
  · exact absurd h (by simp)
  split at h
  · rename_i x heq
    rw [Option.some.injEq] at h
    subst h
    exact hready _ x (List.mem_filter.mp (mem_of_mem_sortByScore
      (List.mem_filter.mp (head_eq_some_mem heq)).1)).1
  · split at h
    · exact hready _ t
        (List.mem_filter.mp (mem_of_mem_sortByScore (head_eq_some_mem h))).1
    split at h
    · exact hready _ t
        (List.mem_filter.mp (mem_of_mem_sortByScore (head_eq_some_mem h))).1
    split at h
    · exact hready _ t
        (List.mem_filter.mp (mem_of_mem_sortByScore (head_eq_some_mem h))).1
    · exact hready _ t
        (List.mem_filter.mp (mem_of_mem_sortByScore (head_eq_some_mem h))).1

theorem getLast_some_ne_nil {α : Type} {l : List α} {x : α}
    (h : l.getLast? = some x) : l ≠ [] := by
  intro hnil
  subst hnil
  simp at h

/-- Placing one task: the slot list keeps whole-minute starts, and either
nothing else changes (failure) or the schedule is extended by this task's
parts, indexed positionally, with the completion map recording the final
part's end under the task id. -/
theorem placeTask_dep (settings : UserSettings) (currentDate : Int)
    (st : FitState) (task : Task)
    (hwm : ∀ s ∈ st.slots, (60000 : Int) ∣ s.start) :
    (∀ s ∈ (placeTask settings currentDate st task).slots,
      (60000 : Int) ∣ s.start) ∧
    (placeTask settings currentDate st task).processed = st.processed ∧
    (((placeTask settings currentDate st task).scheduled = st.scheduled ∧
      (placeTask settings currentDate st task).completion = st.completion) ∨
     (∃ newParts : List Task, newParts ≠ [] ∧
       (placeTask settings currentDate st task).scheduled
         = st.scheduled ++ newParts ∧
       (∀ p ∈ newParts, depPart task.id
         (dependencyConstraint st.completion currentDate task) p) ∧
       (∀ (i : Nat) (p : Task), newParts[i]? = some p →
         p.partIndex = some ((i : Int) + 1)) ∧
       (∃ le q, (placeTask settings currentDate st task).completion
           = mapSet st.completion task.id le ∧
         newParts.getLast? = some q ∧ q.scheduledEnd = some le))) := by
  simp only [placeTask]
  obtain ⟨w1, w2, w3, w4, w5⟩ := fitWalk_dep settings task
    (dependencyConstraint st.completion currentDate task)
    (latestConstraint task)
    (st.slots.length + task.durationMinutes.toNat + 2)
    { done := (st.slots.take (energyStartIndex st.slots task
        (dependencyConstraint st.completion currentDate task)
        (latestConstraint task))).map (fun s => (s, false)),
      todo := st.slots.drop (energyStartIndex st.slots task
        (dependencyConstraint st.completion currentDate task)
        (latestConstraint task)),
      remaining := task.durationMinutes, parts := [], lastEnd := none }
    (by
      intro p hp
      rw [List.mem_map] at hp
      obtain ⟨s0, hs0, rfl⟩ := hp
      exact hwm s0 (List.take_subset _ _ hs0))
    (by
      intro s hs
      exact hwm s (List.drop_subset _ _ hs))
    (by intro p hp; simp at hp)
    (by intro i p hp; simp at hp)
    (by intro le hle; simp at hle)
  split
  · rename_i hcond
    have hsome := hcond.2
    rw [Option.isSome_iff_exists] at hsome
    obtain ⟨le, hle⟩ := hsome
    obtain ⟨q, hq1, hq2⟩ := w5 le hle
    refine ⟨?_, rfl, Or.inr ⟨_, getLast_some_ne_nil hq1, rfl, w3, w4,
      le, q, ?_, hq1, hq2⟩⟩
    · intro s hs
      dsimp only at hs
      rw [List.mem_append] at hs
      rcases hs with hs | hs
      · rw [List.mem_map] at hs
        obtain ⟨p, hpf, rfl⟩ := hs
        exact w1 p (List.mem_of_mem_filter hpf)
      · exact w2 s hs
    · dsimp only
      rw [hle]
      rfl
  · refine ⟨?_, rfl, Or.inl ⟨rfl, rfl⟩⟩
    intro s hs
    dsimp only at hs
    rw [List.mem_append] at hs
    rcases hs with hs | hs
    · rw [List.mem_map] at hs
      obtain ⟨p, hpf, rfl⟩ := hs
      exact w1 p hpf
    · exact w2 s hs



/-- The task-fitting loop maintains the dependency bookkeeping: slots stay
whole-minute, every scheduled part is tagged and belongs to a processed
pending task, the completion map records for each completed pending task
the end of its highest-index part, every scheduled part starts no earlier
than the recorded end of each of its pending dependencies, and pending
tasks never appear in the completion map before being processed. -/
theorem fitLoop_dep (settings : UserSettings) (currentDate : Int)
    (pending : List Task)
    (hnodup : (pending.map Task.id).Nodup) :
    ∀ (fuel : Nat) (st : FitState),
      (∀ s ∈ st.slots, (60000 : Int) ∣ s.start) →
      (∀ p ∈ st.scheduled, ∃ t ∈ pending, p.originalTaskId = some t.id ∧
        t.id ∈ st.processed ∧ ∃ s e : Int, p.scheduledStart = some s ∧
        p.scheduledEnd = some e) →
      (∀ t ∈ pending, ∀ v, mapGet st.completion t.id = some v →
        (60000 : Int) ∣ v ∧ ∃ pD ∈ st.scheduled,
          pD.originalTaskId = some t.id ∧ pD.scheduledEnd = some v ∧
          ∀ q ∈ st.scheduled, q.originalTaskId = some t.id →
            q.partIndex.getD 0 ≤ pD.partIndex.getD 0) →
      (∀ p ∈ st.scheduled, ∀ t ∈ pending, p.originalTaskId = some t.id →
        ∀ depId ∈ t.dependencies.getD [], depId ∈ pending.map Task.id →
        ∃ v, mapGet st.completion depId = some v ∧
          ∀ s, p.scheduledStart = some s → v ≤ s) →
      (∀ t ∈ pending, t.id ∉ st.processed →
        mapGet st.completion t.id = none) →
      (∀ p ∈ (fitLoop settings currentDate pending (pending.map Task.id)
          fuel st).scheduled,
        ∃ t ∈ pending, p.originalTaskId = some t.id ∧
        ∃ s e : Int, p.scheduledStart = some s ∧ p.scheduledEnd = some e) ∧
      (∀ t ∈ pending, ∀ v, mapGet (fitLoop settings currentDate pending
          (pending.map Task.id) fuel st).completion t.id = some v →
        (60000 : Int) ∣ v ∧ ∃ pD ∈ (fitLoop settings currentDate pending
            (pending.map Task.id) fuel st).scheduled,
          pD.originalTaskId = some t.id ∧ pD.scheduledEnd = some v ∧
          ∀ q ∈ (fitLoop settings currentDate pending (pending.map Task.id)
              fuel st).scheduled, q.originalTaskId = some t.id →
            q.partIndex.getD 0 ≤ pD.partIndex.getD 0) ∧
      (∀ p ∈ (fitLoop settings currentDate pending (pending.map Task.id)
          fuel st).scheduled,
        ∀ t ∈ pending, p.originalTaskId = some t.id →
        ∀ depId ∈ t.dependencies.getD [], depId ∈ pending.map Task.id →
        ∃ v, mapGet (fitLoop settings currentDate pending (pending.map Task.id)
            fuel st).completion depId = some v ∧
          ∀ s, p.scheduledStart = some s → v ≤ s) := by
  have inj : ∀ a ∈ pending, ∀ b ∈ pending, a.id = b.id → a = b :=
    List.inj_on_of_nodup_map hnodup
  intro fuel
  induction fuel with
  | zero =>
    intro st i1 i2 i3 i4 i5
    exact ⟨fun p hp => (i2 p hp).elim (fun t ht =>
        ⟨t, ht.1, ht.2.1, ht.2.2.2⟩), i3, i4⟩
  | succ n ih =>
    intro st i1 i2 i3 i4 i5
    by_cases hguard : st.processed.length < pending.length
    rotate_left
    · have hstep : fitLoop settings currentDate pending (pending.map Task.id)
          (Nat.succ n) st = st := by
        rw [fitLoop, if_neg hguard]
      rw [hstep]
      exact ⟨fun p hp => (i2 p hp).elim (fun t ht =>
        ⟨t, ht.1, ht.2.1, ht.2.2.2⟩), i3, i4⟩
    cases hpick : pickTask pending (pending.map Task.id) st with
    | none =>
      have hstep : fitLoop settings currentDate pending (pending.map Task.id)
          (Nat.succ n) st = st := by
        rw [fitLoop, if_pos hguard, hpick]
      rw [hstep]
      exact ⟨fun p hp => (i2 p hp).elim (fun t ht =>
        ⟨t, ht.1, ht.2.1, ht.2.2.2⟩), i3, i4⟩
    | some task =>
      obtain ⟨htp, htnp, hdeps⟩ :=
        pickTask_some_pred pending (pending.map Task.id) st task hpick
      have hstep : fitLoop settings currentDate pending (pending.map Task.id)
          (Nat.succ n) st
          = fitLoop settings currentDate pending (pending.map Task.id) n
              (placeTask settings currentDate
                { st with alternateTodo := ¬ st.alternateTodo,
                          processed := st.processed ++ [task.id] } task) := by
        rw [fitLoop, if_pos hguard, hpick]
      rw [hstep]
      obtain ⟨pd1, pd2, pd3⟩ := placeTask_dep settings currentDate
        { st with alternateTodo := ¬ st.alternateTodo,
                  processed := st.processed ++ [task.id] } task i1
      have hproc2 : (placeTask settings currentDate
          { st with alternateTodo := ¬ st.alternateTodo,
                    processed := st.processed ++ [task.id] } task).processed
          = st.processed ++ [task.id] := pd2
      have hTaskEntry : mapGet st.completion task.id = none := i5 task htp htnp
      have hNoOldTask : ∀ p ∈ st.scheduled,
          ¬ p.originalTaskId = some task.id := by
        intro p hp hbad
        obtain ⟨t2, ht2, horig, hproc, _⟩ := i2 p hp
        rw [horig, Option.some.injEq] at hbad
        have := inj t2 ht2 task htp hbad
        subst this
        exact htnp hproc
      rcases pd3 with ⟨hsch, hcomp⟩ | ⟨newParts, hne, hsch, hdp, hpi, le, q,
          hcomp, hgl, hqe⟩
      · -- failure: state unchanged apart from unscheduled/slots
        have hsch2 : (placeTask settings currentDate
            { st with alternateTodo := ¬ st.alternateTodo,
                      processed := st.processed ++ [task.id] } task).scheduled
            = st.scheduled := hsch
        have hcomp2 : (placeTask settings currentDate
            { st with alternateTodo := ¬ st.alternateTodo,
                      processed := st.processed ++ [task.id] } task).completion
            = st.completion := hcomp
        refine ih _ pd1 ?_ ?_ ?_ ?_
        · rw [hsch2, hproc2]
          intro p hp
          obtain ⟨t2, ht2, horig, hproc, hse⟩ := i2 p hp
          exact ⟨t2, ht2, horig, List.mem_append_left _ hproc, hse⟩
        · rw [hsch2, hcomp2]
          exact i3
        · rw [hsch2, hcomp2]
          exact i4
        · rw [hcomp2, hproc2]
          intro t ht hnp2
          refine i5 t ht ?_
          intro hmem
          exact hnp2 (List.mem_append_left _ hmem)
      · -- success
        have hsch2 : (placeTask settings currentDate
            { st with alternateTodo := ¬ st.alternateTodo,
                      processed := st.processed ++ [task.id] } task).scheduled
            = st.scheduled ++ newParts := hsch
        have hcomp2 : (placeTask settings currentDate
            { st with alternateTodo := ¬ st.alternateTodo,
                      processed := st.processed ++ [task.id] } task).completion
            = mapSet st.completion task.id le := hcomp
        have hdp2 : ∀ p ∈ newParts, depPart task.id
            (dependencyConstraint st.completion currentDate task) p := hdp
        have hqmem : q ∈ newParts := List.mem_of_getLast?_eq_some hgl
        have hqpart := hdp2 q hqmem
        have hlewhole : (60000 : Int) ∣ le := by
          obtain ⟨_, s0, e0, _, he0, _, hew, _⟩ := hqpart
          rw [hqe, Option.some.injEq] at he0
          rw [he0]
          exact hew
        have hqidx : q.partIndex = some (newParts.length : Int) := by
          have hgl2 := hgl
          rw [List.getLast?_eq_getElem?] at hgl2
          have := hpi (newParts.length - 1) q hgl2
          rw [this]
          have hlen : 0 < newParts.length := List.length_pos.mpr hne
          congr 1
          omega
        have hAllIdx : ∀ p2 ∈ newParts,
            p2.partIndex.getD 0 ≤ q.partIndex.getD 0 := by
          intro p2 hp2
          obtain ⟨i, hi⟩ := List.getElem?_of_mem hp2
          have hilt : i < newParts.length := by
            by_contra hge
            rw [List.getElem?_eq_none (by omega)] at hi
            simp at hi
          rw [hpi i p2 hi, hqidx]
          simp only [Option.getD_some]
          omega
        have hray : ∀ depId ∈ task.dependencies.getD [],
            depId ∈ pending.map Task.id →
            ∃ v, mapGet st.completion depId = some v := by
          intro depId hdep hdpid
          cases hd : task.dependencies with
          | none =>
            rw [hd] at hdep
            simp at hdep
          | some deps =>
            rw [hd] at hdeps hdep
            simp only [Option.getD_some] at hdep
            rw [List.all_eq_true] at hdeps
            have := hdeps depId hdep
            rw [Bool.or_eq_true] at this
            rcases this with hs | hs
            · rw [Option.isSome_iff_exists] at hs
              exact hs
            · rw [decide_eq_true_iff] at hs
              exact absurd hdpid hs
        have hdepwhole : ∀ depId ∈ pending.map Task.id, ∀ v,
            mapGet st.completion depId = some v → (60000 : Int) ∣ v := by
          intro depId hdpid v hv
          rw [List.mem_map] at hdpid
          obtain ⟨t2, ht2, rfl⟩ := hdpid
          exact (i3 t2 ht2 v hv).1
        refine ih _ pd1 ?_ ?_ ?_ ?_
        · -- i2 for the new state
          rw [hsch2, hproc2]
          intro p hp
          rw [List.mem_append] at hp
          rcases hp with hp | hp
          · obtain ⟨t2, ht2, horig, hproc, hse⟩ := i2 p hp
            exact ⟨t2, ht2, horig, List.mem_append_left _ hproc, hse⟩
          · obtain ⟨horig, s0, e0, hs0, he0, _⟩ := hdp2 p hp
            exact ⟨task, htp, horig, List.mem_append_right _
              (List.mem_singleton.mpr rfl), s0, e0, hs0, he0⟩
        · -- i3 for the new state
          rw [hsch2, hcomp2]
          intro t ht v hv
          by_cases hid : t.id = task.id
          · rw [hid, mapGet_mapSet_self] at hv
            rw [Option.some.injEq] at hv
            subst hv
            refine ⟨hlewhole, q, List.mem_append_right _ hqmem, ?_, hqe, ?_⟩
            · rw [hid]
              exact hqpart.1
            · intro q2 hq2 horig2
              rw [List.mem_append] at hq2
              rcases hq2 with hq2 | hq2
              · exact absurd (by rw [horig2, hid]) (hNoOldTask q2 hq2)
              · exact hAllIdx q2 hq2
          · rw [mapGet_mapSet_other _ _ _ _ hid] at hv
            obtain ⟨hw, pD, hpD, horig, hend, hmax⟩ := i3 t ht v hv
            refine ⟨hw, pD, List.mem_append_left _ hpD, horig, hend, ?_⟩
            intro q2 hq2 horig2
            rw [List.mem_append] at hq2
            rcases hq2 with hq2 | hq2
            · exact hmax q2 hq2 horig2
            · exfalso
              have := (hdp2 q2 hq2).1
              rw [this, Option.some.injEq] at horig2
              exact hid horig2.symm
        · -- i4 for the new state
          rw [hsch2, hcomp2]
          intro p hp t ht horig depId hdep hdpid
          rw [List.mem_append] at hp
          rcases hp with hp | hp
          · obtain ⟨v, hv, hvs⟩ := i4 p hp t ht horig depId hdep hdpid
            by_cases hdid : depId = task.id
            · rw [hdid, hTaskEntry] at hv
              simp at hv
            · exact ⟨v, by
                rw [mapGet_mapSet_other _ _ _ _ hdid]
                exact hv, hvs⟩
          · have horigtask := (hdp2 p hp).1
            rw [horigtask, Option.some.injEq] at horig
            have hteq : t = task := by
              refine inj t ht task htp ?_
              rw [horig]
            subst hteq
            obtain ⟨v, hv⟩ := hray depId hdep hdpid
            have hdid : ¬ depId = t.id := by
              intro hbad
              rw [hbad, hTaskEntry] at hv
              simp at hv
            refine ⟨v, by
              rw [mapGet_mapSet_other _ _ _ _ hdid]
              exact hv, ?_⟩
            intro s hs
            obtain ⟨_, s0, e0, hs0, _, _, _, hcprop⟩ := hdp2 p hp
            rw [hs0, Option.some.injEq] at hs
            subst hs
            refine hcprop v (hdepwhole depId hdpid v hv) ?_
            exact dependencyConstraint_ge st.completion currentDate t
              depId hdep v hv
        · -- i5 for the new state
          rw [hcomp2, hproc2]
          intro t ht hnp2
          have h1 : t.id ∉ st.processed := by
            intro hmem
            exact hnp2 (List.mem_append_left _ hmem)
          have h2 : ¬ t.id = task.id := by
            intro hbad
            exact hnp2 (List.mem_append_right _ (List.mem_singleton.mpr hbad))
          rw [mapGet_mapSet_other _ _ _ _ h2]
          exact i5 t ht h1



/-- Claim C5, amended: provided the pending tasks have pairwise-distinct
ids that also differ from every fixed event id, dependencies are respected:
whenever T depends on D (both pending) and a part of T appears in the
scheduled output, D has a scheduled part of maximal part index (its last
part) whose scheduled end is at or before the scheduled start of every
part of T.  Without the id-distinctness restriction the claim fails: a
fixed event sharing an id with a pending task seeds that id as completed,
letting the dependent task be placed before the like-named pending task. -/
theorem C5_amended (settings : UserSettings) (tasks fixedTasks : List Task)
    (currentDate : Int) (prof : String)
    (hnodup : (tasks.map Task.id).Nodup)
    (hdisj : ∀ t ∈ tasks, ∀ f ∈ fixedTasks, t.id ≠ f.id) :
    ∀ T ∈ tasks, ∀ D ∈ tasks, D.id ∈ T.dependencies.getD [] →
    ∀ pT ∈ (suggestSchedule tasks fixedTasks currentDate prof settings).scheduled,
      pT.originalTaskId = some T.id →
      ∃ pD ∈ (suggestSchedule tasks fixedTasks currentDate prof
          settings).scheduled,
        pD.originalTaskId = some D.id ∧
        (∀ q ∈ (suggestSchedule tasks fixedTasks currentDate prof
            settings).scheduled, q.originalTaskId = some D.id →
          q.partIndex.getD 0 ≤ pD.partIndex.getD 0) ∧
        ∃ e s : Int, pD.scheduledEnd = some e ∧ pT.scheduledStart = some s ∧
          e ≤ s := by
  have hPids : (tasks.map (fun t =>
      { t with durationMinutes := roundToNearest15 t.durationMinutes })).map
      Task.id = tasks.map Task.id := by
    rw [List.map_map]
    exact List.map_congr_left (fun a _ => rfl)
  have hn2 : ((tasks.map (fun t =>
      { t with durationMinutes := roundToNearest15 t.durationMinutes })).map
      Task.id).Nodup := by
    rw [hPids]
    exact hnodup
  have hcomp0 : ∀ t ∈ tasks.map (fun t =>
      { t with durationMinutes := roundToNearest15 t.durationMinutes }),
      mapGet (fixedTasks.foldl (fun m t =>
        match t.scheduledEnd with
        | some e => mapSet m t.id e
        | none => m) []) t.id = none := by
    intro t ht
    rw [List.mem_map] at ht
    obtain ⟨t0, ht0, rfl⟩ := ht
    refine mapGet_completion0_none fixedTasks _ ?_
    intro f hf
    exact (hdisj t0 ht0 f hf).symm
  have hwin := availableWindowsLoop_wm settings currentDate
    (fixedTasksByDay fixedTasks) 180 (startOfDay currentDate)
  have hslots0 : ∀ s ∈ (if settings.enableChunking = true then
      chunkWindows settings (availableWindowsLoop settings currentDate
        (fixedTasksByDay fixedTasks) 180 (startOfDay currentDate))
      else (availableWindowsLoop settings currentDate
        (fixedTasksByDay fixedTasks) 180 (startOfDay currentDate), [])).1,
      (60000 : Int) ∣ s.start := by
    cases hb : settings.enableChunking with
    | false =>
      rw [if_neg (by simp)]
      exact hwin
    | true =>
      rw [if_pos rfl]
      exact chunkWindows_wm settings _ hwin
  have key : ∀ (pend : List Task) (slots0 : List Slot)
      (comp : List (String × Int)),
      ((pend.map Task.id).Nodup) →
      (∀ s ∈ slots0, (60000 : Int) ∣ s.start) →
      (∀ t ∈ pend, mapGet comp t.id = none) →
      (∀ p ∈ (fitLoop settings currentDate pend (pend.map Task.id)
          (pend.length + 1)
          { slots := slots0, scheduled := [], completion := comp,
            unscheduled := [], processed := [], alternateTodo := true,
            scheduledHighTodo := false }).scheduled,
        ∃ t ∈ pend, p.originalTaskId = some t.id ∧
        ∃ s e : Int, p.scheduledStart = some s ∧ p.scheduledEnd = some e) ∧
      (∀ t ∈ pend, ∀ v, mapGet (fitLoop settings currentDate pend
          (pend.map Task.id) (pend.length + 1)
          { slots := slots0, scheduled := [], completion := comp,
            unscheduled := [], processed := [], alternateTodo := true,
            scheduledHighTodo := false }).completion t.id = some v →
        (60000 : Int) ∣ v ∧ ∃ pD ∈ (fitLoop settings currentDate pend
            (pend.map Task.id) (pend.length + 1)
            { slots := slots0, scheduled := [], completion := comp,
              unscheduled := [], processed := [], alternateTodo := true,
              scheduledHighTodo := false }).scheduled,
          pD.originalTaskId = some t.id ∧ pD.scheduledEnd = some v ∧
          ∀ q ∈ (fitLoop settings currentDate pend (pend.map Task.id)
              (pend.length + 1)
              { slots := slots0, scheduled := [], completion := comp,
                unscheduled := [], processed := [], alternateTodo := true,
                scheduledHighTodo := false }).scheduled,
            q.originalTaskId = some t.id →
            q.partIndex.getD 0 ≤ pD.partIndex.getD 0) ∧
      (∀ p ∈ (fitLoop settings currentDate pend (pend.map Task.id)
          (pend.length + 1)
          { slots := slots0, scheduled := [], completion := comp,
            unscheduled := [], processed := [], alternateTodo := true,
            scheduledHighTodo := false }).scheduled,
        ∀ t ∈ pend, p.originalTaskId = some t.id →
        ∀ depId ∈ t.dependencies.getD [], depId ∈ pend.map Task.id →
        ∃ v, mapGet (fitLoop settings currentDate pend (pend.map Task.id)
            (pend.length + 1)
            { slots := slots0, scheduled := [], completion := comp,
              unscheduled := [], processed := [], alternateTodo := true,
              scheduledHighTodo := false }).completion depId = some v ∧
          ∀ s, p.scheduledStart = some s → v ≤ s) := by
    intro pend slots0 comp hn hs hc
    refine fitLoop_dep settings currentDate pend hn (pend.length + 1)
      { slots := slots0, scheduled := [], completion := comp,
        unscheduled := [], processed := [], alternateTodo := true,
        scheduledHighTodo := false } hs
      (by intro p hp; simp at hp)
      (by
        intro t ht v hv
        rw [hc t ht] at hv
        cases hv)
      (by intro p hp; simp at hp)
      (fun t ht _ => hc t ht)
  intro T hT D hD hdep pT hpT horigT
  simp only [suggestSchedule] at hpT ⊢
  obtain ⟨K1, K2, K3⟩ := key _ _ _ hn2 hslots0 hcomp0
  have hTmem : { T with durationMinutes := roundToNearest15 T.durationMinutes }
      ∈ tasks.map (fun t =>
        { t with durationMinutes := roundToNearest15 t.durationMinutes }) :=
    List.mem_map_of_mem _ hT
  have hDmem : { D with durationMinutes := roundToNearest15 D.durationMinutes }
      ∈ tasks.map (fun t =>
        { t with durationMinutes := roundToNearest15 t.durationMinutes }) :=
    List.mem_map_of_mem _ hD
  have hdpid : D.id ∈ (tasks.map (fun t =>
      { t with durationMinutes := roundToNearest15 t.durationMinutes })).map
      Task.id := by
    rw [hPids]
    exact List.mem_map_of_mem Task.id hD
  obtain ⟨v, hv, hvs⟩ := K3 pT hpT _ hTmem horigT D.id hdep hdpid
  obtain ⟨hw, pD, hpDmem, horigD, hendD, hmaxD⟩ := K2 _ hDmem v hv
  obtain ⟨t', _, _, s, e, hsT, _⟩ := K1 pT hpT
  exact ⟨pD, hpDmem, horigD, hmaxD, v, s, hendD, hsT, hvs s hsT⟩



/-- Claim C5, counterexample: the fixed event c5F carries the same id "d"
as the pending task c5D, so the completion map marks "d" done at 9:15 and
the dependent task c5T is placed at 9:15 while c5D itself is only placed
afterwards, ending at 10:45 — after the start of the task that depends on
it. -/
theorem C5_counterexample :
    c5T.dependencies = some ["d"] ∧ c5D.id = "d" ∧
    ((suggestSchedule [c5T, c5D] [c5F] c3Now "" c3Settings).scheduled.map
      (fun t => (t.id, t.scheduledStart, t.scheduledEnd)))
      = [("t", some (c3Now + 33300000), some (c3Now + 36900000)),
         ("d", some (c3Now + 36900000), some (c3Now + 38700000))] ∧
    ¬ ((c3Now + 38700000 : Int) ≤ c3Now + 33300000) := by
  decide

/-- Witness for C5_amended on the two-task plan with distinct ids. -/
theorem C5_amended_witness :
    (([c5T, c5D].map Task.id).Nodup) ∧
    (∀ t ∈ [c5T, c5D], ∀ f ∈ ([] : List Task), t.id ≠ f.id) ∧
    (∀ T ∈ [c5T, c5D], ∀ D ∈ [c5T, c5D], D.id ∈ T.dependencies.getD [] →
      ∀ pT ∈ (suggestSchedule [c5T, c5D] [] c3Now "" c3Settings).scheduled,
        pT.originalTaskId = some T.id →
        ∃ pD ∈ (suggestSchedule [c5T, c5D] [] c3Now "" c3Settings).scheduled,
          pD.originalTaskId = some D.id ∧
          (∀ q ∈ (suggestSchedule [c5T, c5D] [] c3Now "" c3Settings).scheduled,
            q.originalTaskId = some D.id →
            q.partIndex.getD 0 ≤ pD.partIndex.getD 0) ∧
          ∃ e s : Int, pD.scheduledEnd = some e ∧ pT.scheduledStart = some s ∧
            e ≤ s) :=
  ⟨by decide, by decide,
    C5_amended c3Settings [c5T, c5D] [] c3Now "" (by decide) (by decide)⟩


/-! ### Claim C1: non-overlap of scheduled parts, breaks and fixed events -/

theorem IvDisj_symm {a b : Int × Int} (h : IvDisj a b) : IvDisj b a :=
  h.symm

theorem IvDisj_sub {a b c : Int × Int} (h : IvDisj a c) (h1 : a.1 ≤ b.1)
    (h2 : b.2 ≤ a.2) : IvDisj b c := by
  unfold IvDisj at *
  omega

/-! ### The day index of the fixed events -/

/-- Every member of a day bucket is an active fixed input event. -/
theorem fixedTasksByDay_mem (fixedTasks : List Task) (D : Int)
    (bl : List Task) (h : mapGet (fixedTasksByDay fixedTasks) D = some bl) :
    ∀ f ∈ bl, f ∈ fixedTasks ∧ activeFixed f := by
  have main : ∀ (l : List Task) (acc : List (Int × List Task)),
      (∀ f ∈ l, f ∈ fixedTasks) →
      (∀ D2 bl2, mapGet acc D2 = some bl2 → ∀ f ∈ bl2,
        f ∈ fixedTasks ∧ activeFixed f) →
      ∀ D2 bl2, mapGet (l.foldl (fun m t =>
        match t.scheduledStart, t.scheduledEnd with
        | some s, some _ =>
          if t.status ≠ TaskStatus.done then
            match mapGet m (startOfDay s) with
            | some l => mapSet m (startOfDay s) (l ++ [t])
            | none => mapSet m (startOfDay s) [t]
          else m
        | _, _ => m) acc) D2 = some bl2 →
        ∀ f ∈ bl2, f ∈ fixedTasks ∧ activeFixed f := by
    intro l
    induction l with
    | nil => intro acc _ hacc D2 bl2 hb; exact hacc D2 bl2 hb
    | cons t rest ih =>
      intro acc hl hacc D2 bl2 hb
      rw [List.foldl_cons] at hb
      refine ih _ (fun f hf => hl f (List.mem_cons_of_mem t hf)) ?_ D2 bl2 hb
      intro D3 bl3 hb3 f hf
      cases hts : t.scheduledStart with
      | none =>
        rw [hts] at hb3
        exact hacc D3 bl3 hb3 f hf
      | some s =>
        cases hte : t.scheduledEnd with
        | none =>
          rw [hts, hte] at hb3
          exact hacc D3 bl3 hb3 f hf
        | some e =>
          rw [hts, hte] at hb3
          dsimp only at hb3
          by_cases hnd : t.status ≠ TaskStatus.done
          rotate_left
          · rw [if_neg hnd] at hb3
            exact hacc D3 bl3 hb3 f hf
          rw [if_pos hnd] at hb3
          have htP : t ∈ fixedTasks ∧ activeFixed t := by
            refine ⟨hl t (List.mem_cons_self t rest), ?_, ?_, hnd⟩
            · rw [hts]; rfl
            · rw [hte]; rfl
          by_cases hD : D3 = startOfDay s
          · subst hD
            cases hbkt : mapGet acc (startOfDay s) with
            | some l0 =>
              rw [hbkt] at hb3
              rw [mapGet_mapSet_self] at hb3
              rw [Option.some.injEq] at hb3
              subst hb3
              rw [List.mem_append] at hf
              rcases hf with hf | hf
              · exact hacc (startOfDay s) l0 hbkt f hf
              · rw [List.mem_singleton] at hf
                subst hf
                exact htP
            | none =>
              rw [hbkt] at hb3
              rw [mapGet_mapSet_self] at hb3
              rw [Option.some.injEq] at hb3
              subst hb3
              rw [List.mem_singleton] at hf
              subst hf
              exact htP
          · cases hbkt : mapGet acc (startOfDay s) with
            | some l0 =>
              rw [hbkt] at hb3
              rw [mapGet_mapSet_other _ _ _ _ hD] at hb3
              exact hacc D3 bl3 hb3 f hf
            | none =>
              rw [hbkt] at hb3
              rw [mapGet_mapSet_other _ _ _ _ hD] at hb3
              exact hacc D3 bl3 hb3 f hf
  intro f hf
  unfold fixedTasksByDay at h
  refine main fixedTasks [] (fun f2 hf2 => hf2) ?_ D bl h f hf
  intro D2 bl2 hb2
  rw [mapGet_nil] at hb2
  cases hb2

/-- A bucket that holds a task keeps holding it through further folding. -/
theorem fixedFold_bucket_mono (f : Task) (D : Int) :
    ∀ (l : List Task) (acc : List (Int × List Task)),
      (∃ bl, mapGet acc D = some bl ∧ f ∈ bl) →
      ∃ bl, mapGet (l.foldl (fun m t =>
        match t.scheduledStart, t.scheduledEnd with
        | some s, some _ =>
          if t.status ≠ TaskStatus.done then
            match mapGet m (startOfDay s) with
            | some l => mapSet m (startOfDay s) (l ++ [t])
            | none => mapSet m (startOfDay s) [t]
          else m
        | _, _ => m) acc) D = some bl ∧ f ∈ bl := by
  intro l
  induction l with
  | nil => intro acc h; exact h
  | cons t rest ih =>
    intro acc h
    rw [List.foldl_cons]
    refine ih _ ?_
    obtain ⟨bl, hbl, hfbl⟩ := h
    cases hts : t.scheduledStart with
    | none => exact ⟨bl, hbl, hfbl⟩
    | some s =>
      cases hte : t.scheduledEnd with
      | none => exact ⟨bl, hbl, hfbl⟩
      | some e =>
        dsimp only
        by_cases hnd : t.status ≠ TaskStatus.done
        rotate_left
        · rw [if_neg hnd]
          exact ⟨bl, hbl, hfbl⟩
        rw [if_pos hnd]
        by_cases hD : D = startOfDay s
        · subst hD
          rw [hbl]
          exact ⟨bl ++ [t], mapGet_mapSet_self _ _ _,
            List.mem_append_left _ hfbl⟩
        · cases hbkt : mapGet acc (startOfDay s) with
          | some l0 =>
            rw [mapGet_mapSet_other _ _ _ _ hD]
            exact ⟨bl, hbl, hfbl⟩
          | none =>
            rw [mapGet_mapSet_other _ _ _ _ hD]
            exact ⟨bl, hbl, hfbl⟩

/-- Every active fixed event lands in the bucket of its start's day. -/
theorem fixedTasksByDay_complete (fixedTasks : List Task) (f : Task) (s : Int)
    (hf : f ∈ fixedTasks) (hs : f.scheduledStart = some s)
    (he : f.scheduledEnd.isSome = true) (hnd : f.status ≠ TaskStatus.done) :
    ∃ bl, mapGet (fixedTasksByDay fixedTasks) (startOfDay s) = some bl ∧
      f ∈ bl := by
  obtain ⟨e, he2⟩ := Option.isSome_iff_exists.mp he
  have main : ∀ (l : List Task) (acc : List (Int × List Task)), f ∈ l →
      ∃ bl, mapGet (l.foldl (fun m t =>
        match t.scheduledStart, t.scheduledEnd with
        | some s, some _ =>
          if t.status ≠ TaskStatus.done then
            match mapGet m (startOfDay s) with
            | some l => mapSet m (startOfDay s) (l ++ [t])
            | none => mapSet m (startOfDay s) [t]
          else m
        | _, _ => m) acc) (startOfDay s) = some bl ∧ f ∈ bl := by
    intro l
    induction l with
    | nil => intro acc h; cases h
    | cons t rest ih =>
      intro acc hmem
      rw [List.foldl_cons]
      rcases List.mem_cons.mp hmem with heq | hrest
      rotate_left
      · exact ih _ hrest
      subst heq
      refine fixedFold_bucket_mono f (startOfDay s) rest _ ?_
      rw [hs, he2]
      dsimp only
      rw [if_pos hnd]
      cases hbkt : mapGet acc (startOfDay s) with
      | some l0 =>
        exact ⟨l0 ++ [f], mapGet_mapSet_self _ _ _,
          List.mem_append_right _ (List.mem_singleton.mpr rfl)⟩
      | none =>
        exact ⟨[f], mapGet_mapSet_self _ _ _, List.mem_singleton.mpr rfl⟩
  unfold fixedTasksByDay
  exact main fixedTasks [] hf

/-! ### Shape of the subtraction pieces -/

/-- Each piece left by subtracting one fixed interval lies inside an input
window, avoids the subtracted interval, and keeps bounds drawn from the
window bounds or the interval bounds. -/
theorem subtractFixed_mem (ws : List Slot) (a b : Int) :
    ∀ p ∈ subtractFixed ws a b,
      ∃ w ∈ ws, w.start ≤ p.start ∧ p.stop ≤ w.stop ∧
        (p.stop ≤ a ∨ b ≤ p.start) ∧
        (p.start = w.start ∨ p.start = b) ∧
        (p.stop = w.stop ∨ p.stop = a) := by
  have main : ∀ (l : List Slot) (acc : List Slot),
      ∀ p ∈ l.foldl (fun acc win =>
        if ¬ (areIntervalsOverlapping win.start win.stop a b = true) then
          acc ++ [win]
        else
          (acc ++ (if win.start < a then
              [{ start := win.start, stop := a,
                 duration := differenceInMinutes a win.start }]
            else []))
            ++ (if win.stop > b then
              [{ start := b, stop := win.stop,
                 duration := differenceInMinutes win.stop b }]
            else [])) acc,
      p ∈ acc ∨ ∃ w ∈ l, w.start ≤ p.start ∧ p.stop ≤ w.stop ∧
        (p.stop ≤ a ∨ b ≤ p.start) ∧
        (p.start = w.start ∨ p.start = b) ∧
        (p.stop = w.stop ∨ p.stop = a) := by
    intro l
    induction l with
    | nil => intro acc p hp; exact Or.inl hp
    | cons w rest ih =>
      intro acc p hp
      rw [List.foldl_cons] at hp
      rcases ih _ p hp with hacc | ⟨w2, hw2, hrest⟩
      rotate_left
      · exact Or.inr ⟨w2, List.mem_cons_of_mem w hw2, hrest⟩
      by_cases hov : ¬ (areIntervalsOverlapping w.start w.stop a b = true)
      · rw [if_pos hov] at hacc
        rw [List.mem_append] at hacc
        rcases hacc with h1 | h1
        · exact Or.inl h1
        · rw [List.mem_singleton] at h1
          subst h1
          unfold areIntervalsOverlapping at hov
          rw [Bool.and_eq_true, decide_eq_true_iff, decide_eq_true_iff] at hov
          push_neg at hov
          refine Or.inr ⟨p, List.mem_cons_self p rest, le_refl _, le_refl _,
            ?_, Or.inl rfl, Or.inl rfl⟩
          by_cases hlt : p.start < b
          · have h2 := hov hlt
            exact Or.inl (by omega)
          · exact Or.inr (by omega)
      · rw [if_neg hov] at hacc
        rw [not_not] at hov
        unfold areIntervalsOverlapping at hov
        rw [Bool.and_eq_true, decide_eq_true_iff, decide_eq_true_iff] at hov
        rw [List.mem_append, List.mem_append] at hacc
        rcases hacc with (h1 | h1) | h1
        · exact Or.inl h1
        · by_cases hlt : w.start < a
          · rw [if_pos hlt] at h1
            rw [List.mem_singleton] at h1
            subst h1
            exact Or.inr ⟨w, List.mem_cons_self w rest, le_refl _,
              le_of_lt hov.2, Or.inl (le_refl _), Or.inl rfl, Or.inr rfl⟩
          · rw [if_neg hlt] at h1
            simp at h1
        · by_cases hgt : w.stop > b
          · rw [if_pos hgt] at h1
            rw [List.mem_singleton] at h1
            subst h1
            exact Or.inr ⟨w, List.mem_cons_self w rest, le_of_lt hov.1,
              le_refl _, Or.inr (le_refl _), Or.inr rfl, Or.inl rfl⟩
          · rw [if_neg hgt] at h1
            simp at h1
  intro p hp
  rcases main ws [] p hp with h | h
  · simp at h
  · exact h

/-- Subtracting an ordered interval keeps the windows separated. -/
theorem subtractFixed_sep (ws : List Slot) (a b : Int) (hab : a ≤ b)
    (hsep : SepSlots ws) : SepSlots (subtractFixed ws a b) := by
  have main : ∀ (l : List Slot) (acc : List Slot),
      l.Pairwise (fun x y => x.stop ≤ y.start) →
      SepSlots acc →
      (∀ x ∈ acc, ∀ w ∈ l, x.stop ≤ w.start) →
      SepSlots (l.foldl (fun acc win =>
        if ¬ (areIntervalsOverlapping win.start win.stop a b = true) then
          acc ++ [win]
        else
          (acc ++ (if win.start < a then
              [{ start := win.start, stop := a,
                 duration := differenceInMinutes a win.start }]
            else []))
            ++ (if win.stop > b then
              [{ start := b, stop := win.stop,
                 duration := differenceInMinutes win.stop b }]
            else [])) acc) := by
    intro l
    induction l with
    | nil => intro acc _ hacc _; exact hacc
    | cons w rest ih =>
      intro acc hl hacc hcross
      rw [List.foldl_cons]
      rw [List.pairwise_cons] at hl
      have hwrest : ∀ y ∈ rest, w.stop ≤ y.start := hl.1
      -- the pieces this step appends
      have hpieces : ∀ (pieces : List Slot),
          pieces.Pairwise (fun x y => x.stop ≤ y.start) →
          (∀ p ∈ pieces, w.start ≤ p.start ∧ p.stop ≤ w.stop) →
          SepSlots (acc ++ pieces) ∧
          (∀ x ∈ acc ++ pieces, ∀ w2 ∈ rest, x.stop ≤ w2.start) := by
        intro pieces hpw hpin
        constructor
        · rw [SepSlots, List.pairwise_append]
          refine ⟨hacc, hpw, ?_⟩
          intro x hx p hp
          exact le_trans (hcross x hx w (List.mem_cons_self w rest))
            (hpin p hp).1
        · intro x hx w2 hw2
          rw [List.mem_append] at hx
          rcases hx with hx | hx
          · exact hcross x hx w2 (List.mem_cons_of_mem w hw2)
          · exact le_trans (hpin x hx).2 (hwrest w2 hw2)
      by_cases hov : ¬ (areIntervalsOverlapping w.start w.stop a b = true)
      · rw [if_pos hov]
        obtain ⟨h1, h2⟩ := hpieces [w] (List.pairwise_singleton _ _)
          (by intro p hp; rw [List.mem_singleton] at hp; subst hp
              exact ⟨le_refl _, le_refl _⟩)
        exact ih _ hl.2 h1 h2
      · rw [if_neg hov]
        rw [List.append_assoc]
        set pl := (if w.start < a then [({ start := w.start, stop := a, duration := differenceInMinutes a w.start } : Slot)] else []) with hpl
        set pr := (if w.stop > b then [({ start := b, stop := w.stop, duration := differenceInMinutes w.stop b } : Slot)] else []) with hpr
        rw [not_not] at hov
        unfold areIntervalsOverlapping at hov
        rw [Bool.and_eq_true, decide_eq_true_iff, decide_eq_true_iff] at hov
        have hplF : ∀ p ∈ pl, p.start = w.start ∧ p.stop = a := by
          intro p hp
          rw [hpl] at hp
          split at hp
          · rw [List.mem_singleton] at hp
            subst hp
            exact ⟨rfl, rfl⟩
          · simp at hp
        have hprF : ∀ p ∈ pr, p.start = b ∧ p.stop = w.stop := by
          intro p hp
          rw [hpr] at hp
          split at hp
          · rw [List.mem_singleton] at hp
            subst hp
            exact ⟨rfl, rfl⟩
          · simp at hp
        have hin : ∀ p ∈ pl ++ pr, w.start ≤ p.start ∧ p.stop ≤ w.stop := by
          intro p hp
          rw [List.mem_append] at hp
          rcases hp with hp | hp
          · obtain ⟨e1, e2⟩ := hplF p hp
            have : w.start < a := by
              rw [hpl] at hp
              by_contra hcon
              rw [if_neg hcon] at hp
              simp at hp
            omega
          · obtain ⟨e1, e2⟩ := hprF p hp
            have : b < w.stop := by
              rw [hpr] at hp
              by_contra hcon
              rw [if_neg (by omega : ¬ w.stop > b)] at hp
              simp at hp
            omega
        have hppw : (pl ++ pr).Pairwise (fun x y => x.stop ≤ y.start) := by
          rw [List.pairwise_append]
          refine ⟨?_, ?_, ?_⟩
          · rw [hpl]; split
            · exact List.pairwise_singleton _ _
            · exact List.Pairwise.nil
          · rw [hpr]; split
            · exact List.pairwise_singleton _ _
            · exact List.Pairwise.nil
          · intro x hx y hy
            rw [(hplF x hx).2, (hprF y hy).1]
            exact hab
        obtain ⟨h1, h2⟩ := hpieces (pl ++ pr) hppw hin
        exact ih _ hl.2 h1 h2
  unfold subtractFixed
  refine main ws [] hsep List.Pairwise.nil ?_
  intro x hx
  simp at hx

/-! ### Subtraction-fold invariants -/

/-- Every final piece of the subtract fold originates inside some window of
the fold's input list. -/
theorem subtractFold_origin (fs : List Task) :
    ∀ (ws0 : List Slot),
      ∀ p ∈ fs.foldl (fun ws f =>
          subtractFixed ws (f.scheduledStart.getD 0) (f.scheduledEnd.getD 0)) ws0,
        ∃ w ∈ ws0, w.start ≤ p.start ∧ p.stop ≤ w.stop := by
  induction fs with
  | nil =>
    intro ws0 p hp
    exact ⟨p, hp, le_refl _, le_refl _⟩
  | cons f rest ih =>
    intro ws0 p hp
    rw [List.foldl_cons] at hp
    obtain ⟨w1, hw1, h1, h2⟩ := ih _ p hp
    obtain ⟨w0, hw0, h3, h4, _⟩ := subtractFixed_mem ws0 _ _ w1 hw1
    exact ⟨w0, hw0, le_trans h3 h1, le_trans h2 h4⟩

/-- Every final piece of the subtract fold avoids every interval subtracted
during the fold. -/
theorem subtractFold_avoid (fs : List Task) :
    ∀ (ws0 : List Slot),
      ∀ p ∈ fs.foldl (fun ws f =>
          subtractFixed ws (f.scheduledStart.getD 0) (f.scheduledEnd.getD 0)) ws0,
        ∀ f ∈ fs, p.stop ≤ f.scheduledStart.getD 0 ∨
          f.scheduledEnd.getD 0 ≤ p.start := by
  induction fs with
  | nil =>
    intro ws0 p _ f hf
    cases hf
  | cons f0 rest ih =>
    intro ws0 p hp f hf
    rw [List.foldl_cons] at hp
    rcases List.mem_cons.mp hf with heq | hrest
    · subst heq
      obtain ⟨w1, hw1, h1, h2⟩ := subtractFold_origin rest _ p hp
      obtain ⟨w0, _, _, _, havoid, _⟩ := subtractFixed_mem ws0 _ _ w1 hw1
      rcases havoid with h | h
      · exact Or.inl (le_trans h2 h)
      · exact Or.inr (le_trans h h1)
    · exact ih _ p hp f hrest

/-- The subtract fold keeps whole-minute window bounds whole-minute when the
subtracted intervals are whole-minute. -/
theorem subtractFold_wm (fs : List Task) :
    ∀ (ws0 : List Slot),
      (∀ w ∈ ws0, (60000 : Int) ∣ w.start ∧ (60000 : Int) ∣ w.stop) →
      (∀ f ∈ fs, (60000 : Int) ∣ f.scheduledStart.getD 0 ∧
        (60000 : Int) ∣ f.scheduledEnd.getD 0) →
      ∀ p ∈ fs.foldl (fun ws f =>
          subtractFixed ws (f.scheduledStart.getD 0) (f.scheduledEnd.getD 0)) ws0,
        (60000 : Int) ∣ p.start ∧ (60000 : Int) ∣ p.stop := by
  induction fs with
  | nil =>
    intro ws0 h0 _ p hp
    exact h0 p hp
  | cons f0 rest ih =>
    intro ws0 h0 hfs p hp
    rw [List.foldl_cons] at hp
    refine ih _ ?_ (fun f hf => hfs f (List.mem_cons_of_mem f0 hf)) p hp
    intro q hq
    obtain ⟨w0, hw0, _, _, _, hbs, hbe⟩ := subtractFixed_mem ws0 _ _ q hq
    have hf0 := hfs f0 (List.mem_cons_self f0 rest)
    have hw := h0 w0 hw0
    constructor
    · rcases hbs with h | h
      · rw [h]; exact hw.1
      · rw [h]; exact hf0.2
    · rcases hbe with h | h
      · rw [h]; exact hw.2
      · rw [h]; exact hf0.1

/-- The subtract fold keeps the windows separated when every subtracted
interval is ordered. -/
theorem subtractFold_sep (fs : List Task) :
    ∀ (ws0 : List Slot), SepSlots ws0 →
      (∀ f ∈ fs, f.scheduledStart.getD 0 ≤ f.scheduledEnd.getD 0) →
      SepSlots (fs.foldl (fun ws f =>
        subtractFixed ws (f.scheduledStart.getD 0) (f.scheduledEnd.getD 0)) ws0) := by
  induction fs with
  | nil => intro ws0 h0 _; exact h0
  | cons f0 rest ih =>
    intro ws0 h0 hfs
    rw [List.foldl_cons]
    refine ih _ ?_ (fun f hf => hfs f (List.mem_cons_of_mem f0 hf))
    exact subtractFixed_sep ws0 _ _ (hfs f0 (List.mem_cons_self f0 rest)) h0

/-- Grid snapping and the 15-minute filter keep separated windows
separated, provided window starts are whole-minute. -/
theorem snap_sep (S : List Slot)
    (hsep : SepSlots S)
    (hwm : ∀ p ∈ S, (60000 : Int) ∣ p.start) :
    SepSlots ((S.filterMap (fun win =>
      if ¬ (ceilTo15 win.start < floorTo15 win.stop) then none
      else some ({ start := ceilTo15 win.start, stop := floorTo15 win.stop, duration := differenceInMinutes (floorTo15 win.stop) (ceilTo15 win.start) } : Slot))).filter
      (fun w : Slot => decide (w.duration ≥ 15))) := by
  refine List.Pairwise.sublist (List.filter_sublist _) ?_
  rw [List.pairwise_filterMap]
  refine List.Pairwise.imp_of_mem ?_ hsep
  intro a b ha hb hR x hx y hy
  split at hx
  · simp at hx
  rw [Option.mem_def, Option.some.injEq] at hx
  subst hx
  split at hy
  · simp at hy
  rw [Option.mem_def, Option.some.injEq] at hy
  subst hy
  dsimp only
  calc floorTo15 a.stop ≤ a.stop := floorTo15_le a.stop
    _ ≤ b.start := hR
    _ ≤ ceilTo15 b.start := ceilTo15_ge (hwm b hb)

/-- The windows of one day are separated, lie inside the work interval, and
avoid every active fixed event whose start falls on this day. -/
theorem dayWindowsCore_main (fixedTasks : List Task)
    (iterDate workStart workEnd : Int)
    (h60s : (60000 : Int) ∣ workStart) (h60e : (60000 : Int) ∣ workEnd)
    (hfix : ∀ f ∈ fixedTasks, ∀ s e : Int, f.scheduledStart = some s →
      f.scheduledEnd = some e → f.status ≠ TaskStatus.done →
      s < e ∧ e ≤ startOfDay s + 86400000 ∧
      (60000 : Int) ∣ s ∧ (60000 : Int) ∣ e) :
    SepSlots (dayWindowsCore (fixedTasksByDay fixedTasks) iterDate workStart
      workEnd) ∧
    ∀ w ∈ dayWindowsCore (fixedTasksByDay fixedTasks) iterDate workStart
      workEnd,
      workStart ≤ w.start ∧ w.stop ≤ workEnd ∧
      ∀ f ∈ fixedTasks, activeFixed f →
        startOfDay (startMs f) = startOfDay iterDate →
        IvDisj (slotIv w) (taskIv f) := by
  set fb := fixedTasksByDay fixedTasks with hfb
  set B := (mapGet fb (startOfDay iterDate)).getD [] with hB
  set OF := B.filter (fun t =>
    decide (t.scheduledStart.getD 0 < workEnd) &&
    decide (t.scheduledEnd.getD 0 > workStart)) with hOF
  set S := OF.foldl (fun ws f =>
    subtractFixed ws (f.scheduledStart.getD 0) (f.scheduledEnd.getD 0))
    [({ start := workStart, stop := workEnd, duration := differenceInMinutes workEnd workStart } : Slot)] with hS
  set FIN := (S.filterMap (fun win =>
    if ¬ (ceilTo15 win.start < floorTo15 win.stop) then none
    else some ({ start := ceilTo15 win.start, stop := floorTo15 win.stop, duration := differenceInMinutes (floorTo15 win.stop) (ceilTo15 win.start) } : Slot))).filter
    (fun w : Slot => decide (w.duration ≥ 15)) with hFIN
  have hEq : dayWindowsCore fb iterDate workStart workEnd =
      if workStart > workEnd ∨ workStart = workEnd then [] else FIN := by
    rw [hFIN, hS, hOF, hB, hfb]
    rfl
  have hBmem : ∀ g ∈ B, g ∈ fixedTasks ∧ activeFixed g := by
    intro g hg
    rw [hB] at hg
    cases hbkt : mapGet fb (startOfDay iterDate) with
    | none =>
      rw [hbkt] at hg
      simp at hg
    | some bl =>
      rw [hbkt] at hg
      rw [hfb] at hbkt
      exact fixedTasksByDay_mem fixedTasks _ bl hbkt g hg
  have hBgood : ∀ g ∈ B, g.scheduledStart.getD 0 < g.scheduledEnd.getD 0 ∧
      (60000 : Int) ∣ g.scheduledStart.getD 0 ∧
      (60000 : Int) ∣ g.scheduledEnd.getD 0 := by
    intro g hg
    obtain ⟨hgF, hg1, hg2, hg3⟩ := hBmem g hg
    obtain ⟨s, hgs⟩ := Option.isSome_iff_exists.mp hg1
    obtain ⟨e, hge⟩ := Option.isSome_iff_exists.mp hg2
    obtain ⟨k1, _, k3, k4⟩ := hfix g hgF s e hgs hge hg3
    rw [hgs, hge]
    exact ⟨k1, k3, k4⟩
  have hSsep : SepSlots S := by
    rw [hS]
    refine subtractFold_sep OF _ ?_ ?_
    · exact List.pairwise_singleton _ _
    · intro f hf
      exact le_of_lt (hBgood f (List.mem_of_mem_filter hf)).1
  have hSwm : ∀ p ∈ S, (60000 : Int) ∣ p.start ∧ (60000 : Int) ∣ p.stop := by
    rw [hS]
    refine subtractFold_wm OF _ ?_ ?_
    · intro w hw
      rw [List.mem_singleton] at hw
      subst hw
      exact ⟨h60s, h60e⟩
    · intro f hf
      exact (hBgood f (List.mem_of_mem_filter hf)).2
  have hScont : ∀ p ∈ S, workStart ≤ p.start ∧ p.stop ≤ workEnd := by
    rw [hS]
    refine subtractFold_sub OF _ workStart workEnd ?_
    intro w hw
    rw [List.mem_singleton] at hw
    subst hw
    exact ⟨le_refl _, le_refl _⟩
  have hSavoid : ∀ p ∈ S, ∀ f ∈ OF,
      p.stop ≤ f.scheduledStart.getD 0 ∨ f.scheduledEnd.getD 0 ≤ p.start := by
    rw [hS]
    exact subtractFold_avoid OF _
  constructor
  · rw [hEq]
    split
    · exact List.Pairwise.nil
    · rw [hFIN]
      exact snap_sep S hSsep (fun p hp => (hSwm p hp).1)
  · intro w hw
    rw [hEq] at hw
    split at hw
    · simp at hw
    rw [hFIN, List.mem_filter] at hw
    obtain ⟨hw, hdur⟩ := hw
    rw [List.mem_filterMap] at hw
    obtain ⟨p, hp, heq⟩ := hw
    split at heq
    · simp at heq
    rename_i hlt
    rw [Option.some.injEq] at heq
    subst heq
    have hpin : p.start ≤ ceilTo15 p.start ∧ floorTo15 p.stop ≤ p.stop :=
      ⟨ceilTo15_ge (hSwm p hp).1, floorTo15_le p.stop⟩
    obtain ⟨hc1, hc2⟩ := hScont p hp
    refine ⟨le_trans hc1 hpin.1, le_trans hpin.2 hc2, ?_⟩
    intro f hfT hact hday
    obtain ⟨hf1, hf2, hf3⟩ := hact
    obtain ⟨s, hfs⟩ := Option.isSome_iff_exists.mp hf1
    obtain ⟨e, hfe⟩ := Option.isSome_iff_exists.mp hf2
    have hsms : startMs f = s := by rw [startMs, hfs]; rfl
    have hems : endMs f = e := by rw [endMs, hfe]; rfl
    rw [hsms] at hday
    obtain ⟨bl, hbl, hfbl⟩ := fixedTasksByDay_complete fixedTasks f s hfT
      hfs hf2 hf3
    rw [hday, ← hfb] at hbl
    have hfB : f ∈ B := by
      rw [hB, hbl]
      exact hfbl
    unfold IvDisj slotIv taskIv
    dsimp only
    rw [hsms, hems]
    by_cases hovl : (decide (f.scheduledStart.getD 0 < workEnd) &&
        decide (f.scheduledEnd.getD 0 > workStart)) = true
    · have hfOF : f ∈ OF := by
        rw [hOF]
        exact List.mem_filter.mpr ⟨hfB, hovl⟩
      have havoid := hSavoid p hp f hfOF
      rw [hfs, hfe] at havoid
      dsimp only [Option.getD] at havoid
      rcases havoid with h | h
      · exact Or.inl (by omega)
      · exact Or.inr (by omega)
    · rw [Bool.and_eq_true, decide_eq_true_iff, decide_eq_true_iff] at hovl
      push_neg at hovl
      rw [hfs, hfe] at hovl
      dsimp only [Option.getD] at hovl
      by_cases hlt2 : s < workEnd
      · have h2 := hovl hlt2
        exact Or.inr (by omega)
      · exact Or.inl (by omega)

/-- A single-day event of a different civil day cannot meet a window kept
inside the first 23 hours of its own day. -/
theorem otherDay_avoid {w : Slot} {f : Task} {D : Int}
    (hDal : ∃ k : Int, D = 86400000 * k)
    (hwlo : D ≤ w.start) (hwhi : w.stop ≤ D + 82800000)
    (s e : Int) (hs : f.scheduledStart = some s) (he : f.scheduledEnd = some e)
    (hone : e ≤ startOfDay s + 86400000)
    (hne : startOfDay s ≠ D) :
    IvDisj (slotIv w) (taskIv f) := by
  unfold IvDisj slotIv taskIv
  dsimp only
  have hsms : startMs f = s := by rw [startMs, hs]; rfl
  have hems : endMs f = e := by rw [endMs, he]; rfl
  rw [hsms, hems]
  obtain ⟨k, hk⟩ := hDal
  unfold startOfDay at hone hne
  omega

/-- One day of the availability scan: separated windows inside the day that
avoid every well-formed active fixed event. -/
theorem dayWindowsFor_main (settings : UserSettings) (currentDate : Int)
    (fixedTasks : List Task) (iterDate : Int)
    (hws : 0 ≤ settings.workStartHour) (hwe : settings.workEndHour ≤ 23)
    (hfix : ∀ f ∈ fixedTasks, ∀ s e : Int, f.scheduledStart = some s →
      f.scheduledEnd = some e → f.status ≠ TaskStatus.done →
      s < e ∧ e ≤ startOfDay s + 86400000 ∧
      (60000 : Int) ∣ s ∧ (60000 : Int) ∣ e) :
    SepSlots (dayWindowsFor settings currentDate (fixedTasksByDay fixedTasks)
      iterDate) ∧
    ∀ w ∈ dayWindowsFor settings currentDate (fixedTasksByDay fixedTasks)
        iterDate,
      startOfDay iterDate ≤ w.start ∧
      w.stop ≤ startOfDay iterDate + 82800000 ∧
      ∀ f ∈ fixedTasks, activeFixed f → IvDisj (slotIv w) (taskIv f) := by
  have hD : (60000 : Int) ∣ startOfDay iterDate :=
    ⟨(iterDate / 86400000) * 1440, by unfold startOfDay; ring⟩
  have hDal : ∃ k : Int, startOfDay iterDate = 86400000 * k :=
    ⟨iterDate / 86400000, by unfold startOfDay; ring⟩
  have hEq : dayWindowsFor settings currentDate (fixedTasksByDay fixedTasks)
      iterDate =
      if settings.workDays.contains (getDay iterDate) then
        (if startOfDay iterDate + settings.workStartHour * 3600000 <
              currentDate ∧
            currentDate < startOfDay iterDate +
              settings.workEndHour * 3600000 then
          dayWindowsCore (fixedTasksByDay fixedTasks) iterDate
            (ceilTo15 currentDate)
            (startOfDay iterDate + settings.workEndHour * 3600000)
        else if currentDate > startOfDay iterDate +
              settings.workStartHour * 3600000 ∧
            currentDate > startOfDay iterDate +
              settings.workEndHour * 3600000 then []
        else dayWindowsCore (fixedTasksByDay fixedTasks) iterDate
          (startOfDay iterDate + settings.workStartHour * 3600000)
          (startOfDay iterDate + settings.workEndHour * 3600000))
      else [] := by
    unfold dayWindowsFor
    rw [ceilTo15_setMinutes_setHours, floorTo15_setMinutes_setHours]
  have hweB : settings.workEndHour * 3600000 ≤ 82800000 := by
    have := mul_le_mul_of_nonneg_right hwe (by norm_num : (0 : Int) ≤ 3600000)
    omega
  have hwsB : 0 ≤ settings.workStartHour * 3600000 :=
    mul_nonneg hws (by norm_num)
  have h60e : (60000 : Int) ∣ startOfDay iterDate +
      settings.workEndHour * 3600000 :=
    dvd_add hD ⟨settings.workEndHour * 60, by ring⟩
  by_cases hwd : settings.workDays.contains (getDay iterDate)
  rotate_left
  · rw [hEq, if_neg hwd]
    exact ⟨List.Pairwise.nil, by intro w hw; simp at hw⟩
  rw [hEq, if_pos hwd]
  by_cases hclamp : startOfDay iterDate + settings.workStartHour * 3600000 <
      currentDate ∧
      currentDate < startOfDay iterDate + settings.workEndHour * 3600000
  · rw [if_pos hclamp]
    have h60s : (60000 : Int) ∣ ceilTo15 currentDate :=
      ceilTo15_whole currentDate
    obtain ⟨hsep, hmem⟩ := dayWindowsCore_main fixedTasks iterDate
      (ceilTo15 currentDate)
      (startOfDay iterDate + settings.workEndHour * 3600000) h60s h60e hfix
    refine ⟨hsep, ?_⟩
    intro w hw
    obtain ⟨h1, h2, h3⟩ := hmem w hw
    have hDle : startOfDay iterDate ≤ ceilTo15 currentDate := by
      refine ceilTo15_ge_of_whole_le hD ?_
      have := hclamp.1
      omega
    refine ⟨le_trans hDle h1, by omega, ?_⟩
    intro f hfT hact
    by_cases hday : startOfDay (startMs f) = startOfDay iterDate
    · exact h3 f hfT hact hday
    · obtain ⟨hf1, hf2, hf3⟩ := hact
      obtain ⟨s, hfs⟩ := Option.isSome_iff_exists.mp hf1
      obtain ⟨e, hfe⟩ := Option.isSome_iff_exists.mp hf2
      obtain ⟨k1, k2, _, _⟩ := hfix f hfT s e hfs hfe hf3
      have hsms : startMs f = s := by rw [startMs, hfs]; rfl
      rw [hsms] at hday
      exact otherDay_avoid hDal (le_trans hDle h1) (by omega) s e hfs hfe
        k2 hday
  rw [if_neg hclamp]
  by_cases hmid : currentDate > startOfDay iterDate +
      settings.workStartHour * 3600000 ∧
      currentDate > startOfDay iterDate + settings.workEndHour * 3600000
  · rw [if_pos hmid]
    exact ⟨List.Pairwise.nil, by intro w hw; simp at hw⟩
  rw [if_neg hmid]
  have h60s : (60000 : Int) ∣ startOfDay iterDate +
      settings.workStartHour * 3600000 :=
    dvd_add hD ⟨settings.workStartHour * 60, by ring⟩
  obtain ⟨hsep, hmem⟩ := dayWindowsCore_main fixedTasks iterDate
    (startOfDay iterDate + settings.workStartHour * 3600000)
    (startOfDay iterDate + settings.workEndHour * 3600000) h60s h60e hfix
  refine ⟨hsep, ?_⟩
  intro w hw
  obtain ⟨h1, h2, h3⟩ := hmem w hw
  refine ⟨by omega, by omega, ?_⟩
  intro f hfT hact
  by_cases hday : startOfDay (startMs f) = startOfDay iterDate
  · exact h3 f hfT hact hday
  · obtain ⟨hf1, hf2, hf3⟩ := hact
    obtain ⟨s, hfs⟩ := Option.isSome_iff_exists.mp hf1
    obtain ⟨e, hfe⟩ := Option.isSome_iff_exists.mp hf2
    obtain ⟨k1, k2, _, _⟩ := hfix f hfT s e hfs hfe hf3
    have hsms : startMs f = s := by rw [startMs, hfs]; rfl
    rw [hsms] at hday
    exact otherDay_avoid hDal (by omega) (by omega) s e hfs hfe k2 hday

/-- The 180-day availability loop: separated windows after the loop start
that avoid every well-formed active fixed event. -/
theorem availableWindowsLoop_main (settings : UserSettings) (currentDate : Int)
    (fixedTasks : List Task)
    (hws : 0 ≤ settings.workStartHour) (hwe : settings.workEndHour ≤ 23)
    (hfix : ∀ f ∈ fixedTasks, ∀ s e : Int, f.scheduledStart = some s →
      f.scheduledEnd = some e → f.status ≠ TaskStatus.done →
      s < e ∧ e ≤ startOfDay s + 86400000 ∧
      (60000 : Int) ∣ s ∧ (60000 : Int) ∣ e) :
    ∀ (n : Nat) (d : Int), startOfDay d = d →
      SepSlots (availableWindowsLoop settings currentDate
        (fixedTasksByDay fixedTasks) n d) ∧
      ∀ w ∈ availableWindowsLoop settings currentDate
          (fixedTasksByDay fixedTasks) n d,
        d ≤ w.start ∧
        ∀ f ∈ fixedTasks, activeFixed f → IvDisj (slotIv w) (taskIv f) := by
  intro n
  induction n with
  | zero =>
    intro d hd
    exact ⟨List.Pairwise.nil, by intro w hw; simp [availableWindowsLoop] at hw⟩
  | succ m ih =>
    intro d hd
    obtain ⟨hsep1, hmem1⟩ := dayWindowsFor_main settings currentDate fixedTasks
      d hws hwe hfix
    have hd1 : startOfDay (addDays d 1) = addDays d 1 := by
      unfold startOfDay addDays at *
      omega
    obtain ⟨hsep2, hmem2⟩ := ih (addDays d 1) hd1
    constructor
    · rw [availableWindowsLoop, SepSlots, List.pairwise_append]
      refine ⟨hsep1, hsep2, ?_⟩
      intro a ha b hb
      obtain ⟨h1, h2, _⟩ := hmem1 a ha
      obtain ⟨h3, _⟩ := hmem2 b hb
      rw [hd] at h2
      unfold addDays at h3
      omega
    · intro w hw
      rw [availableWindowsLoop, List.mem_append] at hw
      rcases hw with hw | hw
      · obtain ⟨h1, _, h3⟩ := hmem1 w hw
        rw [hd] at h1
        exact ⟨h1, h3⟩
      · obtain ⟨h1, h2⟩ := hmem2 w hw
        unfold addDays at h1
        exact ⟨by omega, h2⟩

/-- One window of the chunk walk: focus slots and breaks tile the window
after the cursor, in order and without overlap. -/
theorem chunkLoop_main (settings : UserSettings) (wStop : Int) :
    ∀ (fuel : Nat) (cursor c : Int) (slots : List Slot) (breaks : List Task)
      (c2 : Int),
      chunkLoop settings wStop fuel cursor c = (slots, breaks, c2) →
      (∀ s ∈ slots, cursor ≤ s.start ∧ s.start < s.stop ∧ s.stop ≤ wStop) ∧
      (∀ b ∈ breaks, cursor ≤ startMs b ∧ startMs b < endMs b ∧
        endMs b ≤ wStop) ∧
      SepSlots slots ∧ SepTasks breaks ∧
      (∀ s ∈ slots, ∀ b ∈ breaks, IvDisj (slotIv s) (taskIv b)) := by
  intro fuel
  induction fuel with
  | zero =>
    intro cursor c slots breaks c2 h
    cases h
    exact ⟨by simp, by simp, List.Pairwise.nil, List.Pairwise.nil, by simp⟩
  | succ n ih =>
    intro cursor c slots breaks c2 h
    simp only [chunkLoop] at h
    split at h
    rotate_left
    · cases h
      exact ⟨by simp, by simp, List.Pairwise.nil, List.Pairwise.nil, by simp⟩
    rename_i hc
    split at h
    · cases h
      exact ⟨by simp, by simp, List.Pairwise.nil, List.Pairwise.nil, by simp⟩
    rename_i hrem
    split at h
    · cases h
      exact ⟨by simp, by simp, List.Pairwise.nil, List.Pairwise.nil, by simp⟩
    rename_i hwd
    set wd := min (roundToNearest15 settings.workChunkMinutes)
      ((differenceInMinutes wStop cursor / 15) * 15) with hwdEq
    set we := addMinutes cursor wd with hweEq
    obtain ⟨hwd15, hwdle⟩ :=
      chunkAmount_ok settings.workChunkMinutes wStop cursor (le_of_lt hc)
    rw [← hwdEq] at hwdle
    have hwdge : (15 : Int) ≤ wd := by omega
    have hwe : we = cursor + wd * 60000 := by rw [hweEq]; rfl
    split at h
    · rename_i hroom
      split at h
      · -- long break cadence
        rename_i hL
        set bd := min (roundToNearest15 settings.longBreakMinutes)
          ((differenceInMinutes wStop we / 15) * 15) with hbdEq
        set be := addMinutes we bd with hbeEq
        split at h
        · rename_i hbd
          injection h with h1 h23
          injection h23 with h2 h3
          subst h1 h2 h3
          obtain ⟨hbd15, hbdle⟩ :=
            chunkAmount_ok settings.longBreakMinutes wStop we (by omega)
          rw [← hbdEq] at hbdle
          have hbe : be = we + bd * 60000 := by rw [hbeEq]; rfl
          obtain ⟨ih1, ih2, ih3, ih4, ih5⟩ := ih be (c + 1) _ _ _ rfl
          refine ⟨?_, ?_, ?_, ?_, ?_⟩
          · intro s hs
            rcases List.mem_cons.mp hs with rfl | hs
            · dsimp only
              omega
            · obtain ⟨k1, k2, k3⟩ := ih1 s hs
              exact ⟨by omega, k2, k3⟩
          · intro b hb
            rcases List.mem_cons.mp hb with rfl | hb
            · dsimp only [startMs, endMs, Option.getD]
              omega
            · obtain ⟨k1, k2, k3⟩ := ih2 b hb
              exact ⟨by omega, k2, k3⟩
          · rw [SepSlots, List.pairwise_cons]
            refine ⟨?_, ih3⟩
            intro s hs
            obtain ⟨k1, _, _⟩ := ih1 s hs
            dsimp only
            omega
          · rw [SepTasks, List.pairwise_cons]
            refine ⟨?_, ih4⟩
            intro b hb
            obtain ⟨k1, _, _⟩ := ih2 b hb
            show be ≤ startMs b
            omega
          · intro s hs b hb
            rcases List.mem_cons.mp hs with rfl | hs
            · rcases List.mem_cons.mp hb with rfl | hb
              · exact Or.inl (le_refl we)
              · obtain ⟨k1, _, _⟩ := ih2 b hb
                exact Or.inl (show (we : Int) ≤ startMs b by omega)
            · rcases List.mem_cons.mp hb with rfl | hb
              · obtain ⟨k1, _, _⟩ := ih1 s hs
                exact Or.inr (show (be : Int) ≤ s.start from k1)
              · exact ih5 s hs b hb
        · exfalso
          rename_i hbd
          have h1 := roundToNearest15_ge settings.longBreakMinutes
          have h2 := ediv15_mul_ge hroom
          omega
      · -- short break cadence
        rename_i hL
        set bd := min (roundToNearest15 settings.shortBreakMinutes)
          ((differenceInMinutes wStop we / 15) * 15) with hbdEq
        set be := addMinutes we bd with hbeEq
        split at h
        · rename_i hbd
          injection h with h1 h23
          injection h23 with h2 h3
          subst h1 h2 h3
          obtain ⟨hbd15, hbdle⟩ :=
            chunkAmount_ok settings.shortBreakMinutes wStop we (by omega)
          rw [← hbdEq] at hbdle
          have hbe : be = we + bd * 60000 := by rw [hbeEq]; rfl
          obtain ⟨ih1, ih2, ih3, ih4, ih5⟩ := ih be (c + 1) _ _ _ rfl
          refine ⟨?_, ?_, ?_, ?_, ?_⟩
          · intro s hs
            rcases List.mem_cons.mp hs with rfl | hs
            · dsimp only
              omega
            · obtain ⟨k1, k2, k3⟩ := ih1 s hs
              exact ⟨by omega, k2, k3⟩
          · intro b hb
            rcases List.mem_cons.mp hb with rfl | hb
            · dsimp only [startMs, endMs, Option.getD]
              omega
            · obtain ⟨k1, k2, k3⟩ := ih2 b hb
              exact ⟨by omega, k2, k3⟩
          · rw [SepSlots, List.pairwise_cons]
            refine ⟨?_, ih3⟩
            intro s hs
            obtain ⟨k1, _, _⟩ := ih1 s hs
            dsimp only
            omega
          · rw [SepTasks, List.pairwise_cons]
            refine ⟨?_, ih4⟩
            intro b hb
            obtain ⟨k1, _, _⟩ := ih2 b hb
            show be ≤ startMs b
            omega
          · intro s hs b hb
            rcases List.mem_cons.mp hs with rfl | hs
            · rcases List.mem_cons.mp hb with rfl | hb
              · exact Or.inl (le_refl we)
              · obtain ⟨k1, _, _⟩ := ih2 b hb
                exact Or.inl (show (we : Int) ≤ startMs b by omega)
            · rcases List.mem_cons.mp hb with rfl | hb
              · obtain ⟨k1, _, _⟩ := ih1 s hs
                exact Or.inr (show (be : Int) ≤ s.start from k1)
              · exact ih5 s hs b hb
        · exfalso
          rename_i hbd
          have h1 := roundToNearest15_ge settings.shortBreakMinutes
          have h2 := ediv15_mul_ge hroom
          omega
    · rename_i hroom
      rw [chunkLoop_nil settings wStop n we (c + 1) (by omega)] at h
      injection h with h1 h23
      injection h23 with h2 h3
      subst h1 h2 h3
      refine ⟨?_, by simp, ?_, List.Pairwise.nil, ?_⟩
      · intro s hs
        rcases List.mem_cons.mp hs with rfl | hs
        · dsimp only
          omega
        · simp at hs
      · exact List.pairwise_singleton _ _
      · intro s hs b hb
        simp at hb

/-- The chunking phase over separated windows: separated focus slots and
breaks, mutually disjoint, each contained in one of the windows. -/
theorem chunkWindows_main (settings : UserSettings) (ws : List Slot)
    (hsep : SepSlots ws) :
    SepSlots (chunkWindows settings ws).1 ∧
    SepTasks (chunkWindows settings ws).2 ∧
    (∀ s ∈ (chunkWindows settings ws).1, ∀ b ∈ (chunkWindows settings ws).2,
      IvDisj (slotIv s) (taskIv b)) ∧
    (∀ s ∈ (chunkWindows settings ws).1,
      ∃ w ∈ ws, w.start ≤ s.start ∧ s.start < s.stop ∧ s.stop ≤ w.stop) ∧
    (∀ b ∈ (chunkWindows settings ws).2,
      ∃ w ∈ ws, w.start ≤ startMs b ∧ startMs b < endMs b ∧
        endMs b ≤ w.stop) := by
  have main : ∀ (l : List Slot) (acc : List Slot × List Task × Int)
      (P : List Slot),
      l.Pairwise (fun a b => a.stop ≤ b.start) →
      (∀ w2 ∈ P, ∀ w ∈ l, w2.stop ≤ w.start) →
      SepSlots acc.1 → SepTasks acc.2.1 →
      (∀ s ∈ acc.1, ∀ b ∈ acc.2.1, IvDisj (slotIv s) (taskIv b)) →
      (∀ s ∈ acc.1, ∃ w ∈ P, w.start ≤ s.start ∧ s.start < s.stop ∧
        s.stop ≤ w.stop) →
      (∀ b ∈ acc.2.1, ∃ w ∈ P, w.start ≤ startMs b ∧ startMs b < endMs b ∧
        endMs b ≤ w.stop) →
      SepSlots (l.foldl (fun (acc : List Slot × List Task × Int) w =>
        let r := chunkLoop settings w.stop (w.duration.toNat + 1) w.start
          acc.2.2
        (acc.1 ++ r.1, acc.2.1 ++ r.2.1, r.2.2)) acc).1 ∧
      SepTasks (l.foldl (fun (acc : List Slot × List Task × Int) w =>
        let r := chunkLoop settings w.stop (w.duration.toNat + 1) w.start
          acc.2.2
        (acc.1 ++ r.1, acc.2.1 ++ r.2.1, r.2.2)) acc).2.1 ∧
      (∀ s ∈ (l.foldl (fun (acc : List Slot × List Task × Int) w =>
        let r := chunkLoop settings w.stop (w.duration.toNat + 1) w.start
          acc.2.2
        (acc.1 ++ r.1, acc.2.1 ++ r.2.1, r.2.2)) acc).1,
        ∀ b ∈ (l.foldl (fun (acc : List Slot × List Task × Int) w =>
          let r := chunkLoop settings w.stop (w.duration.toNat + 1) w.start
            acc.2.2
          (acc.1 ++ r.1, acc.2.1 ++ r.2.1, r.2.2)) acc).2.1,
          IvDisj (slotIv s) (taskIv b)) ∧
      (∀ s ∈ (l.foldl (fun (acc : List Slot × List Task × Int) w =>
        let r := chunkLoop settings w.stop (w.duration.toNat + 1) w.start
          acc.2.2
        (acc.1 ++ r.1, acc.2.1 ++ r.2.1, r.2.2)) acc).1,
        ∃ w ∈ P ++ l, w.start ≤ s.start ∧ s.start < s.stop ∧
          s.stop ≤ w.stop) ∧
      (∀ b ∈ (l.foldl (fun (acc : List Slot × List Task × Int) w =>
        let r := chunkLoop settings w.stop (w.duration.toNat + 1) w.start
          acc.2.2
        (acc.1 ++ r.1, acc.2.1 ++ r.2.1, r.2.2)) acc).2.1,
        ∃ w ∈ P ++ l, w.start ≤ startMs b ∧ startMs b < endMs b ∧
          endMs b ≤ w.stop) := by
    intro l
    induction l with
    | nil =>
      intro acc P _ _ h1 h2 h3 h4 h5
      refine ⟨h1, h2, h3, ?_, ?_⟩
      · intro s hs
        obtain ⟨w, hw, hf⟩ := h4 s hs
        exact ⟨w, List.mem_append_left _ hw, hf⟩
      · intro b hb
        obtain ⟨w, hw, hf⟩ := h5 b hb
        exact ⟨w, List.mem_append_left _ hw, hf⟩
    | cons w rest ih =>
      intro acc P hl hPl h1 h2 h3 h4 h5
      rw [List.foldl_cons]
      rw [List.pairwise_cons] at hl
      obtain ⟨r1, r2, r3, r4, r5⟩ := chunkLoop_main settings w.stop
        (w.duration.toNat + 1) w.start acc.2.2 _ _ _ rfl
      have hPw : ∀ w2 ∈ P, w2.stop ≤ w.start :=
        fun w2 hw2 => hPl w2 hw2 w (List.mem_cons_self w rest)
      have hacc1 : ∀ s ∈ acc.1, s.stop ≤ w.start := by
        intro s hs
        obtain ⟨wp, hwp, _, _, k3⟩ := h4 s hs
        exact le_trans k3 (hPw wp hwp)
      have hacc2 : ∀ b ∈ acc.2.1, endMs b ≤ w.start := by
        intro b hb
        obtain ⟨wp, hwp, _, _, k3⟩ := h5 b hb
        exact le_trans k3 (hPw wp hwp)
      have hcall := ih (acc.1 ++ (chunkLoop settings w.stop
          (w.duration.toNat + 1) w.start acc.2.2).1,
        acc.2.1 ++ (chunkLoop settings w.stop
          (w.duration.toNat + 1) w.start acc.2.2).2.1,
        (chunkLoop settings w.stop
          (w.duration.toNat + 1) w.start acc.2.2).2.2) (P ++ [w]) hl.2 ?_
        ?_ ?_ ?_ ?_ ?_
      · obtain ⟨m1, m2, m3, m4, m5⟩ := hcall
        refine ⟨m1, m2, m3, ?_, ?_⟩
        · intro s hs
          obtain ⟨wp, hwp, hf⟩ := m4 s hs
          rw [List.append_assoc, List.singleton_append] at hwp
          exact ⟨wp, hwp, hf⟩
        · intro b hb
          obtain ⟨wp, hwp, hf⟩ := m5 b hb
          rw [List.append_assoc, List.singleton_append] at hwp
          exact ⟨wp, hwp, hf⟩
      · intro w2 hw2 w3 hw3
        rw [List.mem_append] at hw2
        rcases hw2 with hw2 | hw2
        · exact hPl w2 hw2 w3 (List.mem_cons_of_mem w hw3)
        · rw [List.mem_singleton] at hw2
          subst hw2
          exact hl.1 w3 hw3
      · rw [SepSlots, List.pairwise_append]
        refine ⟨h1, r3, ?_⟩
        intro s hs s2 hs2
        have k1 := (r1 s2 hs2).1
        have k2 := hacc1 s hs
        omega
      · rw [SepTasks, List.pairwise_append]
        refine ⟨h2, r4, ?_⟩
        intro b hb b2 hb2
        have k1 := (r2 b2 hb2).1
        have k2 := hacc2 b hb
        omega
      · intro s hs b hb
        rw [List.mem_append] at hs hb
        rcases hs with hs | hs <;> rcases hb with hb | hb
        · exact h3 s hs b hb
        · refine Or.inl ?_
          have k1 := (r2 b hb).1
          have k2 := hacc1 s hs
          show s.stop ≤ startMs b
          omega
        · refine Or.inr ?_
          have k1 := (r1 s hs).1
          have k2 := hacc2 b hb
          show endMs b ≤ s.start
          omega
        · exact r5 s hs b hb
      · intro s hs
        rw [List.mem_append] at hs
        rcases hs with hs | hs
        · obtain ⟨wp, hwp, hf⟩ := h4 s hs
          exact ⟨wp, List.mem_append_left _ hwp, hf⟩
        · obtain ⟨k1, k2, k3⟩ := r1 s hs
          exact ⟨w, List.mem_append_right _ (List.mem_singleton.mpr rfl),
            k1, k2, k3⟩
      · intro b hb
        rw [List.mem_append] at hb
        rcases hb with hb | hb
        · obtain ⟨wp, hwp, hf⟩ := h5 b hb
          exact ⟨wp, List.mem_append_left _ hwp, hf⟩
        · obtain ⟨k1, k2, k3⟩ := r2 b hb
          exact ⟨w, List.mem_append_right _ (List.mem_singleton.mpr rfl),
            k1, k2, k3⟩
  unfold chunkWindows
  dsimp only
  have hm := main ws ([], [], 0) [] hsep (by intro w2 hw2; simp at hw2)
    List.Pairwise.nil List.Pairwise.nil (by intro s hs; simp at hs)
    (by intro s hs; simp at hs) (by intro b hb; simp at hb)
  obtain ⟨m1, m2, m3, m4, m5⟩ := hm
  rw [List.nil_append] at m4 m5
  exact ⟨m1, m2, m3, m4, m5⟩

/-- Replacing one slot of a separated sequence by ordered sub-pieces keeps
the sequence separated. -/
theorem sep_replace {A B pieces : List Slot} {s : Slot}
    (h : List.Pairwise (fun a b => a.stop ≤ b.start) (A ++ s :: B))
    (hp : List.Pairwise (fun a b => a.stop ≤ b.start) pieces)
    (hin : ∀ p ∈ pieces, s.start ≤ p.start ∧ p.stop ≤ s.stop) :
    List.Pairwise (fun a b => a.stop ≤ b.start) (A ++ (pieces ++ B)) := by
  rw [List.pairwise_append] at h ⊢
  obtain ⟨hA, hSB, hX⟩ := h
  rw [List.pairwise_cons] at hSB
  obtain ⟨hsb, hB⟩ := hSB
  refine ⟨hA, ?_, ?_⟩
  · rw [List.pairwise_append]
    refine ⟨hp, hB, ?_⟩
    intro p hpm b hb
    exact le_trans (hin p hpm).2 (hsb b hb)
  · intro a ha b hb
    rw [List.mem_append] at hb
    rcases hb with hb | hb
    · exact le_trans (hX a ha s (List.mem_cons_self s B)) (hin b hb).1
    · exact hX a ha b (List.mem_cons_of_mem s hb)

/-- The fitting walk keeps the live slots separated, the emitted parts
mutually disjoint, disjoint from unmarked live slots, before the remaining
slots, and disjoint from any ambient family the slots avoid. -/
theorem fitWalk_sep (settings : UserSettings) (task : Task) (depC : Int)
    (latestC : Option Int)
    (hlat : ∀ l, latestC = some l →
      (900000 : Int) ∣ l ∨ l % 86400000 = 86399999)
    (D : List (Int × Int)) :
    ∀ (fuel : Nat) (st : WalkState),
      (∀ p ∈ st.done, SlotOK p.1) → (∀ s ∈ st.todo, SlotOK s) →
      (15 : Int) ∣ st.remaining → 0 < st.remaining →
      List.Pairwise (fun a b => a.stop ≤ b.start)
        (st.done.map (fun p => p.1) ++ st.todo) →
      List.Pairwise (fun a b => IvDisj (taskIv a) (taskIv b)) st.parts →
      (∀ p ∈ st.parts, ∀ q ∈ st.done, q.2 = false →
        IvDisj (taskIv p) (slotIv q.1)) →
      (∀ p ∈ st.parts, ∀ s ∈ st.todo, endMs p ≤ s.start) →
      (∀ p ∈ st.parts, ∀ d ∈ D, IvDisj (taskIv p) d) →
      (∀ s ∈ st.done.map (fun p => p.1) ++ st.todo, ∀ d ∈ D,
        IvDisj (slotIv s) d) →
      (∀ p ∈ (fitWalk settings task depC latestC fuel st).done, SlotOK p.1) ∧
      (∀ s ∈ (fitWalk settings task depC latestC fuel st).todo, SlotOK s) ∧
      List.Pairwise (fun a b => a.stop ≤ b.start)
        ((fitWalk settings task depC latestC fuel st).done.map (fun p => p.1)
          ++ (fitWalk settings task depC latestC fuel st).todo) ∧
      List.Pairwise (fun a b => IvDisj (taskIv a) (taskIv b))
        (fitWalk settings task depC latestC fuel st).parts ∧
      (∀ p ∈ (fitWalk settings task depC latestC fuel st).parts,
        ∀ q ∈ (fitWalk settings task depC latestC fuel st).done, q.2 = false →
        IvDisj (taskIv p) (slotIv q.1)) ∧
      (∀ p ∈ (fitWalk settings task depC latestC fuel st).parts,
        ∀ s ∈ (fitWalk settings task depC latestC fuel st).todo,
        endMs p ≤ s.start) ∧
      (∀ p ∈ (fitWalk settings task depC latestC fuel st).parts, ∀ d ∈ D,
        IvDisj (taskIv p) d) ∧
      (∀ s ∈ (fitWalk settings task depC latestC fuel st).done.map
          (fun p => p.1) ++ (fitWalk settings task depC latestC fuel st).todo,
        ∀ d ∈ D, IvDisj (slotIv s) d) := by
  intro fuel
  induction fuel with
  | zero =>
    intro st h1 h2 h3 h4 h5 h6 h7 h8 h9 h10
    exact ⟨h1, h2, h5, h6, h7, h8, h9, h10⟩
  | succ n ih =>
    intro st h1 h2 h3 h4 h5 h6 h7 h8 h9 h10
    obtain ⟨done, todo, remaining, parts, lastEnd⟩ := st
    dsimp only at h1 h2 h3 h4 h5 h6 h7 h8 h9 h10
    cases todo with
    | nil =>
      simp only [fitWalk]
      exact ⟨h1, h2, h5, h6, h7, h8, h9, h10⟩
    | cons slot rest =>
      have hslot : SlotOK slot := h2 slot (List.mem_cons_self slot rest)
      have hrest : ∀ s ∈ rest, SlotOK s :=
        fun s hs => h2 s (List.mem_cons_of_mem slot hs)
      have hsepKeep := h5
      rw [List.pairwise_append] at h5
      obtain ⟨hsepDone, hsepSR, hsepCross⟩ := h5
      rw [List.pairwise_cons] at hsepSR
      obtain ⟨hSR, hsepRest⟩ := hsepSR
      have hDS : ∀ x ∈ done.map (fun p => p.1), x.stop ≤ slot.start :=
        fun x hx => hsepCross x hx slot (List.mem_cons_self slot rest)
      have hDR : ∀ x ∈ done.map (fun p => p.1), ∀ y ∈ rest,
          x.stop ≤ y.start :=
        fun x hx y hy => hsepCross x hx y (List.mem_cons_of_mem slot hy)
      have hptSlot : ∀ p ∈ parts, endMs p ≤ slot.start :=
        fun p hp => h8 p hp slot (List.mem_cons_self slot rest)
      have hptRest : ∀ p ∈ parts, ∀ s ∈ rest, endMs p ≤ s.start :=
        fun p hp s hs => h8 p hp s (List.mem_cons_of_mem slot hs)
      have hdD : ∀ x ∈ done.map (fun p => p.1), ∀ d ∈ D,
          IvDisj (slotIv x) d :=
        fun x hx d hd => h10 x (List.mem_append_left _ hx) d hd
      have hslotD : ∀ d ∈ D, IvDisj (slotIv slot) d :=
        fun d hd => h10 slot
          (List.mem_append_right _ (List.mem_cons_self slot rest)) d hd
      have hrestD : ∀ s ∈ rest, ∀ d ∈ D, IvDisj (slotIv s) d :=
        fun s hs d hd => h10 s
          (List.mem_append_right _ (List.mem_cons_of_mem slot hs)) d hd
      simp only [fitWalk]
      cases hsf : slotFit slot depC latestC with
      | none =>
        dsimp only
        refine ih _ ?_ hrest h3 h4 ?_ h6 ?_ hptRest h9 ?_
        · intro p hp
          dsimp only at hp
          rw [List.mem_append] at hp
          rcases hp with hp | hp
          · exact h1 p hp
          · rw [List.mem_singleton] at hp
            subst hp
            exact hslot
        · dsimp only
          rw [List.map_append, List.map_cons, List.map_nil,
            List.append_assoc, List.singleton_append]
          exact hsepKeep
        · intro p hp q hq hq2
          dsimp only at hp hq
          rw [List.mem_append] at hq
          rcases hq with hq | hq
          · exact h7 p hp q hq hq2
          · rw [List.mem_singleton] at hq
            subst hq
            exact Or.inl (hptSlot p hp)
        · dsimp only
          rw [List.map_append, List.map_cons, List.map_nil,
            List.append_assoc, List.singleton_append]
          exact fun s hs d hd => h10 s hs d hd
      | some tup =>
        obtain ⟨u, stop2, avail⟩ := tup
        obtain ⟨hual, hstal, huge, hult, hstle, hmul, havdvd, havge⟩ :=
          slotFit_grid hslot hlat hsf
        dsimp only
        set fit := min avail remaining with hfitDef
        set pe := addMinutes u fit with hpeDef
        set part := mkPart settings task parts.length remaining fit u
          with hpartDef
        have hf15 : (15 : Int) ∣ fit := dvd_min15 havdvd h3
        have hfpos : 0 < fit := lt_min (by omega) h4
        have hfle : fit ≤ avail := min_le_left _ _
        have hrem2 : (15 : Int) ∣ (remaining - fit) := dvd_sub h3 hf15
        have hpe2 : pe = u + fit * 60000 := by rw [hpeDef]; rfl
        have hpeS : startMs part = u := by rw [hpartDef]; rfl
        have hpeE : endMs part = pe := by rw [hpartDef, hpeDef]; rfl
        have hpe_le : pe ≤ stop2 := by omega
        have hpe_gt : u < pe := by omega
        have hslotKeep := hslot
        obtain ⟨hq1, hq2, hq3⟩ := hslot
        obtain ⟨ku, hku⟩ := hual
        obtain ⟨kf, hkf⟩ := hf15
        have hpe_al : (900000 : Int) ∣ pe := by
          rw [hpe2]
          exact ⟨ku + kf, by rw [hku, hkf]; ring⟩
        have htrimA : SlotOK (⟨pe, slot.stop,
            differenceInMinutes slot.stop pe⟩ : Slot) := by
          unfold SlotOK
          dsimp only
          refine ⟨hpe_al, hq2, ?_⟩
          omega
        have htrimB : SlotOK (⟨slot.start, u,
            differenceInMinutes u slot.start⟩ : Slot) := by
          unfold SlotOK
          dsimp only
          refine ⟨hq1, ⟨ku, hku⟩, ?_⟩
          omega
        have hpartD : ∀ d ∈ D, IvDisj (taskIv part) d := by
          intro d hd
          refine IvDisj_sub (hslotD d hd) ?_ ?_
          · show slot.start ≤ startMs part
            rw [hpeS]
            exact huge
          · show endMs part ≤ slot.stop
            rw [hpeE]
            omega
        have hpartsPW : List.Pairwise (fun a b => IvDisj (taskIv a) (taskIv b))
            (parts ++ [part]) := by
          rw [List.pairwise_append]
          refine ⟨h6, List.pairwise_singleton _ _, ?_⟩
          intro q hq p2 hp2
          rw [List.mem_singleton] at hp2
          subst hp2
          refine Or.inl ?_
          show endMs q ≤ startMs part
          rw [hpeS]
          have := hptSlot q hq
          omega
        have hpartsD : ∀ p ∈ parts ++ [part], ∀ d ∈ D,
            IvDisj (taskIv p) d := by
          intro p hp d hd
          rw [List.mem_append] at hp
          rcases hp with hp | hp
          · exact h9 p hp d hd
          · rw [List.mem_singleton] at hp
            subst hp
            exact hpartD d hd
        have step : ∀ (st2 : WalkState),
            (∀ p ∈ st2.done, SlotOK p.1) → (∀ s ∈ st2.todo, SlotOK s) →
            (15 : Int) ∣ st2.remaining →
            st2.remaining = remaining - fit →
            List.Pairwise (fun a b => a.stop ≤ b.start)
              (st2.done.map (fun p => p.1) ++ st2.todo) →
            List.Pairwise (fun a b => IvDisj (taskIv a) (taskIv b))
              st2.parts →
            (∀ p ∈ st2.parts, ∀ q ∈ st2.done, q.2 = false →
              IvDisj (taskIv p) (slotIv q.1)) →
            (∀ p ∈ st2.parts, ∀ s ∈ st2.todo, endMs p ≤ s.start) →
            (∀ p ∈ st2.parts, ∀ d ∈ D, IvDisj (taskIv p) d) →
            (∀ s ∈ st2.done.map (fun p => p.1) ++ st2.todo, ∀ d ∈ D,
              IvDisj (slotIv s) d) →
            (∀ p ∈ (if remaining - fit ≤ 0 then st2
              else fitWalk settings task depC latestC n st2).done,
              SlotOK p.1) ∧
            (∀ s ∈ (if remaining - fit ≤ 0 then st2
              else fitWalk settings task depC latestC n st2).todo, SlotOK s) ∧
            List.Pairwise (fun a b => a.stop ≤ b.start)
              ((if remaining - fit ≤ 0 then st2
                else fitWalk settings task depC latestC n st2).done.map
                  (fun p => p.1) ++
                (if remaining - fit ≤ 0 then st2
                  else fitWalk settings task depC latestC n st2).todo) ∧
            List.Pairwise (fun a b => IvDisj (taskIv a) (taskIv b))
              (if remaining - fit ≤ 0 then st2
                else fitWalk settings task depC latestC n st2).parts ∧
            (∀ p ∈ (if remaining - fit ≤ 0 then st2
                else fitWalk settings task depC latestC n st2).parts,
              ∀ q ∈ (if remaining - fit ≤ 0 then st2
                else fitWalk settings task depC latestC n st2).done,
              q.2 = false → IvDisj (taskIv p) (slotIv q.1)) ∧
            (∀ p ∈ (if remaining - fit ≤ 0 then st2
                else fitWalk settings task depC latestC n st2).parts,
              ∀ s ∈ (if remaining - fit ≤ 0 then st2
                else fitWalk settings task depC latestC n st2).todo,
              endMs p ≤ s.start) ∧
            (∀ p ∈ (if remaining - fit ≤ 0 then st2
                else fitWalk settings task depC latestC n st2).parts,
              ∀ d ∈ D, IvDisj (taskIv p) d) ∧
            (∀ s ∈ (if remaining - fit ≤ 0 then st2
                else fitWalk settings task depC latestC n st2).done.map
                  (fun p => p.1) ++
                (if remaining - fit ≤ 0 then st2
                  else fitWalk settings task depC latestC n st2).todo,
              ∀ d ∈ D, IvDisj (slotIv s) d) := by
          intro st2 k1 k2 k3 k4 k5 k6 k7 k8 k9 k10
          split
          · exact ⟨k1, k2, k5, k6, k7, k8, k9, k10⟩
          · rename_i hng
            exact ih st2 k1 k2 k3 (by omega) k5 k6 k7 k8 k9 k10
        by_cases hu : u = slot.start
        · by_cases hfa : fit = avail
          · rw [if_pos hu, if_pos hfa]
            refine step _ ?_ hrest hrem2 rfl ?_ hpartsPW ?_ ?_ hpartsD ?_
            · intro p hp
              dsimp only at hp
              rw [List.mem_append] at hp
              rcases hp with hp | hp
              · exact h1 p hp
              · rw [List.mem_singleton] at hp
                subst hp
                exact hslotKeep
            · dsimp only
              rw [List.map_append, List.map_cons, List.map_nil,
                List.append_assoc, List.singleton_append]
              exact hsepKeep
            · intro p hp q hq hq2
              dsimp only at hp hq
              rw [List.mem_append] at hp hq
              rcases hq with hq | hq
              · rcases hp with hp | hp
                · exact h7 p hp q hq hq2
                · rw [List.mem_singleton] at hp
                  subst hp
                  refine Or.inr ?_
                  show q.1.stop ≤ startMs part
                  rw [hpeS]
                  have := hDS q.1 (List.mem_map_of_mem _ hq)
                  omega
              · rw [List.mem_singleton] at hq
                subst hq
                simp at hq2
            · intro p hp s hs
              dsimp only at hp hs
              rw [List.mem_append] at hp
              rcases hp with hp | hp
              · exact hptRest p hp s hs
              · rw [List.mem_singleton] at hp
                subst hp
                rw [hpeE]
                have := hSR s hs
                omega
            · dsimp only
              rw [List.map_append, List.map_cons, List.map_nil,
                List.append_assoc, List.singleton_append]
              exact fun s hs d hd => h10 s hs d hd
          · rw [if_pos hu, if_neg hfa]
            refine step _ ?_ hrest hrem2 rfl ?_ hpartsPW ?_ ?_ hpartsD ?_
            · intro p hp
              dsimp only at hp
              rw [List.mem_append] at hp
              rcases hp with hp | hp
              · exact h1 p hp
              · rw [List.mem_singleton] at hp
                subst hp
                exact htrimA
            · dsimp only
              rw [List.map_append, List.map_cons, List.map_nil,
                List.append_assoc, List.singleton_append]
              refine sep_replace hsepKeep (List.pairwise_singleton _ _) ?_
              intro p hp
              rw [List.mem_singleton] at hp
              subst hp
              dsimp only
              omega
            · intro p hp q hq hq2
              dsimp only at hp hq
              rw [List.mem_append] at hp hq
              rcases hq with hq | hq
              · rcases hp with hp | hp
                · exact h7 p hp q hq hq2
                · rw [List.mem_singleton] at hp
                  subst hp
                  refine Or.inr ?_
                  show q.1.stop ≤ startMs part
                  rw [hpeS]
                  have := hDS q.1 (List.mem_map_of_mem _ hq)
                  omega
              · rw [List.mem_singleton] at hq
                subst hq
                rcases hp with hp | hp
                · refine Or.inl ?_
                  show endMs p ≤ pe
                  have := hptSlot p hp
                  omega
                · rw [List.mem_singleton] at hp
                  subst hp
                  refine Or.inl ?_
                  show endMs part ≤ pe
                  rw [hpeE]
            · intro p hp s hs
              dsimp only at hp hs
              rw [List.mem_append] at hp
              rcases hp with hp | hp
              · exact hptRest p hp s hs
              · rw [List.mem_singleton] at hp
                subst hp
                rw [hpeE]
                have := hSR s hs
                omega
            · dsimp only
              rw [List.map_append, List.map_cons, List.map_nil,
                List.append_assoc, List.singleton_append]
              intro s hs d hd
              rw [List.mem_append] at hs
              rcases hs with hs | hs
              · exact hdD s hs d hd
              · rw [List.mem_cons] at hs
                rcases hs with hs | hs
                · subst hs
                  refine IvDisj_sub (hslotD d hd) ?_ ?_
                  · show slot.start ≤ pe
                    omega
                  · show slot.stop ≤ slot.stop
                    exact le_refl _
                · exact hrestD s hs d hd
        · by_cases hpc : pe < slot.stop
          · rw [if_neg hu, if_pos hpc]
            refine step _ ?_ ?_ hrem2 rfl ?_ hpartsPW ?_ ?_ hpartsD ?_
            · intro p hp
              dsimp only at hp
              rw [List.mem_append] at hp
              rcases hp with hp | hp
              · exact h1 p hp
              · rw [List.mem_singleton] at hp
                subst hp
                exact htrimB
            · intro s hs
              dsimp only at hs
              rw [List.mem_cons] at hs
              rcases hs with hs | hs
              · subst hs
                exact htrimA
              · exact hrest s hs
            · dsimp only
              rw [List.map_append, List.map_cons, List.map_nil,
                List.append_assoc, List.singleton_append]
              have hpw : List.Pairwise (fun a b => a.stop ≤ b.start)
                  [(⟨slot.start, u, differenceInMinutes u slot.start⟩ : Slot),
                   (⟨pe, slot.stop, differenceInMinutes slot.stop pe⟩ :
                     Slot)] := by
                refine List.pairwise_cons.mpr
                  ⟨?_, List.pairwise_singleton _ _⟩
                intro y hy
                rw [List.mem_singleton] at hy
                subst hy
                dsimp only
                omega
              refine sep_replace hsepKeep hpw ?_
              intro p hp
              rw [List.mem_cons, List.mem_singleton] at hp
              rcases hp with hp | hp
              · subst hp
                exact ⟨le_refl _, by dsimp only; omega⟩
              · subst hp
                exact ⟨by dsimp only; omega, le_refl _⟩
            · intro p hp q hq hq2
              dsimp only at hp hq
              rw [List.mem_append] at hp hq
              rcases hq with hq | hq
              · rcases hp with hp | hp
                · exact h7 p hp q hq hq2
                · rw [List.mem_singleton] at hp
                  subst hp
                  refine Or.inr ?_
                  show q.1.stop ≤ startMs part
                  rw [hpeS]
                  have := hDS q.1 (List.mem_map_of_mem _ hq)
                  omega
              · rw [List.mem_singleton] at hq
                subst hq
                rcases hp with hp | hp
                · refine Or.inl ?_
                  show endMs p ≤ slot.start
                  exact hptSlot p hp
                · rw [List.mem_singleton] at hp
                  subst hp
                  refine Or.inr ?_
                  show u ≤ startMs part
                  rw [hpeS]
            · intro p hp s hs
              dsimp only at hp hs
              rw [List.mem_append] at hp
              rw [List.mem_cons] at hs
              rcases hp with hp | hp
              · rcases hs with hs | hs
                · subst hs
                  show endMs p ≤ pe
                  have := hptSlot p hp
                  omega
                · exact hptRest p hp s hs
              · rw [List.mem_singleton] at hp
                subst hp
                rw [hpeE]
                rcases hs with hs | hs
                · subst hs
                  exact le_refl _
                · have := hSR s hs
                  omega
            · dsimp only
              rw [List.map_append, List.map_cons, List.map_nil,
                List.append_assoc, List.singleton_append]
              intro s hs d hd
              rw [List.mem_append] at hs
              rcases hs with hs | hs
              · exact hdD s hs d hd
              · rw [List.mem_cons] at hs
                rcases hs with hs | hs
                · subst hs
                  refine IvDisj_sub (hslotD d hd) (le_refl _) ?_
                  show u ≤ slot.stop
                  omega
                · rw [List.mem_cons] at hs
                  rcases hs with hs | hs
                  · subst hs
                    refine IvDisj_sub (hslotD d hd) ?_ (le_refl _)
                    show slot.start ≤ pe
                    omega
                  · exact hrestD s hs d hd
          · rw [if_neg hu, if_neg hpc]
            refine step _ ?_ hrest hrem2 rfl ?_ hpartsPW ?_ ?_ hpartsD ?_
            · intro p hp
              dsimp only at hp
              rw [List.mem_append] at hp
              rcases hp with hp | hp
              · exact h1 p hp
              · rw [List.mem_singleton] at hp
                subst hp
                exact htrimB
            · dsimp only
              rw [List.map_append, List.map_cons, List.map_nil,
                List.append_assoc, List.singleton_append]
              refine sep_replace hsepKeep (List.pairwise_singleton _ _) ?_
              intro p hp
              rw [List.mem_singleton] at hp
              subst hp
              dsimp only
              omega
            · intro p hp q hq hq2
              dsimp only at hp hq
              rw [List.mem_append] at hp hq
              rcases hq with hq | hq
              · rcases hp with hp | hp
                · exact h7 p hp q hq hq2
                · rw [List.mem_singleton] at hp
                  subst hp
                  refine Or.inr ?_
                  show q.1.stop ≤ startMs part
                  rw [hpeS]
                  have := hDS q.1 (List.mem_map_of_mem _ hq)
                  omega
              · rw [List.mem_singleton] at hq
                subst hq
                rcases hp with hp | hp
                · refine Or.inl ?_
                  show endMs p ≤ slot.start
                  exact hptSlot p hp
                · rw [List.mem_singleton] at hp
                  subst hp
                  refine Or.inr ?_
                  show u ≤ startMs part
                  rw [hpeS]
            · intro p hp s hs
              dsimp only at hp hs
              rw [List.mem_append] at hp
              rcases hp with hp | hp
              · exact hptRest p hp s hs
              · rw [List.mem_singleton] at hp
                subst hp
                rw [hpeE]
                have := hSR s hs
                omega
            · dsimp only
              rw [List.map_append, List.map_cons, List.map_nil,
                List.append_assoc, List.singleton_append]
              intro s hs d hd
              rw [List.mem_append] at hs
              rcases hs with hs | hs
              · exact hdD s hs d hd
              · rw [List.mem_cons] at hs
                rcases hs with hs | hs
                · subst hs
                  refine IvDisj_sub (hslotD d hd) (le_refl _) ?_
                  show u ≤ slot.stop
                  omega
                · exact hrestD s hs d hd

/-- Placing one task preserves slot separation and produces a schedule that
stays mutually disjoint, disjoint from the remaining slots, and disjoint
from any ambient interval family the slots avoid. -/
theorem placeTask_sep (settings : UserSettings) (currentDate : Int)
    (st : FitState) (task : Task) (EXT : List (Int × Int))
    (hlatest : ∀ l, task.latestEnd = some l → (900000 : Int) ∣ l)
    (hdur : (15 : Int) ∣ task.durationMinutes)
    (hdpos : 0 < task.durationMinutes)
    (B1 : ∀ s ∈ st.slots, SlotOK s)
    (B2 : SepSlots st.slots)
    (B3 : List.Pairwise (fun a b => IvDisj (taskIv a) (taskIv b)) st.scheduled)
    (B4 : ∀ q ∈ st.scheduled, ∀ s ∈ st.slots, IvDisj (taskIv q) (slotIv s))
    (B5 : ∀ s ∈ st.slots, ∀ d ∈ EXT, IvDisj (slotIv s) d)
    (B6 : ∀ q ∈ st.scheduled, ∀ d ∈ EXT, IvDisj (taskIv q) d) :
    (∀ s ∈ (placeTask settings currentDate st task).slots, SlotOK s) ∧
    SepSlots (placeTask settings currentDate st task).slots ∧
    List.Pairwise (fun a b => IvDisj (taskIv a) (taskIv b))
      (placeTask settings currentDate st task).scheduled ∧
    (∀ q ∈ (placeTask settings currentDate st task).scheduled,
      ∀ s ∈ (placeTask settings currentDate st task).slots,
      IvDisj (taskIv q) (slotIv s)) ∧
    (∀ s ∈ (placeTask settings currentDate st task).slots, ∀ d ∈ EXT,
      IvDisj (slotIv s) d) ∧
    (∀ q ∈ (placeTask settings currentDate st task).scheduled, ∀ d ∈ EXT,
      IvDisj (taskIv q) d) := by
  have hlat := latestConstraint_shape task hlatest
  simp only [placeTask]
  obtain ⟨W1, W2, W3, W4, W5, W6, W7, W8⟩ := fitWalk_sep settings task
    (dependencyConstraint st.completion currentDate task)
    (latestConstraint task) hlat (st.scheduled.map taskIv ++ EXT)
    (st.slots.length + task.durationMinutes.toNat + 2)
    { done := (st.slots.take (energyStartIndex st.slots task
        (dependencyConstraint st.completion currentDate task)
        (latestConstraint task))).map (fun s => (s, false)),
      todo := st.slots.drop (energyStartIndex st.slots task
        (dependencyConstraint st.completion currentDate task)
        (latestConstraint task)),
      remaining := task.durationMinutes, parts := [], lastEnd := none }
    (by
      intro p hp
      rw [List.mem_map] at hp
      obtain ⟨s0, hs0, rfl⟩ := hp
      exact B1 s0 (List.take_subset _ _ hs0))
    (by
      intro s hs
      exact B1 s (List.drop_subset _ _ hs))
    hdur hdpos
    (by
      dsimp only
      rw [List.map_map]
      have hmapid : ((st.slots.take (energyStartIndex st.slots task
          (dependencyConstraint st.completion currentDate task)
          (latestConstraint task))).map
            ((fun p => p.1) ∘ (fun s => (s, false)))) =
          st.slots.take (energyStartIndex st.slots task
            (dependencyConstraint st.completion currentDate task)
            (latestConstraint task)) := List.map_id _
      rw [hmapid, List.take_append_drop]
      exact B2)
    List.Pairwise.nil
    (by intro p hp; simp at hp)
    (by intro p hp; simp at hp)
    (by intro p hp; simp at hp)
    (by
      dsimp only
      rw [List.map_map]
      have hmapid : ((st.slots.take (energyStartIndex st.slots task
          (dependencyConstraint st.completion currentDate task)
          (latestConstraint task))).map
            ((fun p => p.1) ∘ (fun s => (s, false)))) =
          st.slots.take (energyStartIndex st.slots task
            (dependencyConstraint st.completion currentDate task)
            (latestConstraint task)) := List.map_id _
      rw [hmapid, List.take_append_drop]
      intro s hs d hd
      rw [List.mem_append] at hd
      rcases hd with hd | hd
      · rw [List.mem_map] at hd
        obtain ⟨q, hq, rfl⟩ := hd
        exact IvDisj_symm (B4 q hq s hs)
      · exact B5 s hs d hd)
  split
  · rename_i hok
    refine ⟨?_, ?_, ?_, ?_, ?_, ?_⟩
    · intro s hs
      dsimp only at hs
      rw [List.mem_append] at hs
      rcases hs with hs | hs
      · rw [List.mem_map] at hs
        obtain ⟨p, hpf, rfl⟩ := hs
        exact W1 p (List.mem_of_mem_filter hpf)
      · exact W2 s hs
    · dsimp only
      refine List.Pairwise.sublist ?_ W3
      exact List.Sublist.append
        (List.Sublist.map _ (List.filter_sublist _)) (List.Sublist.refl _)
    · dsimp only
      rw [List.pairwise_append]
      refine ⟨B3, W4, ?_⟩
      intro q hq p hp
      exact IvDisj_symm (W7 p hp (taskIv q)
        (List.mem_append_left _ (List.mem_map_of_mem _ hq)))
    · intro q hq s hs
      dsimp only at hq hs
      rw [List.mem_append] at hq hs
      rcases hq with hq | hq
      · rcases hs with hs | hs
        · rw [List.mem_map] at hs
          obtain ⟨p, hpf, rfl⟩ := hs
          exact IvDisj_symm (W8 p.1 (List.mem_append_left _
            (List.mem_map_of_mem _ (List.mem_of_mem_filter hpf)))
            (taskIv q) (List.mem_append_left _ (List.mem_map_of_mem _ hq)))
        · exact IvDisj_symm (W8 s (List.mem_append_right _ hs)
            (taskIv q) (List.mem_append_left _ (List.mem_map_of_mem _ hq)))
      · rcases hs with hs | hs
        · rw [List.mem_map] at hs
          obtain ⟨p, hpf, rfl⟩ := hs
          obtain ⟨hpd, hpv⟩ := List.mem_filter.mp hpf
          refine W5 q hq p hpd ?_
          rw [decide_eq_true_iff] at hpv
          rw [Bool.not_eq_true] at hpv
          exact hpv
        · exact Or.inl (W6 q hq s hs)
    · intro s hs d hd
      dsimp only at hs
      rw [List.mem_append] at hs
      rcases hs with hs | hs
      · rw [List.mem_map] at hs
        obtain ⟨p, hpf, rfl⟩ := hs
        exact W8 p.1 (List.mem_append_left _
          (List.mem_map_of_mem _ (List.mem_of_mem_filter hpf)))
          d (List.mem_append_right _ hd)
      · exact W8 s (List.mem_append_right _ hs) d
          (List.mem_append_right _ hd)
    · intro q hq d hd
      dsimp only at hq
      rw [List.mem_append] at hq
      rcases hq with hq | hq
      · exact B6 q hq d hd
      · exact W7 q hq d (List.mem_append_right _ hd)
  · refine ⟨?_, ?_, B3, ?_, ?_, B6⟩
    · intro s hs
      dsimp only at hs
      rw [List.mem_append] at hs
      rcases hs with hs | hs
      · rw [List.mem_map] at hs
        obtain ⟨p, hp, rfl⟩ := hs
        exact W1 p hp
      · exact W2 s hs
    · exact W3
    · intro q hq s hs
      dsimp only at hq hs
      exact IvDisj_symm (W8 s hs (taskIv q)
        (List.mem_append_left _ (List.mem_map_of_mem _ hq)))
    · intro s hs d hd
      dsimp only at hs
      exact W8 s hs d (List.mem_append_right _ hd)

/-- The task-fitting loop preserves the separation invariants. -/
theorem fitLoop_sep (settings : UserSettings) (currentDate : Int)
    (pending : List Task) (pendingIds : List String) (EXT : List (Int × Int))
    (hts : ∀ t ∈ pending,
      (∀ l, t.latestEnd = some l → (900000 : Int) ∣ l) ∧
      (15 : Int) ∣ t.durationMinutes ∧ 0 < t.durationMinutes) :
    ∀ (fuel : Nat) (st : FitState),
      (∀ s ∈ st.slots, SlotOK s) → SepSlots st.slots →
      List.Pairwise (fun a b => IvDisj (taskIv a) (taskIv b)) st.scheduled →
      (∀ q ∈ st.scheduled, ∀ s ∈ st.slots, IvDisj (taskIv q) (slotIv s)) →
      (∀ s ∈ st.slots, ∀ d ∈ EXT, IvDisj (slotIv s) d) →
      (∀ q ∈ st.scheduled, ∀ d ∈ EXT, IvDisj (taskIv q) d) →
      List.Pairwise (fun a b => IvDisj (taskIv a) (taskIv b))
        (fitLoop settings currentDate pending pendingIds fuel st).scheduled ∧
      (∀ q ∈ (fitLoop settings currentDate pending pendingIds fuel
          st).scheduled,
        ∀ d ∈ EXT, IvDisj (taskIv q) d) := by
  intro fuel
  induction fuel with
  | zero =>
    intro st _ _ hB3 _ _ hB6
    exact ⟨hB3, hB6⟩
  | succ n ih =>
    intro st hB1 hB2 hB3 hB4 hB5 hB6
    rw [fitLoop]
    split
    rotate_left
    · exact ⟨hB3, hB6⟩
    cases hpick : pickTask pending pendingIds st with
    | none => exact ⟨hB3, hB6⟩
    | some task =>
      have htask := (pickTask_some pending pendingIds st task hpick).1
      obtain ⟨hl, hd, hp⟩ := hts task htask
      obtain ⟨g1, g2, g3, g4, g5, g6⟩ := placeTask_sep settings currentDate
        { st with alternateTodo := ¬ st.alternateTodo,
                  processed := st.processed ++ [task.id] } task EXT hl hd hp
        hB1 hB2 hB3 hB4 hB5 hB6
      exact ih _ g1 g2 g3 g4 g5 g6

/-- Claim C1, amended: under sane work hours, well-formed single-day fixed
events on whole minutes, and grid-aligned explicit latest ends, no two
intervals among the scheduled parts, the emitted breaks, and the active
fixed input events overlap, except possibly two fixed input events between
themselves.  Without the single-day restriction the claim fails: the day
index files a midnight-spanning fixed event under its start day only (see
the counterexample). -/
theorem C1_amended (settings : UserSettings) (tasks fixedTasks : List Task)
    (currentDate : Int) (prof : String)
    (hws : 0 ≤ settings.workStartHour) (hwe : settings.workEndHour ≤ 23)
    (hfix : ∀ f ∈ fixedTasks, ∀ s e : Int, f.scheduledStart = some s →
      f.scheduledEnd = some e → f.status ≠ TaskStatus.done →
      s < e ∧ e ≤ startOfDay s + 86400000 ∧
      (60000 : Int) ∣ s ∧ (60000 : Int) ∣ e)
    (hlat : ∀ t ∈ tasks, ∀ l, t.latestEnd = some l → (900000 : Int) ∣ l) :
    List.Pairwise (fun a b => IvDisj (taskIv a) (taskIv b))
      ((suggestSchedule tasks fixedTasks currentDate prof settings).scheduled
        ++ (suggestSchedule tasks fixedTasks currentDate prof
          settings).breaks) ∧
    ∀ p ∈ (suggestSchedule tasks fixedTasks currentDate prof
        settings).scheduled ++
        (suggestSchedule tasks fixedTasks currentDate prof settings).breaks,
      ∀ f ∈ fixedTasks, activeFixed f → IvDisj (taskIv p) (taskIv f) := by
  have hidem : startOfDay (startOfDay currentDate) = startOfDay currentDate :=
    by unfold startOfDay; omega
  simp only [suggestSchedule]
  set AW := availableWindowsLoop settings currentDate
    (fixedTasksByDay fixedTasks) 180 (startOfDay currentDate) with hAW
  set CH := if settings.enableChunking = true then chunkWindows settings AW
    else (AW, []) with hCH
  set PEND := tasks.map (fun t =>
    { t with durationMinutes := roundToNearest15 t.durationMinutes })
    with hPEND
  set COMP := fixedTasks.foldl (fun m t =>
    match t.scheduledEnd with
    | some e => mapSet m t.id e
    | none => m) [] with hCOMP
  set FIXIV := (fixedTasks.filter (fun f =>
    f.scheduledStart.isSome && f.scheduledEnd.isSome &&
    decide (f.status ≠ TaskStatus.done))).map taskIv with hFIXIV
  have hwinOK : ∀ w ∈ AW, SlotOK w := by
    rw [hAW]
    exact availableWindowsLoop_ok settings currentDate
      (fixedTasksByDay fixedTasks) hws hwe 180 (startOfDay currentDate)
  have hwinMain := availableWindowsLoop_main settings currentDate fixedTasks
    hws hwe hfix 180 (startOfDay currentDate) hidem
  rw [← hAW] at hwinMain
  obtain ⟨hwinSep, hwinMem⟩ := hwinMain
  have hwinAvoid : ∀ w ∈ AW, ∀ f ∈ fixedTasks, activeFixed f →
      IvDisj (slotIv w) (taskIv f) :=
    fun w hw => (hwinMem w hw).2
  have hchunk : ∀ (b : Bool) (av : List Slot),
      (∀ w ∈ av, SlotOK w) → SepSlots av →
      (∀ w ∈ av, ∀ f ∈ fixedTasks, activeFixed f →
        IvDisj (slotIv w) (taskIv f)) →
      (∀ s ∈ (if b = true then chunkWindows settings av else (av, [])).1,
        SlotOK s) ∧
      SepSlots (if b = true then chunkWindows settings av else (av, [])).1 ∧
      SepTasks (if b = true then chunkWindows settings av else (av, [])).2 ∧
      (∀ s ∈ (if b = true then chunkWindows settings av else (av, [])).1,
        ∀ bk ∈ (if b = true then chunkWindows settings av else (av, [])).2,
        IvDisj (slotIv s) (taskIv bk)) ∧
      (∀ s ∈ (if b = true then chunkWindows settings av else (av, [])).1,
        ∀ f ∈ fixedTasks, activeFixed f → IvDisj (slotIv s) (taskIv f)) ∧
      (∀ bk ∈ (if b = true then chunkWindows settings av else (av, [])).2,
        ∀ f ∈ fixedTasks, activeFixed f → IvDisj (taskIv bk) (taskIv f)) := by
    intro b av hok hsep havoid
    cases b with
    | false =>
      rw [if_neg (by simp)]
      refine ⟨hok, hsep, List.Pairwise.nil, ?_, havoid, ?_⟩
      · intro s hs bk hbk
        simp at hbk
      · intro bk hbk
        simp at hbk
    | true =>
      rw [if_pos rfl]
      obtain ⟨m1, m2, m3, m4, m5⟩ := chunkWindows_main settings av hsep
      refine ⟨chunkWindows_slots_ok settings av hok, m1, m2, m3, ?_, ?_⟩
      · intro s hs f hf hact
        obtain ⟨w, hw, k1, k2, k3⟩ := m4 s hs
        exact IvDisj_sub (havoid w hw f hf hact) k1 k3
      · intro bk hbk f hf hact
        obtain ⟨w, hw, k1, k2, k3⟩ := m5 bk hbk
        exact IvDisj_sub (havoid w hw f hf hact) k1 k3
  have hc := hchunk settings.enableChunking AW hwinOK hwinSep hwinAvoid
  rw [← hCH] at hc
  obtain ⟨hc1, hc2, hc3, hc4, hc5, hc6⟩ := hc
  have hts : ∀ t ∈ PEND,
      (∀ l, t.latestEnd = some l → (900000 : Int) ∣ l) ∧
      (15 : Int) ∣ t.durationMinutes ∧ 0 < t.durationMinutes := by
    intro t ht
    rw [hPEND, List.mem_map] at ht
    obtain ⟨t0, ht0, rfl⟩ := ht
    dsimp only
    refine ⟨fun l hl => hlat t0 ht0 l hl, roundToNearest15_dvd _, ?_⟩
    have := roundToNearest15_ge t0.durationMinutes
    omega
  have hB5 : ∀ s ∈ CH.1, ∀ d ∈ CH.2.map taskIv ++ FIXIV,
      IvDisj (slotIv s) d := by
    intro s hs d hd
    rw [List.mem_append] at hd
    rcases hd with hd | hd
    · rw [List.mem_map] at hd
      obtain ⟨bk, hbk, rfl⟩ := hd
      exact hc4 s hs bk hbk
    · rw [hFIXIV, List.mem_map] at hd
      obtain ⟨f, hf, rfl⟩ := hd
      obtain ⟨hfT, hcond⟩ := List.mem_filter.mp hf
      simp only [Bool.and_eq_true, decide_eq_true_iff] at hcond
      exact hc5 s hs f hfT ⟨hcond.1.1, hcond.1.2, hcond.2⟩
  obtain ⟨F1, F2⟩ := fitLoop_sep settings currentDate PEND (PEND.map Task.id)
    (CH.2.map taskIv ++ FIXIV) hts (PEND.length + 1)
    { slots := CH.1, scheduled := [], completion := COMP, unscheduled := [],
      processed := [], alternateTodo := true, scheduledHighTodo := false }
    hc1 hc2 List.Pairwise.nil (by intro q hq; simp at hq) hB5
    (by intro q hq; simp at hq)
  constructor
  · rw [List.pairwise_append]
    refine ⟨F1, ?_, ?_⟩
    · exact List.Pairwise.imp (fun hab => Or.inl hab) hc3
    · intro q hq b hb
      exact F2 q hq (taskIv b)
        (List.mem_append_left _ (List.mem_map_of_mem _ hb))
  · intro p hp f hf hact
    rw [List.mem_append] at hp
    rcases hp with hp | hp
    · refine F2 p hp (taskIv f) (List.mem_append_right _ ?_)
      rw [hFIXIV]
      refine List.mem_map_of_mem _ (List.mem_filter.mpr ⟨hf, ?_⟩)
      simp only [Bool.and_eq_true, decide_eq_true_iff]
      exact ⟨⟨hact.1, hact.2.1⟩, hact.2.2⟩
    · exact hc6 p hp f hf hact

/-- Claim C1, counterexample: a fixed event spanning Sunday 23:00 to Monday
09:30 is indexed under its start's day (Sunday) only, so Monday's windows
never subtract it and the plan books the 09:00-09:30 slot on top of it. -/
theorem C1_counterexample :
    activeFixed c1F ∧
    ((suggestSchedule [c1T] [c1F] c3Now "" c3Settings).scheduled.map taskIv)
      = [(c3Now + 32400000, c3Now + 34200000)] ∧
    ¬ IvDisj (c3Now + 32400000, c3Now + 34200000) (taskIv c1F) := by
  decide

/-- Witness for C1_amended on a concrete plan with one fixed event. -/
theorem C1_amended_witness :
    (0 ≤ c3Settings.workStartHour) ∧ (c3Settings.workEndHour ≤ 23) ∧
    (∀ f ∈ [c5F], ∀ s e : Int, f.scheduledStart = some s →
      f.scheduledEnd = some e → f.status ≠ TaskStatus.done →
      s < e ∧ e ≤ startOfDay s + 86400000 ∧
      (60000 : Int) ∣ s ∧ (60000 : Int) ∣ e) ∧
    (∀ t ∈ [c3Task], ∀ l, t.latestEnd = some l → (900000 : Int) ∣ l) ∧
    (List.Pairwise (fun a b => IvDisj (taskIv a) (taskIv b))
      ((suggestSchedule [c3Task] [c5F] c3Now "" c3Settings).scheduled ++
        (suggestSchedule [c3Task] [c5F] c3Now "" c3Settings).breaks) ∧
     ∀ p ∈ (suggestSchedule [c3Task] [c5F] c3Now "" c3Settings).scheduled ++
        (suggestSchedule [c3Task] [c5F] c3Now "" c3Settings).breaks,
      ∀ f ∈ [c5F], activeFixed f → IvDisj (taskIv p) (taskIv f)) := by
  have hfixp : ∀ f ∈ [c5F], ∀ s e : Int, f.scheduledStart = some s →
      f.scheduledEnd = some e → f.status ≠ TaskStatus.done →
      s < e ∧ e ≤ startOfDay s + 86400000 ∧
      (60000 : Int) ∣ s ∧ (60000 : Int) ∣ e := by
    intro f hf s e hs he hnd
    rw [List.mem_singleton] at hf
    subst hf
    simp only [c5F] at hs he
    rw [Option.some.injEq] at hs he
    subst hs he
    unfold c3Now startOfDay
    refine ⟨by omega, by omega, by omega, by omega⟩
  have hlatp : ∀ t ∈ [c3Task], ∀ l, t.latestEnd = some l →
      (900000 : Int) ∣ l := by
    intro t ht l hl
    rw [List.mem_singleton] at ht
    subst ht
    simp only [c3Task] at hl
    cases hl
  exact ⟨by decide, by decide, hfixp, hlatp,
    C1_amended c3Settings [c3Task] [c5F] c3Now "" (by decide) (by decide)
      hfixp hlatp⟩

end FS
